import Mathlib

/-!
# astroterm: catalog data model

A shallow embedding of the catalog-building code of `src/core.c`
(`map_float_to_int_range`, `star_magnitude_comparator`,
`star_numbers_by_magnitude`, `generate_star_table`, `generate_name_table`)
together with the properties the specification states about it.

Modelling conventions
* A finite `double`/`float` is modelled by the rational number it denotes. In
  `map_float_to_int_range` every floating-point operation is rounded to the
  nearest `double` (IEEE 754 binary64, ties to even) and the `int` arithmetic is
  32 bits wide; elsewhere floating-point operations are exact rational arithmetic
  and an `int` is an unbounded integer.
* A conversion `(int) x` truncates toward zero.
* A C string is the list of its characters before the terminating NUL; a `char *`
  that may be `NULL` is an `Option`.
* A read or write outside an array, and a library call on a `NULL` string, is
  undefined behaviour in C: the model returns `none` there.
-/

namespace Astroterm

/-! ## Numeric helpers of the C library -/

/-- The C library function `round`: the nearest integral value, halfway cases
rounded away from zero. -/
def c_round (x : ℚ) : ℚ :=
  if 0 ≤ x then ((⌊x + 1 / 2⌋ : ℤ) : ℚ) else -((⌊-x + 1 / 2⌋ : ℤ) : ℚ)

/-- The C conversion `(int) x` of a floating value: truncation toward zero. -/
def c_int_cast (x : ℚ) : ℤ :=
  if 0 ≤ x then ⌊x⌋ else -⌊-x⌋

/-! ## Arithmetic of `double` and `int` -/

/-- Rounding to the nearest integer, a tie going to the even integer: the rounding
of IEEE 754 arithmetic. -/
def round_half_even (x : ℚ) : ℤ :=
  if x - ⌊x⌋ < 1 / 2 then ⌊x⌋
  else if 1 / 2 < x - ⌊x⌋ then ⌊x⌋ + 1
  else if ⌊x⌋ % 2 = 0 then ⌊x⌋ else ⌊x⌋ + 1

/-- A positive value rounded to the precision of a `double` (binary64): with
`2 ^ e <= x < 2 ^ (e + 1)`, the nearest multiple of `2 ^ (e - 52)` (53 significant
bits), and in the subnormal range the nearest multiple of `2 ^ (-1074)`; a tie
goes to the even multiple. -/
def round_magnitude (x : ℚ) : ℚ :=
  let exponent := max (Int.log 2 x) (-1022)
  let ulp : ℚ := 2 ^ (exponent - 52)
  round_half_even (x / ulp) * ulp

/-- A value rounded to the precision of a `double`, the exponent not yet limited
from above. -/
def round_binary64 (x : ℚ) : ℚ :=
  if x = 0 then 0 else if 0 < x then round_magnitude x else -round_magnitude (-x)

/-- The `double` that an arithmetic operation with exact result `x` returns
(round to nearest, ties to even). `none` stands for a value that is not finite:
an infinity, here from overflow, or a NaN. -/
def binary64 (x : ℚ) : Option ℚ :=
  if |round_binary64 x| < 2 ^ 1024 then some (round_binary64 x) else none

/-- A value that a `double` holds exactly: the rounding of binary64 arithmetic
leaves it unchanged and it is finite. -/
def representable (x : ℚ) : Prop :=
  binary64 x = some x

/-- The quotient `x / y` of two `double` values, either of which may be not finite
(`none`): a finite value divided by an infinity is zero; a division by zero and a
division of a value that is not finite give a value that is not finite. -/
def double_div : Option ℚ → Option ℚ → Option ℚ
  | some x, some y => if y = 0 then none else binary64 (x / y)
  | some _, none => some 0
  | none, _ => none

/-- The product `k * x` of an `int`, converted to `double`, and a `double`. -/
def double_mul (k : ℤ) : Option ℚ → Option ℚ
  | some x => binary64 ((k : ℚ) * x)
  | none => none

/-- The conversion `(int) x` of a `double` to a 32-bit `int` as compiled for
x86-64: truncation toward zero, and `INT_MIN` when the value is not finite or the
truncated value does not fit in an `int` (a case ISO C leaves undefined). -/
def int_of_double : Option ℚ → ℤ
  | some x =>
    if -2147483648 ≤ c_int_cast x ∧ c_int_cast x ≤ 2147483647 then c_int_cast x
    else -2147483648
  | none => -2147483648

/-- The 32-bit `int` that an `int` operation with exact result `n` returns:
two's-complement wrap-around (what the x86-64 instructions give where ISO C leaves
signed overflow undefined). -/
def wrap_int (n : ℤ) : ℤ :=
  (n + 2147483648) % 4294967296 - 2147483648

/-! ## `map_float_to_int_range` (core.c, lines 609-614) -/

/-- Embedding of
```
double percent = (input - min_float) / (max_float - min_float);
return min_int + (int) round((max_int - min_int) * percent);
```
in binary64 arithmetic: the two subtractions, the division and the multiplication
are each rounded to the nearest `double`, `max_int - min_int` and the final sum are
32-bit `int` operations. The arguments are the values of the `double` parameters;
for `max_float = min_float` the division is by zero and `percent` is not finite. -/
def map_float_to_int_range (min_float max_float : ℚ) (min_int max_int : ℤ)
    (input : ℚ) : ℤ :=
  let percent : Option ℚ :=
    double_div (binary64 (input - min_float)) (binary64 (max_float - min_float))
  wrap_int (min_int +
    int_of_double ((double_mul (wrap_int (max_int - min_int)) percent).map c_round))

/-- The `double` value of `(max_int - min_int) * percent` in
`map_float_to_int_range`, the argument of `round`; `none` when it is not finite. -/
def scaled_value (min_float max_float : ℚ) (min_int max_int : ℤ) (input : ℚ) : Option ℚ :=
  double_mul (wrap_int (max_int - min_int))
    (double_div (binary64 (input - min_float)) (binary64 (max_float - min_float)))

/-- The calibrated magnitude of the brightest star, `const float min_magnitude =
-1.46f`: the `float` nearest to -1.46, which is `-12247368 / 2 ^ 23`. -/
def min_magnitude : ℚ := -1530921 / 1048576

/-- The calibrated magnitude of the dimmest star, `const float max_magnitude =
7.96f`: the `float` nearest to 7.96, which is `16693330 / 2 ^ 21`. -/
def max_magnitude : ℚ := 8346665 / 1048576

/-- Rounding to the nearest integer with halves away from zero, written the way
the specification words it: the sign of `x` times the nearest integer to `|x|`
(halves of `|x|` going up). -/
def spec_round_half_away (x : ℚ) : ℤ :=
  if x < 0 then -round (-x) else round x

/-- The bucket formula of the specification:
`min_int + round((max_int - min_int) * (input - min_float) / (max_float - min_float))`. -/
def spec_map_float_to_int_range (min_float max_float : ℚ) (min_int max_int : ℤ)
    (input : ℚ) : ℤ :=
  min_int + spec_round_half_away
    ((((max_int : ℚ) - (min_int : ℚ)) * (input - min_float)) / (max_float - min_float))

/-- The value `(int) round(x)` as an integer. -/
def round_to_int (x : ℚ) : ℤ :=
  if 0 ≤ x then ⌊x + 1 / 2⌋ else -⌊-x + 1 / 2⌋

/-! ## Data model (cstar.h; the fields `core.c` writes) -/

/-- The rendering information shared by all celestial bodies, `struct object_base`.
`symbol_unicode` and `label` are `char *`: `none` is `NULL`. -/
structure object_base where
  y : ℤ
  x : ℤ
  azimuth : ℚ
  altitude : ℚ
  color_pair : ℤ
  symbol_ASCII : Char
  symbol_unicode : Option (List Char)
  label : Option (List Char)
deriving DecidableEq

/-- A star, `struct star`. -/
structure star where
  base : object_base
  catalog_number : ℤ
  magnitude : ℚ
  right_ascension : ℚ
  declination : ℚ
  ra_motion : ℚ
  dec_motion : ℚ
deriving DecidableEq

/-- A slot of the name table, `struct star_name`: `name` is a `char *`, `none`
is `NULL`. -/
structure star_name where
  name : Option (List Char)
deriving DecidableEq

/-- Modelled from the spec: `struct entry` of `parse_BSC5.h`, which is not among
the sources. A catalog entry carries the catalog number `XNO`, right ascension
`SRA0`, declination `SDEC0`, the proper-motion rates `XRPM` and `XDPM`, and the
magnitude `MAG`, a signed fixed-point value scaled by 100. The fields that
`generate_star_table` converts with a cast are floating values. -/
structure entry where
  XNO : ℚ
  SRA0 : ℚ
  SDEC0 : ℚ
  XRPM : ℚ
  XDPM : ℚ
  MAG : ℤ
deriving DecidableEq

/-- Reading `a[i]` with an `int` index: `none` outside the array. -/
def array_read {α : Type} (a : List α) (i : ℤ) : Option α :=
  if 0 ≤ i then a[i.toNat]? else none

/-- Writing `a[i] = v` with an `int` index: `none` outside the array. -/
def array_write {α : Type} (a : List α) (i : ℤ) (v : α) : Option (List α) :=
  if 0 ≤ i ∧ i.toNat < a.length then some (a.set i.toNat v) else none

/-! ## `star_magnitude_comparator` and `star_numbers_by_magnitude`
(core.c, lines 563-607) -/

/-- Embedding of the comparator: `+1` when `p1` has the lower magnitude, `-1` when
it has the higher one, `0` otherwise. -/
def star_magnitude_comparator (p1 p2 : star) : ℤ :=
  if p1.magnitude < p2.magnitude then 1
  else if p1.magnitude > p2.magnitude then -1
  else 0

/-- What the C library promises of `qsort(base, n, size, compar)`: the array is
rearranged (a permutation) so that `compar` never puts a later element before an
earlier one. The order of elements that compare equal is unspecified. -/
def qsort_sorts {α : Type} (compar : α → α → ℤ) (base result : List α) : Prop :=
  result.Perm base ∧ result.Pairwise (fun a b => compar a b ≤ 0)

/-- A library `qsort` meets its contract on the star comparator. -/
def qsort_contract (qsort : (star → star → ℤ) → List star → List star) : Prop :=
  ∀ base : List star,
    qsort_sorts star_magnitude_comparator base (qsort star_magnitude_comparator base)

/-- The sorted `table_copy` of `star_numbers_by_magnitude`: `memcpy` of the first
`num_stars` stars followed by `qsort` with `star_magnitude_comparator`. The
library `qsort` is a parameter. -/
def sorted_table_copy (qsort : (star → star → ℤ) → List star → List star)
    (star_table : List star) (num_stars : ℕ) : List star :=
  qsort star_magnitude_comparator (star_table.take num_stars)

/-- Embedding of `star_numbers_by_magnitude`: the catalog numbers of the sorted
copy, in the copy's order. Reading `num_stars` stars from a shorter table is
undefined behaviour (`none`). -/
def star_numbers_by_magnitude (qsort : (star → star → ℤ) → List star → List star)
    (star_table : List star) (num_stars : ℕ) : Option (List ℤ) :=
  if num_stars ≤ star_table.length then
    some ((sorted_table_copy qsort star_table num_stars).map (fun s => s.catalog_number))
  else none

/-- A conforming `qsort`: insertion sort, which keeps equal elements in input
order. -/
def qsort_insertion (compar : star → star → ℤ) (base : List star) : List star :=
  base.insertionSort (fun a b => compar a b ≤ 0)

/-- The table `mag_map_unicode_round`. -/
def mag_map_unicode_round : List (List Char) :=
  ["⬤".toList, "●".toList, "⦁".toList, "•".toList, "•".toList,
   "∙".toList, "⋅".toList, "⋅".toList, "⋅".toList, "⋅".toList]

/-- The table `mag_map_round_ASCII`. -/
def mag_map_round_ASCII : List Char :=
  ['0', '0', 'O', 'O', 'o', 'o', '.', '.', '.', '.']

/-- One iteration of the loop of `generate_star_table`: the assignments to the
local `temp_star`, in source order. `temp_star` starts with indeterminate
contents (the parameter), `base` is assigned from a compound literal, which zeroes
the members it does not name, and the label is copied when the name is not `NULL`.
The two glyph lookups are undefined behaviour outside the 10-entry tables
(`none`). -/
def star_of_entry (temp_star : star) (e : entry) (nm : star_name) : Option star :=
  let temp_star := { temp_star with catalog_number := c_int_cast e.XNO }
  let temp_star := { temp_star with right_ascension := e.SRA0 }
  let temp_star := { temp_star with declination := e.SDEC0 }
  let temp_star := { temp_star with ra_motion := e.XRPM }
  let temp_star := { temp_star with ra_motion := e.XDPM }
  let temp_star := { temp_star with magnitude := (e.MAG : ℚ) / 100 }
  let symbol_index :=
    map_float_to_int_range min_magnitude max_magnitude 0 9 temp_star.magnitude
  match array_read mag_map_round_ASCII symbol_index,
        array_read mag_map_unicode_round symbol_index with
  | some ascii, some unicode_temp =>
    let temp_star := { temp_star with base :=
      { y := 0, x := 0, azimuth := 0, altitude := 0, color_pair := 0,
        symbol_ASCII := ascii, symbol_unicode := none, label := none } }
    let temp_star := { temp_star with base :=
      { temp_star.base with symbol_unicode := some unicode_temp } }
    match nm.name with
    | some label_temp =>
      some { temp_star with base := { temp_star.base with label := some label_temp } }
    | none => some temp_star
  | _, _ => none

/-- The loop `for (i = 0; i < num_stars; ++i)` of `generate_star_table` from index
`i` with `k` iterations left; `uninit i` is the indeterminate initial content of
`temp_star` in iteration `i`. Reading `entries[i]` or `name_table[i]` outside the
array is undefined behaviour (`none`). -/
def generate_star_table_from (uninit : ℕ → star) (entries : List entry)
    (name_table : List star_name) : ℕ → ℕ → Option (List star)
  | _, 0 => some []
  | i, k + 1 =>
    match entries[i]?, name_table[i]? with
    | some e, some nm =>
      match star_of_entry (uninit i) e nm with
      | some s =>
        match generate_star_table_from uninit entries name_table (i + 1) k with
        | some rest => some (s :: rest)
        | none => none
      | none => none
    | _, _ => none

/-- Embedding of `generate_star_table` with successful allocation: the star table
it stores in `*star_table_out`. -/
def generate_star_table (uninit : ℕ → star) (entries : List entry)
    (name_table : List star_name) (num_stars : ℕ) : Option (List star) :=
  generate_star_table_from uninit entries name_table 0 num_stars

/-- The name the name table gives to catalog number `n`: the one in slot `n - 1`. -/
def name_of_catalog_number (name_table : List star_name) (n : ℤ) : Option (List Char) :=
  match array_read name_table (n - 1) with
  | some nm => nm.name
  | none => none

/-! ## `generate_name_table` (core.c, lines 249-307)

A byte of the embedded data is modelled by a `Char`. -/

/-- The NUL character that terminates a C string. -/
def NUL : Char := Char.ofNat 0

/-- The size of the line buffer, `BUF_SIZE`. -/
def BUF_SIZE : ℕ := 32

/-- The C string held by a NUL-terminated buffer: the characters before the first
NUL. -/
def c_str (buffer : List Char) : List Char :=
  buffer.takeWhile (fun c => c != NUL)

/-- The C library function `strtok` on the string `s` (for a call with `NULL`, the
position the previous call saved): skip leading delimiters; `none` (`NULL`) when
nothing is left; otherwise the token up to the next delimiter, together with the
position saved for the next call (just after that delimiter). -/
def strtok (s delim : List Char) : Option (List Char × List Char) :=
  match s.dropWhile (fun c => delim.contains c) with
  | [] => none
  | c :: cs =>
    some ((c :: cs).takeWhile (fun d => !delim.contains d),
          ((c :: cs).dropWhile (fun d => !delim.contains d)).drop 1)

/-- The C library predicate `isspace` in the C locale. -/
def c_isspace (c : Char) : Bool :=
  c = ' ' || (9 ≤ c.toNat && c.toNat ≤ 13)

/-- The digit loop of `atoi`: accumulate decimal digits until the first other
character. -/
def atoi_digits : List Char → ℕ → ℕ
  | [], acc => acc
  | c :: cs, acc =>
    if c.isDigit then atoi_digits cs (10 * acc + (c.toNat - 48)) else acc

/-- The C library function `atoi`: skip white space, an optional sign, then the
decimal digits. -/
def atoi (s : List Char) : ℤ :=
  match s.dropWhile c_isspace with
  | [] => 0
  | c :: cs =>
    if c = '-' then -(atoi_digits cs 0 : ℤ)
    else if c = '+' then (atoi_digits cs 0 : ℤ)
    else (atoi_digits (c :: cs) 0 : ℤ)

/-- The inner loop of `generate_name_table`,
```
while (offset + i < data_len && data[offset + i] != '\n' && i < BUF_SIZE - 1)
    { buffer[i] = data[offset + i]; i++; }
```
on the data from `offset` on, with `room = BUF_SIZE - 1 - i`: the characters it
copies into `buffer`. -/
def copy_line : List Char → ℕ → List Char
  | [], _ => []
  | _ :: _, 0 => []
  | c :: cs, room + 1 => if c = '\n' then [] else c :: copy_line cs room

/-- The body of the outer loop after the empty-line test: split the buffer at the
comma, convert the number, and store a copy of the name at index
`catalog_number - 1`. `atoi` or `strlen` of a `NULL` token and a store outside the
table are undefined behaviour (`none`). -/
def store_name (buffer : List Char) (table : List star_name) : Option (List star_name) :=
  match strtok (c_str buffer) [','] with
  | none => none
  | some (token, saved) =>
    let catalog_number := atoi token
    match strtok saved [',', '\n'] with
    | none => none
    | some (name, _) =>
      let table_index := catalog_number - 1
      array_write table table_index ⟨some name⟩

/-- The outer loop `while (offset < data_len)` of `generate_name_table`; `data` is
the data from `offset` on. Every iteration advances `offset` by at least one, so
`fuel` equal to the length of the data is enough (`none` when it runs out). -/
def generate_name_table_loop : ℕ → List Char → List star_name → Option (List star_name)
  | 0, data, table => if data = [] then some table else none
  | fuel + 1, data, table =>
    if data = [] then some table
    else
      let buffer := copy_line data (BUF_SIZE - 1)
      let rest := data.drop (buffer.length + 1)
      if buffer.head? = none ∨ buffer.head? = some NUL then
        generate_name_table_loop fuel rest table
      else
        match store_name buffer table with
        | none => none
        | some table => generate_name_table_loop fuel rest table

/-- Embedding of `generate_name_table` with successful allocation: the table is
filled with `NULL` names, then every non-empty line stores its name. -/
def generate_name_table (data : List Char) (num_stars : ℕ) : Option (List star_name) :=
  generate_name_table_loop data.length data (List.replicate num_stars ⟨none⟩)

/-! ### The format of the name data, as the specification describes it -/

/-- The decimal numeral of `n`. -/
def decimal (n : ℕ) : List Char :=
  (Nat.digits 10 n).reverse.map (fun d => Char.ofNat (48 + d))

/-- The text of a line: empty, or `n,name`. -/
def line_text : Option (ℕ × List Char) → List Char
  | none => []
  | some (n, name) => decimal n ++ ',' :: name

/-- The name data made of the given lines, separated by newlines, with or without
a newline after the last line. -/
def name_data : List (Option (ℕ × List Char)) → Bool → List Char
  | [], _ => []
  | [l], newline => line_text l ++ (if newline then ['\n'] else [])
  | l :: l' :: ls, newline => line_text l ++ '\n' :: name_data (l' :: ls) newline

/-- A non-empty line `n,name` is well formed for a table of `num_stars` slots:
`1 <= n <= num_stars`, the name is not empty and has no comma, newline or NUL, and
the line has fewer than 31 bytes. -/
def well_formed_line (num_stars : ℕ) (l : Option (ℕ × List Char)) : Prop :=
  match l with
  | none => True
  | some (n, name) =>
    1 ≤ n ∧ n ≤ num_stars ∧ name ≠ [] ∧
    (∀ c ∈ name, c ≠ ',' ∧ c ≠ '\n' ∧ c ≠ NUL) ∧
    (line_text (some (n, name))).length < 31

/-- The name of the last line that has catalog number `k + 1`, if there is one. -/
def expected_name (lines : List (Option (ℕ × List Char))) (k : ℕ) : Option (List Char) :=
  ((lines.filterMap id).reverse.find? (fun p => p.1 = k + 1)).map (fun p => p.2)

/-- The effect of one line on the name table. -/
def apply_line (table : List star_name) (l : Option (ℕ × List Char)) : List star_name :=
  match l with
  | none => table
  | some (n, name) => table.set (n - 1) ⟨some name⟩

/-- A star with the given catalog number and magnitude and all other fields zero,
for stating examples. -/
def star_with (n : ℤ) (m : ℚ) : star :=
  { base := { y := 0, x := 0, azimuth := 0, altitude := 0, color_pair := 0,
              symbol_ASCII := '.', symbol_unicode := none, label := none },
    catalog_number := n, magnitude := m, right_ascension := 0, declination := 0,
    ra_motion := 0, dec_motion := 0 }

/-- The example of the specification: four stars, catalog numbers 1 to 4, with
magnitudes `[3.0, -1.0, 7.9, 1.2]`. -/
def brightness_example : List star :=
  [star_with 1 3, star_with 2 (-1), star_with 3 (79 / 10), star_with 4 (12 / 10)]

/-- Two stars of equal magnitude 2, catalog numbers 1 and 2 in table order. -/
def tie_example : List star :=
  [star_with 1 2, star_with 2 2]

/-- A catalog entry for stating examples: catalog number 1, magnitude 1.00, proper
motions `XRPM = 1` and `XDPM = 2`. -/
def entry_example : entry :=
  { XNO := 1, SRA0 := 1 / 2, SDEC0 := 1 / 3, XRPM := 1, XDPM := 2, MAG := 100 }

/-- A catalog entry for stating examples: catalog number 5, magnitude 1.00. -/
def entry_five : entry :=
  { XNO := 5, SRA0 := 0, SDEC0 := 0, XRPM := 0, XDPM := 0, MAG := 100 }

/-- The lines `1,Sirius`, an empty line, and `3,Vega`. -/
def example_lines : List (Option (ℕ × List Char)) :=
  [some (1, "Sirius".toList), none, some (3, "Vega".toList)]

/-- A catalog entry for stating examples: catalog number 2, magnitude 1.00. -/
def entry_two : entry :=
  { XNO := 2, SRA0 := 0, SDEC0 := 0, XRPM := 0, XDPM := 0, MAG := 100 }

/-! ## Constellations: `parse_line` and `generate_constell_table`
(core.c, lines 309-477) -/

/-- A constellation figure, `struct constell`: the number of segments and the
array of star numbers, two per segment. -/
structure constell where
  num_segments : ℕ
  star_numbers : List ℤ
deriving DecidableEq

/-- The conversion of an `int` to `unsigned int` (32 bits): reduction modulo
`2^32`. -/
def to_unsigned (n : ℤ) : ℕ :=
  (n % 4294967296).toNat

/-- The loop
```
while ((token = strtok(NULL, " ")) != NULL && i < num_segments * 2)
    { star_numbers[i] = atoi(token); ++i; }
```
with `remaining = num_segments * 2 - i`; `saved` is the position `strtok` saved.
The result is the array filled so far, whose length is the final `i`. -/
def read_star_numbers : ℕ → List Char → List ℤ → List ℤ
  | 0, _, star_numbers => star_numbers
  | remaining + 1, saved, star_numbers =>
    match strtok saved [' '] with
    | none => star_numbers
    | some (token, saved) =>
      read_star_numbers remaining saved (star_numbers ++ [atoi token])

/-- The table after `malloc` (when `*constell_table_out` is `NULL`) or `realloc`
to `n` entries: the old entries that fit are kept, new entries have
indeterminate content `uninit`. -/
def realloc_table (uninit : constell) (table : Option (List constell)) (n : ℕ) :
    List constell :=
  match table with
  | none => List.replicate n uninit
  | some t => t.take n ++ List.replicate (n - t.length) uninit

/-- Embedding of `parse_line` with successful allocation. The result is the
returned `bool` and the value of `*constell_table_out` afterwards (`none` is
`NULL`). Copying bytes from outside `data` is undefined behaviour (`none`). -/
def parse_line (uninit : constell) (data : List Char)
    (constell_table_out : Option (List constell)) (line_start line_end : ℤ)
    (line_number : ℕ) : Option (Bool × Option (List constell)) :=
  if line_end ≤ line_start then some (false, constell_table_out)
  else if line_start < 0 ∨ (data.length : ℤ) ≤ line_end then none
  else
    let line_length := (line_end - line_start + 1).toNat
    let buffer := (data.drop line_start.toNat).take line_length
    match strtok (c_str buffer) [' '] with
    | none => some (false, constell_table_out)
    | some (_, saved) =>
      match strtok saved [' '] with
      | none => some (false, constell_table_out)
      | some (num_segments_str, saved) =>
        let num_segments := to_unsigned (atoi num_segments_str)
        if num_segments = 0 then some (false, constell_table_out)
        else
          let limit := (num_segments * 2) % 4294967296
          let star_numbers := read_star_numbers limit saved []
          if star_numbers.length ≠ limit then some (false, constell_table_out)
          else
            let table := realloc_table uninit constell_table_out (line_number + 1)
            some (true, some (table.set line_number ⟨num_segments, star_numbers⟩))

/-- What `generate_constell_table` leaves behind: the returned `bool`, the value
of `*constell_table_out`, and the value of `*num_constell_out` (`none` when it
was not written). -/
structure constell_result where
  ok : Bool
  table : Option (List constell)
  num_constell : Option ℕ
deriving DecidableEq

/-- The loop `for (size_t i = 0; i < data_len; ++i)` of `generate_constell_table`
with `remaining = data_len - i`: the returned `bool` and the table, or `none`
for undefined behaviour. -/
def constell_loop (uninit : constell) (data : List Char) :
    ℕ → ℕ → ℕ → ℕ → Option (List constell) → Option (Bool × Option (List constell))
  | 0, _, _, _, table => some (true, table)
  | remaining + 1, i, line_start, line_number, table =>
    let line_start := if i = 0 ∨ data[i - 1]? = some '\n' then i else line_start
    if i = data.length - 1 ∨ data[i]? = some '\n' then
      match parse_line uninit data table line_start i line_number with
      | none => none
      | some (false, table) => some (false, table)
      | some (true, table) =>
        constell_loop uninit data remaining (i + 1) line_start (line_number + 1) table
    else
      constell_loop uninit data remaining (i + 1) line_start line_number table

/-- Embedding of `generate_constell_table` with successful allocation;
`table_in` is the content of `*constell_table_out` before the call. -/
def generate_constell_table (uninit : constell) (data : List Char)
    (table_in : Option (List constell)) : Option constell_result :=
  if data.length = 0 then some ⟨false, table_in, none⟩
  else
    let num_constells := data.count '\n'
    let table := some (List.replicate num_constells uninit)
    match constell_loop uninit data data.length 0 0 0 table with
    | none => none
    | some (false, table) => some ⟨false, table, none⟩
    | some (true, table) => some ⟨true, table, some num_constells⟩

/-- The start-up of `main`: `s = s && f(...)` for each data structure in turn,
followed by `if (!s) abort();`. The value is the final `s`; the program aborts
exactly when it is `false`. -/
def main_initialised (entries_ok names_ok constell_ok stars_ok planets_ok moon_ok
    numbers_ok : Bool) : Bool :=
  entries_ok && names_ok && constell_ok && stars_ok && planets_ok && moon_ok && numbers_ok

/-! ### The format of a constellation line -/

/-- The decimal numeral of `n`, with `0` written `0`. -/
def numeral (n : ℕ) : List Char :=
  if n = 0 then ['0'] else decimal n

/-- The given tokens separated by single spaces. -/
def tokens_text : List (List Char) → List Char
  | [] => []
  | [t] => t
  | t :: t' :: ts => t ++ ' ' :: tokens_text (t' :: ts)

/-- The line `name k s1 s2 ...` with single-space separators. -/
def constell_line (name : List Char) (k : ℕ) (star_numbers : List ℕ) : List Char :=
  tokens_text (name :: numeral k :: star_numbers.map numeral)

/-- The line `name k s1 s2 ...` is well formed: the name is a non-empty word
without space or NUL, `k >= 1`, exactly `2 k` star numbers follow, and all the
numbers fit in an `int`. -/
def well_formed_constell (name : List Char) (k : ℕ) (star_numbers : List ℕ) : Prop :=
  name ≠ [] ∧ (∀ c ∈ name, c ≠ ' ' ∧ c ≠ NUL) ∧ 1 ≤ k ∧ k < 2147483648 ∧
  star_numbers.length = 2 * k ∧ ∀ s ∈ star_numbers, s < 2147483648

/-! ## `update_star_positions` and `render_stereo` (star.c, lines 31-126)

The functions of `astro.h` and `coord.h` are not among the sources; they are
parameters of the model. A function with two output pointers returns a pair. -/

/-- The assignments `star->altitude = altitude; star->azimuth = azimuth;` (the two
members that cstar.h keeps in `base`). -/
def set_position (s : star) (altitude azimuth : ℚ) : star :=
  { s with base := { s.base with altitude := altitude, azimuth := azimuth } }

/-- The loop `for (int i = 0; i < num_stars; ++i)` of `update_star_positions` from
index `i` with `remaining` iterations left. `equatorial_to_horizontal` returns
the pair `(altitude, azimuth)`. Accessing a star outside the array is undefined
behaviour (`none`). -/
def update_star_positions_loop
    (equatorial_to_horizontal : ℚ → ℚ → ℚ → ℚ → ℚ → ℚ × ℚ)
    (gmst latitude longitude : ℚ) : ℕ → ℕ → List star → Option (List star)
  | 0, _, stars => some stars
  | remaining + 1, i, stars =>
    match stars[i]? with
    | none => none
    | some s =>
      let position :=
        equatorial_to_horizontal s.declination s.right_ascension gmst latitude longitude
      update_star_positions_loop equatorial_to_horizontal gmst latitude longitude
        remaining (i + 1) (stars.set i (set_position s position.1 position.2))

/-- Embedding of `update_star_positions`: the sidereal time is computed once,
before the loop. -/
def update_star_positions (greenwich_mean_sidereal_time_rad : ℚ → ℚ)
    (equatorial_to_horizontal : ℚ → ℚ → ℚ → ℚ → ℚ → ℚ × ℚ)
    (stars : List star) (num_stars : ℤ) (julian_date latitude longitude : ℚ) :
    Option (List star) :=
  let gmst := greenwich_mean_sidereal_time_rad julian_date
  update_star_positions_loop equatorial_to_horizontal gmst latitude longitude
    num_stars.toNat 0 stars

/-- The table `mag_map_unicode_diamond` of star.c. -/
def mag_map_unicode_diamond : List (List Char) :=
  ["⯁".toList, "◇".toList, "⬥".toList, "⬦".toList, "⬩".toList,
   "🞘".toList, "🞗".toList, "🞗".toList, "🞗".toList, "🞗".toList]

/-- A call of `mvwaddch` or `mvwaddstr`: the cell and the text drawn there. -/
structure draw_call where
  row : ℤ
  col : ℤ
  text : List Char
deriving DecidableEq

/-- The coordinate functions of `coord.h` that `render_stereo` calls:
`horizontal_to_spherical` returns `(theta_sphere, phi_sphere)`,
`project_stereographic_north` returns `(radius_polar, theta_polar)` and
`polar_to_win` returns `(row, col)`. -/
structure coord_functions where
  horizontal_to_spherical : ℚ → ℚ → ℚ × ℚ
  project_stereographic_north : ℚ → ℚ → ℚ → ℚ × ℚ
  polar_to_win : ℚ → ℚ → ℤ → ℤ → ℤ × ℤ

/-- The polar radius of the stereographic projection of a star, as
`render_stereo` computes it. -/
def radius_polar (f : coord_functions) (s : star) : ℚ :=
  let sphere := f.horizontal_to_spherical s.base.azimuth s.base.altitude
  (f.project_stereographic_north 1 sphere.1 sphere.2).1

/-- The body of the loop of `render_stereo` for one star: the draw calls it makes.
A glyph lookup outside its 10-entry table and a lookup outside `special_symbols`
are undefined behaviour (`none`). -/
def render_star (f : coord_functions) (special_symbols : List (Option (List Char)))
    (no_unicode : Bool) (threshold : ℚ) (maxy maxx : ℤ) (s : star) :
    Option (List draw_call) :=
  if s.magnitude > threshold then some []
  else
    let sphere := f.horizontal_to_spherical s.base.azimuth s.base.altitude
    let polar := f.project_stereographic_north 1 sphere.1 sphere.2
    if |polar.1| > 1 then some []
    else
      let cell := f.polar_to_win polar.1 polar.2 maxy maxx
      let symbol_index :=
        map_float_to_int_range min_magnitude max_magnitude 0 9 s.magnitude
      let glyph :=
        if no_unicode then (array_read mag_map_round_ASCII symbol_index).map (fun c => [c])
        else array_read mag_map_unicode_diamond symbol_index
      match glyph, array_read special_symbols s.catalog_number with
      | some g, some none => some [⟨cell.1, cell.2, g⟩]
      | some g, some (some special) =>
        some [⟨cell.1, cell.2, g⟩, ⟨cell.1, cell.2, special⟩]
      | _, _ => none

/-- The loop `for (int i = 0; i < num_stars; ++i)` of `render_stereo` from index
`i` with `remaining` iterations left: the draw calls of each star, in order. -/
def render_stereo_loop (f : coord_functions) (stars : List star)
    (special_symbols : List (Option (List Char))) (no_unicode : Bool) (threshold : ℚ)
    (maxy maxx : ℤ) : ℕ → ℕ → Option (List (List draw_call))
  | 0, _ => some []
  | remaining + 1, i =>
    match stars[i]? with
    | none => none
    | some s =>
      match render_star f special_symbols no_unicode threshold maxy maxx s with
      | none => none
      | some calls =>
        match render_stereo_loop f stars special_symbols no_unicode threshold maxy maxx
            remaining (i + 1) with
        | none => none
        | some rest => some (calls :: rest)

/-- Embedding of `render_stereo`: for each of the first `num_stars` stars, the
draw calls made for it; the calls on the window are their concatenation. -/
def render_stereo (f : coord_functions) (stars : List star) (num_stars : ℤ)
    (special_symbols : List (Option (List Char))) (no_unicode : Bool) (threshold : ℚ)
    (maxy maxx : ℤ) : Option (List (List draw_call)) :=
  render_stereo_loop f stars special_symbols no_unicode threshold maxy maxx
    num_stars.toNat 0

/-- Coordinate functions that send every star to the centre of the window, for
stating examples. -/
def coord_centre : coord_functions :=
  { horizontal_to_spherical := fun _ _ => (0, 0),
    project_stereographic_north := fun _ _ _ => (0, 0),
    polar_to_win := fun _ _ _ _ => (0, 0) }

/-! ## `generate_planet_table` (core.c, lines 104-229) -/

/-- The planet enumeration of `astro.h`, which is not among the sources: the
indices the tables of `generate_planet_table` are keyed by, and the table size
`NUM_PLANETS`. It is a parameter of the model. -/
structure planet_enum where
  SUN : ℕ
  MERCURY : ℕ
  VENUS : ℕ
  EARTH : ℕ
  MARS : ℕ
  JUPITER : ℕ
  SATURN : ℕ
  URANUS : ℕ
  NEPTUNE : ℕ
  NUM_PLANETS : ℕ

/-- Modelled from the spec: the enumeration of `astro.h`, the Sun followed by
the eight planets Mercury to Neptune in the order of the tables of core.c. -/
def planet_indices : planet_enum :=
  { SUN := 0, MERCURY := 1, VENUS := 2, EARTH := 3, MARS := 4, JUPITER := 5,
    SATURN := 6, URANUS := 7, NEPTUNE := 8, NUM_PLANETS := 9 }

/-- An array with designated initialisers `[index] = value`: an index that is not
named holds the zero value, and a later initialiser of an index overrides an
earlier one. -/
def designated {α : Type} (inits : List (ℕ × α)) (zero : α) (i : ℕ) : α :=
  match inits.reverse.find? (fun p => p.1 = i) with
  | some p => p.2
  | none => zero

/-- A planet, `struct planet`. The pointers `elements`, `rates` and `extras` into
the shared tables `planet_elements`, `planet_rates` and `planet_extras` are
modelled by the index of the row they point to; `none` is `NULL`. -/
structure planet where
  base : object_base
  right_ascension : ℚ
  declination : ℚ
  elements : ℕ
  rates : ℕ
  extras : Option ℕ
  magnitude : ℚ
deriving DecidableEq

/-- One iteration of the loop of `generate_planet_table`, for index `i`. The
members of `temp_planet` that are not assigned keep the indeterminate content of
the local (`uninit`). -/
def planet_of_index (E : planet_enum) (uninit : planet) (i : ℕ) : planet :=
  let planet_symbols_unicode : ℕ → Option (List Char) := designated
    [(E.SUN, some "☉".toList), (E.MERCURY, some "☿".toList), (E.VENUS, some "♀".toList),
     (E.EARTH, some "🜨".toList), (E.MARS, some "♂".toList), (E.JUPITER, some "♃".toList),
     (E.SATURN, some "♄".toList), (E.URANUS, some "⛢".toList),
     (E.NEPTUNE, some "♆".toList)] none
  let planet_symbols_ASCII : ℕ → Char := designated
    [(E.SUN, '@'), (E.MERCURY, '*'), (E.VENUS, '*'), (E.EARTH, '*'), (E.MARS, '*'),
     (E.JUPITER, '*'), (E.SATURN, '*'), (E.URANUS, '*'), (E.NEPTUNE, '*')] NUL
  let planet_labels : ℕ → Option (List Char) := designated
    [(E.SUN, some "Sun".toList), (E.MERCURY, some "Mercury".toList),
     (E.VENUS, some "Venus".toList), (E.EARTH, some "Earth".toList),
     (E.MARS, some "Mars".toList), (E.JUPITER, some "Jupiter".toList),
     (E.SATURN, some "Saturn".toList), (E.URANUS, some "Uranus".toList),
     (E.NEPTUNE, some "Neptune".toList)] none
  let planet_colors : ℕ → ℤ := designated
    [(E.SUN, 4), (E.MERCURY, 8), (E.VENUS, 4), (E.MARS, 2), (E.JUPITER, 6),
     (E.SATURN, 4), (E.URANUS, 7), (E.NEPTUNE, 5)] 0
  let planet_mean_mags : ℕ → ℚ := designated
    [(E.SUN, -26832 / 1000), (E.MERCURY, 23 / 100), (E.VENUS, -414 / 100),
     (E.MARS, 71 / 100), (E.JUPITER, -220 / 100), (E.SATURN, 46 / 100),
     (E.URANUS, 568 / 100), (E.NEPTUNE, 778 / 100)] 0
  let temp_planet := { uninit with base :=
    { y := 0, x := 0, azimuth := 0, altitude := 0,
      symbol_ASCII := planet_symbols_ASCII i, symbol_unicode := none, label := none,
      color_pair := planet_colors i } }
  let temp_planet := { temp_planet with base :=
    { temp_planet.base with symbol_unicode := planet_symbols_unicode i } }
  let temp_planet := { temp_planet with base :=
    { temp_planet.base with label := planet_labels i } }
  let temp_planet := { temp_planet with elements := i }
  let temp_planet := { temp_planet with rates := i }
  let temp_planet := { temp_planet with magnitude := planet_mean_mags i }
  if E.JUPITER ≤ i ∧ i ≤ E.NEPTUNE then { temp_planet with extras := some i }
  else { temp_planet with extras := none }

/-- Embedding of `generate_planet_table` with successful allocation: the table
of `NUM_PLANETS` planets, entry `i` written by iteration `i`. -/
def generate_planet_table (E : planet_enum) (uninit : ℕ → planet) : List planet :=
  (List.range E.NUM_PLANETS).map (fun i => planet_of_index E (uninit i) i)

/-! ## Cities: `split_lines` (split_lines.c) and city.c

The embedded city data `cities` of `cities.h` and the library function `atof`
are parameters of the model. -/

/-- The C library function `tolower` in the C locale. -/
def c_tolower (c : Char) : Char :=
  if 'A' ≤ c ∧ c ≤ 'Z' then Char.ofNat (c.toNat + 32) else c

/-- Embedding of `normalize_city_name`: skip the leading white space, cut the
trailing white space, convert what is left to lower case. `none` is `NULL`. -/
def normalize_city_name (input : Option (List Char)) : Option (List Char) :=
  match input with
  | none => none
  | some s =>
    let start := s.dropWhile c_isspace
    let trimmed := (start.reverse.dropWhile c_isspace).reverse
    some (trimmed.map c_tolower)

/-- The loop of `split_lines`,
```
while (line != NULL) { ... lines[line_count++] = line_copy; line = strtok(NULL, "\n"); }
```
entered with the result of the first `strtok`; `saved` is the position `strtok`
saved and `lines` the array so far. Every token consumes at least one
character, so `fuel` larger than the length of `saved` is enough. -/
def split_lines_loop : ℕ → List Char → List (List Char) → List (List Char)
  | 0, _, lines => lines
  | fuel + 1, saved, lines =>
    match strtok saved ['\n'] with
    | none => lines
    | some (line, saved) => split_lines_loop fuel saved (lines ++ [line])

/-- Embedding of `split_lines` with successful allocation, on the C string
`data`: the returned array (`none` is `NULL`, returned when there is no line) and
the value stored in `*line_count_out`. -/
def split_lines (data : List Char) : Option (List (List Char)) × ℕ :=
  let lines := split_lines_loop (data.length + 1) data []
  (if lines = [] then none else some lines, lines.length)

/-- A city, `CityData`. -/
structure CityData where
  city_name : List Char
  latitude : ℚ
  longitude : ℚ
deriving DecidableEq

/-- A call of `strtok` together with the position it saves: after a `NULL`
result the saved position is the end of the string. -/
def strtok_next (saved delim : List Char) : Option (List Char) × List Char :=
  match strtok saved delim with
  | some (token, saved) => (some token, saved)
  | none => (none, [])

/-- The parsing of a city line in `get_city` and `iter_cities`: six calls of
`strtok` with `","`, of which the first, fifth and sixth results are kept; a
city is produced when all three are not `NULL`. -/
def parse_city_line (atof : List Char → ℚ) (line : List Char) : Option CityData :=
  let city_name := strtok_next line [',']
  let population := strtok_next city_name.2 [',']
  let country_code := strtok_next population.2 [',']
  let timezone := strtok_next country_code.2 [',']
  let latitude_str := strtok_next timezone.2 [',']
  let longitude_str := strtok_next latitude_str.2 [',']
  match city_name.1, latitude_str.1, longitude_str.1 with
  | some name, some latitude, some longitude =>
    some ⟨name, atof latitude, atof longitude⟩
  | _, _, _ => none

/-- The length of the line buffer of `compare_city`, `MAX_LINE_LENGTH`. -/
def MAX_LINE_LENGTH : ℕ := 1024

/-- The C library function `strcmp`: the sign of the lexicographic comparison of
the two strings, character by character. -/
def strcmp (a b : List Char) : ℤ :=
  if a < b then -1 else if a = b then 0 else 1

/-- Embedding of `compare_city`: the key against the normalised first token of
the first `MAX_LINE_LENGTH - 1` characters of the line. -/
def compare_city (key line : List Char) : ℤ :=
  let temp_line := line.take (MAX_LINE_LENGTH - 1)
  match strtok temp_line [','] with
  | none => -1
  | some (token, _) =>
    match normalize_city_name (some key), normalize_city_name (some token) with
    | some normalized_city_name, some normalized_token =>
      strcmp normalized_city_name normalized_token
    | _, _ => -1

/-- The array handed to `bsearch` is ordered for the key: the elements the key
is greater than come first, then those it equals, then those it is less than. -/
def bsearch_ordered (compar : List Char → List Char → ℤ) (key : List Char)
    (base : List (List Char)) : Prop :=
  base.Pairwise (fun a b =>
    (0 < compar key b → 0 < compar key a) ∧ (compar key b = 0 → 0 ≤ compar key a))

/-- The loop of the C library function `bsearch`, as the C libraries implement
it: a binary search of the index range `[l, u)` that compares the key with the
middle element `base[(l + u) / 2]` and goes on in the lower part on a negative
comparison, in the upper part on a positive one, and returns the element on
zero. `none` is `NULL`. Every step shrinks the range, so `fuel = nmemb` steps are
enough. -/
def bsearch_loop (compar : List Char → List Char → ℤ) (key : List Char)
    (base : List (List Char)) : ℕ → ℕ → ℕ → Option ℕ
  | 0, _, _ => none
  | fuel + 1, l, u =>
    if l < u then
      let idx := (l + u) / 2
      match base[idx]? with
      | none => none
      | some element =>
        let comparison := compar key element
        if comparison < 0 then bsearch_loop compar key base fuel l idx
        else if comparison > 0 then bsearch_loop compar key base fuel (idx + 1) u
        else some idx
    else none

/-- The C library function `bsearch(key, base, nmemb, size, compar)` on the array
`base`: the index of the element found, `none` for `NULL`. -/
def bsearch_binary (compar : List Char → List Char → ℤ) (key : List Char)
    (base : List (List Char)) : Option ℕ :=
  bsearch_loop compar key base base.length 0 base.length

/-- Embedding of `get_city` with successful allocation; `cities` is the embedded
data (`cities_len` its length). `none` is `NULL`. -/
def get_city (atof : List Char → ℚ) (cities : List Char) (name : Option (List Char)) :
    Option CityData :=
  match name with
  | none => none
  | some name =>
    if cities.length = 0 then none
    else
      match normalize_city_name (some name) with
      | none => none
      | some normalized_name =>
        let data := c_str cities
        match split_lines data with
        | (none, _) => none
        | (some lines, line_count) =>
          match bsearch_binary compare_city normalized_name (lines.take line_count) with
          | none => none
          | some result =>
            match lines[result]? with
            | none => none
            | some matched_line => parse_city_line atof matched_line

/-- Embedding of `iter_cities`: the callback (`none` is `NULL`) is applied to the
city of every line after the first that yields one, threading the user data. -/
def iter_cities {σ : Type} (atof : List Char → ℚ) (cities : List Char)
    (callback : Option (CityData → σ → σ)) (user_data : σ) : σ :=
  match callback with
  | none => user_data
  | some callback =>
    let data := c_str cities
    match split_lines data with
    | (none, _) => user_data
    | (some lines, line_count) =>
      ((lines.take line_count).drop 1).foldl
        (fun user_data line =>
          match parse_city_line atof line with
          | some city_data => callback city_data user_data
          | none => user_data)
        user_data

/-- A function that agrees with `atof` on unsigned and signed whole numbers. -/
def atof_whole (s : List Char) : ℚ :=
  (atoi s : ℚ)

/-! ### Lines and fields, as the specification describes them -/

/-- The comma-separated (or newline-separated) fields of a string: the pieces
between the separators, empty pieces included. -/
def fields (separator : Char) (s : List Char) : List (List Char) :=
  s.splitOn separator

/-- The non-empty fields of a string: the maximal non-empty runs of characters
other than the separator. -/
def nonempty_fields (separator : Char) (s : List Char) : List (List Char) :=
  (fields separator s).filter (fun f => !f.isEmpty)


/-- The normalised form of a string: the value `normalize_city_name` returns for
it. -/
def normalised_string (s : List Char) : List Char :=
  (((s.dropWhile c_isspace).reverse.dropWhile c_isspace).reverse).map c_tolower

/-- The city a line stands for, in terms of its non-empty comma-separated fields:
the first, fifth and sixth of them, when there are at least six. -/
def city_of_line (atof : List Char → ℚ) (line : List Char) : Option CityData :=
  match nonempty_fields ',' line with
  | t₀ :: _ :: _ :: _ :: t₄ :: t₅ :: _ => some ⟨t₀, atof t₄, atof t₅⟩
  | _ => none

/-- The city a line stands for when fields are counted by position, empty fields
included: the first, fifth and sixth field, when the line has them and they are
not empty. -/
def city_of_fields (atof : List Char → ℚ) (line : List Char) : Option CityData :=
  match fields ',' line with
  | f₀ :: _ :: _ :: _ :: f₄ :: f₅ :: _ =>
    if f₀ ≠ [] ∧ f₄ ≠ [] ∧ f₅ ≠ [] then some ⟨f₀, atof f₄, atof f₅⟩ else none
  | _ => none

/-- The normalised city name of a line: its first non-empty field, normalised. -/
def normalised_name (line : List Char) : Option (List Char) :=
  normalize_city_name ((nonempty_fields ',' line).head?)

/-- The lines of the city data: the non-empty lines of the C string. -/
def city_lines (cities : List Char) : List (List Char) :=
  nonempty_fields '\n' (c_str cities)

/-- The city lines are sorted by normalised city name. -/
def sorted_by_name (lines : List (List Char)) : Prop :=
  lines.Pairwise (fun a b =>
    ∀ ka kb, normalised_name a = some ka → normalised_name b = some kb → ka ≤ kb)


/-! ## Options: `parse_options` and `convert_options` (main.c, lines 219-367) -/

/-- The configuration, `struct conf`, with the members `main` initialises. -/
structure conf where
  longitude : ℚ
  latitude : ℚ
  dt_string_utc : Option (List Char)
  threshold : ℚ
  label_thresh : ℚ
  fps : ℤ
  animation_mult : ℚ
  ascii : Bool
  color : Bool
  grid : Bool
  constell : Bool
  meta : Bool
deriving DecidableEq

/-- The status with which `exit` ends the run. -/
inductive exit_status where
  | EXIT_SUCCESS
  | EXIT_FAILURE
deriving DecidableEq

/-- The constant `M_PI` of main.c. -/
def M_PI : ℚ := 3.14159265358979323846

/-- The C library type `struct tm`, with the members a calendar date and time of
day use: `tm_mon` counts months from 0 and `tm_year` years from 1900. -/
structure tm where
  tm_sec : ℤ
  tm_min : ℤ
  tm_hour : ℤ
  tm_mday : ℤ
  tm_mon : ℤ
  tm_year : ℤ
deriving DecidableEq

/-- The standard Julian Day Number of a date of the proleptic Gregorian calendar
(integer divisions round down). -/
def julian_day_number (year month day : ℤ) : ℤ :=
  let a := (14 - month) / 12
  let y := year + 4800 - a
  let m := month + 12 * a - 3
  day + (153 * m + 2) / 5 + 365 * y + y / 4 - y / 100 + y / 400 - 32045

/-- Modelled from the spec: `datetime_to_julian_date` of astro.c, which is not
among the sources; the spec describes it as the standard Julian Day Number
computation, valid for the proleptic Gregorian calendar, the fractional part
encoding the time of day. The Julian date is the Julian Day Number of the date
plus the fraction of a day elapsed since noon. -/
def datetime_to_julian_date (time : tm) : ℚ :=
  let second := time.tm_sec
  let minute := time.tm_min
  let hour := time.tm_hour
  let day := time.tm_mday
  let month := time.tm_mon + 1
  let year := time.tm_year + 1900
  (julian_day_number year month day : ℚ) + ((hour : ℚ) - 12) / 24 + (minute : ℚ) / 1440 +
    (second : ℚ) / 86400

/-- The date of the proleptic Gregorian calendar with a given Julian Day Number:
the standard inverse computation (integer divisions round down). -/
def gregorian_of_day_number (J : ℤ) : ℤ × ℤ × ℤ :=
  let f := J + 1401 + (((4 * J + 274277) / 146097) * 3) / 4 - 38
  let e := 4 * f + 3
  let g := (e % 1461) / 4
  let h := 5 * g + 2
  let day := (h % 153) / 5 + 1
  let month := (h / 153 + 2) % 12 + 1
  let year := e / 1461 - 4716 + (12 + 2 - month) / 12
  (year, month, day)

/-- Modelled from the spec: `julian_to_gregorian` of astro.c, which is not among
the sources; the spec describes it as the inverse mapping of the Julian date
computation, giving `(year, month, day)`. The civil day of a Julian date is the
one whose Julian Day Number is the date plus one half, rounded down. -/
def julian_to_gregorian (jd : ℚ) : ℤ × ℤ × ℤ :=
  gregorian_of_day_number ⌊jd + 1 / 2⌋

/-- A leap year of the Gregorian calendar. -/
def is_leap_year (year : ℤ) : Bool :=
  (year % 4 = 0 ∧ year % 100 ≠ 0) ∨ year % 400 = 0

/-- The number of days of a month of the Gregorian calendar. -/
def days_in_month (year month : ℤ) : ℤ :=
  if month = 2 then (if is_leap_year year then 29 else 28)
  else if month = 4 ∨ month = 6 ∨ month = 9 ∨ month = 11 then 30
  else 31

/-- A `struct tm` holds a valid calendar date and time of day. -/
def valid_datetime (time : tm) : Prop :=
  0 ≤ time.tm_mon ∧ time.tm_mon ≤ 11 ∧
  1 ≤ time.tm_mday ∧ time.tm_mday ≤ days_in_month (time.tm_year + 1900) (time.tm_mon + 1) ∧
  0 ≤ time.tm_hour ∧ time.tm_hour ≤ 23 ∧ 0 ≤ time.tm_min ∧ time.tm_min ≤ 59 ∧
  0 ≤ time.tm_sec ∧ time.tm_sec ≤ 59

/-- What `convert_options` leaves behind: the configuration and the globals
`julian_date_start` and `julian_date`. -/
structure converted where
  config : conf
  julian_date_start : ℚ
  julian_date : ℚ
deriving DecidableEq

/-- Embedding of `convert_options`. The clock (`current_julian_date`) and the
parser `string_to_time` are parameters. -/
def convert_options (current_julian_date : ℚ) (string_to_time : List Char → Option tm)
    (config : conf) : Except exit_status converted :=
  let config := { config with longitude := config.longitude * (M_PI / 180) }
  let config := { config with latitude := config.latitude * (M_PI / 180) }
  match config.dt_string_utc with
  | none => .ok ⟨config, current_julian_date, current_julian_date⟩
  | some dt_string_utc =>
    match string_to_time dt_string_utc with
    | none => .error .EXIT_FAILURE
    | some datetime =>
      .ok ⟨config, datetime_to_julian_date datetime, datetime_to_julian_date datetime⟩

/-- Noon of 1 January 2000 as a `struct tm`. -/
def noon_2000 : tm :=
  { tm_sec := 0, tm_min := 0, tm_hour := 12, tm_mday := 1, tm_mon := 0, tm_year := 100 }

/-! ## Memory effects of `star_numbers_by_magnitude` (core.c, lines 577-607) -/

/-- The arrays after a call of `star_numbers_by_magnitude`: the caller's
`star_table`, the local `table_copy` just before it is freed, and `*num_by_mag`. -/
structure numbers_memory where
  star_table : List star
  table_copy : List star
  num_by_mag : List ℤ

/-- Embedding of `star_numbers_by_magnitude` with successful allocation, as the
arrays it leaves: `memcpy` reads `star_table`, `qsort` rearranges `table_copy`,
and the loop fills `*num_by_mag` from `table_copy`. Reading `num_stars` stars
from a shorter table is undefined behaviour (`none`). -/
def star_numbers_by_magnitude_memory (qsort : (star → star → ℤ) → List star → List star)
    (star_table : List star) (num_stars : ℕ) : Option numbers_memory :=
  if num_stars ≤ star_table.length then
    let table_copy := star_table.take num_stars
    let table_copy := qsort star_magnitude_comparator table_copy
    let num_by_mag := table_copy.map (fun s => s.catalog_number)
    some ⟨star_table, table_copy, num_by_mag⟩
  else none

/-! ## `populate_special_chars` (star.c, lines 52-67) -/

/-- The loop `for (int i = 0; i < num_stars + 1; ++i) special_symbols[i] = NULL;`
from index `i` with `remaining` iterations left. A write outside the array is
undefined behaviour (`none`). -/
def populate_special_chars_loop :
    ℕ → ℤ → List (Option (List Char)) → Option (List (Option (List Char)))
  | 0, _, special_symbols => some special_symbols
  | remaining + 1, i, special_symbols =>
    match array_write special_symbols i none with
    | none => none
    | some special_symbols => populate_special_chars_loop remaining (i + 1) special_symbols

/-- Embedding of `populate_special_chars`: the array afterwards, or `none` for
undefined behaviour. -/
def populate_special_chars (special_symbols : List (Option (List Char))) (num_stars : ℤ) :
    Option (List (Option (List Char))) :=
  match populate_special_chars_loop (num_stars + 1).toNat 0 special_symbols with
  | none => none
  | some special_symbols =>
    match array_write special_symbols 424 (some "✦".toList) with
    | none => none
    | some special_symbols =>
      match array_write special_symbols 4301 (some "D".toList) with
      | none => none
      | some special_symbols =>
        match array_write special_symbols 2061 (some "B".toList) with
        | none => none
        | some special_symbols => array_write special_symbols 7001 (some "V".toList)

/-! ## The tables of Keplerian elements (data/keplerian_elements.c) -/

/-- Keplerian elements, `struct KepElems`: semi-major axis, eccentricity,
inclination, mean anomaly, argument of perihelion, longitude of the ascending
node. -/
structure KepElems where
  a : ℚ
  e : ℚ
  I : ℚ
  M : ℚ
  w : ℚ
  O : ℚ
deriving DecidableEq

/-- The rates of the Keplerian elements per century, `struct KepRates`. -/
structure KepRates where
  da : ℚ
  de : ℚ
  dI : ℚ
  dM : ℚ
  dw : ℚ
  dO : ℚ
deriving DecidableEq

/-- The table `planet_elements`. -/
def planet_elements (E : planet_enum) : ℕ → KepElems := designated
  [(E.MERCURY, ⟨0.38709843, 0.20563661, 7.00559432, 174.79394829, 29.11810076, 48.33961819⟩),
   (E.VENUS, ⟨0.72332102, 0.00676399, 3.39777545, 50.21215137, 55.09494217, 76.67261496⟩),
   (E.EARTH, ⟨1.00000018, 0.01673163, -0.00054346, -2.46314313, 108.04266274, -5.11260389⟩),
   (E.MARS, ⟨1.52371243, 0.09336511, 1.85181869, 19.34931620, -73.63065768, 49.71320984⟩),
   (E.JUPITER,
     ⟨5.20248019, 0.04853590, 1.29861416, 20.05983908, -86.01787410, 100.29282654⟩),
   (E.SATURN,
     ⟨9.54149883, 0.05550825, 2.49424102, -42.78564734, -20.77862639, 113.63998702⟩),
   (E.URANUS, ⟨19.18797948, 0.04685740, 0.77298127, 141.76872184, 98.47154226, 73.96250215⟩),
   (E.NEPTUNE,
     ⟨30.06952752, 0.00895439, 1.77005520, 257.54130563, -85.10477129, 131.78635853⟩)]
  ⟨0, 0, 0, 0, 0, 0⟩

/-- The table `planet_rates`. -/
def planet_rates (E : planet_enum) : ℕ → KepRates := designated
  [(E.MERCURY, ⟨0.00000000, 0.00002123, -0.00590158, 149472.51546610, 0.28154195, -0.12214182⟩),
   (E.VENUS, ⟨-0.00000026, -0.00005107, 0.00043494, 58517.75880612, 0.32953822, -0.27274174⟩),
   (E.EARTH, ⟨-0.00000003, -0.00003661, -0.01337178, 35999.05511069, 0.55919116, -0.24123856⟩),
   (E.MARS, ⟨0.00000097, 0.00009149, -0.00724757, 19139.84710618, 0.72076056, -0.26852431⟩),
   (E.JUPITER, ⟨-0.00002864, 0.00018026, -0.00322699, 3034.72172561, 0.05174577, 0.13024619⟩),
   (E.SATURN, ⟨-0.00003065, -0.00032044, 0.00451969, 1221.57315246, 0.79194480, -0.25015002⟩),
   (E.URANUS, ⟨-0.00020455, -0.00001550, -0.00180155, 428.40245610, 0.03527286, 0.05739699⟩),
   (E.NEPTUNE, ⟨0.00006447, 0.00000818, 0.00022400, 218.45505376, 0.01616240, -0.00606302⟩)]
  ⟨0, 0, 0, 0, 0, 0⟩

/-- The Moon's elements, `moon_elements`. -/
def moon_elements : KepElems :=
  { a := 60.2666, e := 0.054900, I := 5.1454, M := 115.3654, w := 318.0634, O := 125.1228 }

/-- The Moon's rates, `moon_rates`. -/
def moon_rates : KepRates :=
  { da := 0.0, de := 0.0, dI := 0.0, dM := 13.0649929509, dw := 0.1643573223,
    dO := -0.0529538083 }

/-- The indices of the eight planets Mercury to Neptune. -/
def planets (E : planet_enum) : List ℕ :=
  [E.MERCURY, E.VENUS, E.EARTH, E.MARS, E.JUPITER, E.SATURN, E.URANUS, E.NEPTUNE]


/-! ## Lemmas on rounding -/

theorem c_int_cast_intCast (n : ℤ) : c_int_cast (n : ℚ) = n := by
  unfold c_int_cast
  split_ifs with h
  · exact Int.floor_intCast n
  · have : ((-n : ℤ) : ℚ) = -(n : ℚ) := by push_cast; ring
    rw [← this, Int.floor_intCast]; ring

theorem c_int_cast_c_round (x : ℚ) : c_int_cast (c_round x) = round_to_int x := by
  unfold c_round round_to_int
  split_ifs with h
  · exact c_int_cast_intCast _
  · have : -((⌊-x + 1 / 2⌋ : ℤ) : ℚ) = ((-⌊-x + 1 / 2⌋ : ℤ) : ℚ) := by push_cast; ring
    rw [this, c_int_cast_intCast]

theorem round_to_int_mono {x y : ℚ} (h : x ≤ y) : round_to_int x ≤ round_to_int y := by
  unfold round_to_int
  split_ifs with hx hy hy
  · exact Int.floor_le_floor (by linarith)
  · exact absurd (le_trans hx h) hy
  · have h1 : (0 : ℤ) ≤ ⌊-x + 1 / 2⌋ := Int.floor_nonneg.mpr (by linarith)
    have h2 : (0 : ℤ) ≤ ⌊y + 1 / 2⌋ := Int.floor_nonneg.mpr (by linarith)
    omega
  · have := Int.floor_le_floor (show -y + 1 / 2 ≤ -x + 1 / 2 by linarith)
    omega

theorem round_to_int_eq_spec (x : ℚ) : round_to_int x = spec_round_half_away x := by
  unfold round_to_int spec_round_half_away
  split_ifs with h1 h2 h2
  · exact absurd h1 (not_le.mpr h2)
  · rw [round_eq]
  · rw [round_eq]
  · exact absurd (not_le.mp h1) h2

/-! ## Rounding to a `double` -/

theorem round_half_even_intCast (n : ℤ) : round_half_even (n : ℚ) = n := by
  unfold round_half_even
  rw [Int.floor_intCast]
  norm_num

theorem round_half_even_bounds (x : ℚ) :
    ⌊x⌋ ≤ round_half_even x ∧ round_half_even x ≤ ⌊x⌋ + 1 := by
  unfold round_half_even
  split_ifs <;> constructor <;> omega

theorem round_half_even_mono {x y : ℚ} (h : x ≤ y) :
    round_half_even x ≤ round_half_even y := by
  have hf : ⌊x⌋ ≤ ⌊y⌋ := Int.floor_mono h
  rcases lt_or_eq_of_le hf with hlt | heq
  · have h1 := (round_half_even_bounds x).2
    have h2 := (round_half_even_bounds y).1
    omega
  · unfold round_half_even
    rw [heq]
    have hxy : x - (⌊y⌋ : ℚ) ≤ y - (⌊y⌋ : ℚ) := by linarith
    split_ifs <;> first | omega | (exfalso; linarith)

theorem round_half_even_near (x : ℚ) : |((round_half_even x : ℤ) : ℚ) - x| ≤ 1 / 2 := by
  have h1 := Int.floor_le x
  have h2 := Int.lt_floor_add_one x
  unfold round_half_even
  rw [abs_le]
  split_ifs with ha hb hc
  · constructor <;> linarith
  · push_cast; constructor <;> linarith
  · constructor <;> linarith
  · push_cast; constructor <;> linarith

theorem two_zpow_split (E k : ℤ) : (2 : ℚ) ^ (E + k) = 2 ^ k * 2 ^ E := by
  rw [← zpow_add₀ (two_ne_zero : (2 : ℚ) ≠ 0)]
  congr 1
  ring

theorem two_zpow_le {a b : ℤ} (h : a ≤ b) : (2 : ℚ) ^ a ≤ 2 ^ b :=
  zpow_le_zpow_right₀ (by norm_num) h

theorem log_two_bounds (x : ℚ) (hx : 0 < x) :
    (2 : ℚ) ^ Int.log 2 x ≤ x ∧ x < 2 ^ (Int.log 2 x + 1) := by
  have h1 := Int.zpow_log_le_self (b := 2) (r := x) (by norm_num) hx
  have h2 := Int.lt_zpow_succ_log_self (b := 2) (by norm_num) x
  simp only [Nat.cast_ofNat] at h1 h2
  exact ⟨h1, h2⟩

theorem log_two_le_of_le (x : ℚ) (t : ℤ) (hx : 0 < x) (h : x ≤ 2 ^ t) : Int.log 2 x ≤ t := by
  have h1 := (log_two_bounds x hx).1
  by_contra hcon
  push_neg at hcon
  have h2 : (2 : ℚ) ^ (t + 1) ≤ 2 ^ Int.log 2 x := two_zpow_le (by omega)
  have h3 : (2 : ℚ) ^ t < 2 ^ (t + 1) := zpow_lt_zpow_right₀ (by norm_num) (by omega)
  linarith

theorem log_two_lt_of_lt (x : ℚ) (t : ℤ) (hx : 0 < x) (h : x < 2 ^ t) : Int.log 2 x < t := by
  have h1 := (log_two_bounds x hx).1
  by_contra hcon
  push_neg at hcon
  have h2 : (2 : ℚ) ^ t ≤ 2 ^ Int.log 2 x := two_zpow_le hcon
  linarith

theorem round_magnitude_nonneg (x : ℚ) (hx : 0 < x) : 0 ≤ round_magnitude x := by
  unfold round_magnitude
  simp only
  have hu : (0 : ℚ) < 2 ^ (max (Int.log 2 x) (-1022) - 52) := zpow_pos (by norm_num) _
  have h0 : round_half_even ((0 : ℤ) : ℚ) ≤ round_half_even (x / 2 ^ (max (Int.log 2 x) (-1022) - 52)) :=
    round_half_even_mono (by
      rw [Int.cast_zero]
      exact div_nonneg hx.le hu.le)
  rw [round_half_even_intCast] at h0
  have : (0 : ℚ) ≤ ((round_half_even (x / 2 ^ (max (Int.log 2 x) (-1022) - 52)) : ℤ) : ℚ) := by
    exact_mod_cast h0
  exact mul_nonneg this hu.le

theorem round_magnitude_le (x : ℚ) (hx : 0 < x) :
    round_magnitude x ≤ 2 ^ (max (Int.log 2 x) (-1022) + 1) := by
  unfold round_magnitude
  simp only
  generalize hE : max (Int.log 2 x) (-1022) = E
  have hu : (0 : ℚ) < 2 ^ (E - 52) := zpow_pos (by norm_num) _
  have hx2 : x < 2 ^ (E + 1) :=
    lt_of_lt_of_le (log_two_bounds x hx).2 (two_zpow_le (by rw [← hE]; omega))
  have hsplit : (2 : ℚ) ^ (E + 1) = 2 ^ (53 : ℤ) * 2 ^ (E - 52) := by
    have := two_zpow_split (E - 52) 53
    rw [← this]
    congr 1
    ring
  have hq : x / 2 ^ (E - 52) ≤ ((2 ^ 53 : ℤ) : ℚ) := by
    rw [div_le_iff₀ hu]
    have : ((2 ^ 53 : ℤ) : ℚ) = 2 ^ (53 : ℤ) := by norm_num
    rw [this, ← hsplit]
    exact hx2.le
  have hr := round_half_even_mono hq
  rw [round_half_even_intCast] at hr
  have hr' : ((round_half_even (x / 2 ^ (E - 52)) : ℤ) : ℚ) ≤ 2 ^ (53 : ℤ) := by
    have : ((round_half_even (x / 2 ^ (E - 52)) : ℤ) : ℚ) ≤ ((2 ^ 53 : ℤ) : ℚ) := by
      exact_mod_cast hr
    have h2 : ((2 ^ 53 : ℤ) : ℚ) = 2 ^ (53 : ℤ) := by norm_num
    rw [h2] at this
    exact this
  rw [hsplit]
  exact mul_le_mul_of_nonneg_right hr' hu.le

theorem round_magnitude_ge (x : ℚ) (hx : 0 < x) (he : -1022 ≤ Int.log 2 x) :
    (2 : ℚ) ^ Int.log 2 x ≤ round_magnitude x := by
  unfold round_magnitude
  simp only
  rw [max_eq_left he]
  generalize hE : Int.log 2 x = E
  have hu : (0 : ℚ) < 2 ^ (E - 52) := zpow_pos (by norm_num) _
  have hx1 : (2 : ℚ) ^ E ≤ x := by rw [← hE]; exact (log_two_bounds x hx).1
  have hsplit : (2 : ℚ) ^ E = 2 ^ (52 : ℤ) * 2 ^ (E - 52) := by
    have := two_zpow_split (E - 52) 52
    rw [← this]
    congr 1
    ring
  have hq : ((2 ^ 52 : ℤ) : ℚ) ≤ x / 2 ^ (E - 52) := by
    rw [le_div_iff₀ hu]
    have : ((2 ^ 52 : ℤ) : ℚ) = 2 ^ (52 : ℤ) := by norm_num
    rw [this, ← hsplit]
    exact hx1
  have hr := round_half_even_mono hq
  rw [round_half_even_intCast] at hr
  have hr' : (2 : ℚ) ^ (52 : ℤ) ≤ ((round_half_even (x / 2 ^ (E - 52)) : ℤ) : ℚ) := by
    have : ((2 ^ 52 : ℤ) : ℚ) ≤ ((round_half_even (x / 2 ^ (E - 52)) : ℤ) : ℚ) := by
      exact_mod_cast hr
    have h2 : ((2 ^ 52 : ℤ) : ℚ) = 2 ^ (52 : ℤ) := by norm_num
    rw [h2] at this
    exact this
  rw [hsplit]
  exact mul_le_mul_of_nonneg_right hr' hu.le

theorem round_magnitude_mono (x y : ℚ) (hx : 0 < x) (hxy : x ≤ y) :
    round_magnitude x ≤ round_magnitude y := by
  have hy : 0 < y := lt_of_lt_of_le hx hxy
  have hlog : Int.log 2 x ≤ Int.log 2 y := Int.log_mono_right hx hxy
  rcases lt_or_eq_of_le (max_le_max hlog (le_refl (-1022 : ℤ))) with hlt | heq
  · have hey : -1022 ≤ Int.log 2 y := by
      by_contra hcon
      push_neg at hcon
      rw [max_eq_right hcon.le] at hlt
      have := le_max_right (Int.log 2 x) (-1022)
      omega
    rw [max_eq_left hey] at hlt
    calc round_magnitude x ≤ 2 ^ (max (Int.log 2 x) (-1022) + 1) := round_magnitude_le x hx
      _ ≤ 2 ^ Int.log 2 y := two_zpow_le (by omega)
      _ ≤ round_magnitude y := round_magnitude_ge y hy hey
  · unfold round_magnitude
    simp only
    rw [heq]
    have hu : (0 : ℚ) < 2 ^ (max (Int.log 2 y) (-1022) - 52) := zpow_pos (by norm_num) _
    have hq : x / 2 ^ (max (Int.log 2 y) (-1022) - 52) ≤
        y / 2 ^ (max (Int.log 2 y) (-1022) - 52) := div_le_div_of_nonneg_right hxy hu.le
    have hr := round_half_even_mono hq
    have hr' : ((round_half_even (x / 2 ^ (max (Int.log 2 y) (-1022) - 52)) : ℤ) : ℚ) ≤
        ((round_half_even (y / 2 ^ (max (Int.log 2 y) (-1022) - 52)) : ℤ) : ℚ) := by
      exact_mod_cast hr
    exact mul_le_mul_of_nonneg_right hr' hu.le

theorem round_binary64_mono {x y : ℚ} (hxy : x ≤ y) : round_binary64 x ≤ round_binary64 y := by
  unfold round_binary64
  rcases lt_trichotomy x 0 with hx | hx | hx
  · rw [if_neg hx.ne, if_neg (not_lt.mpr hx.le)]
    rcases lt_trichotomy y 0 with hy | hy | hy
    · rw [if_neg hy.ne, if_neg (not_lt.mpr hy.le)]
      have := round_magnitude_mono (-y) (-x) (by linarith) (by linarith)
      linarith
    · rw [if_pos hy]
      have := round_magnitude_nonneg (-x) (by linarith)
      linarith
    · rw [if_neg hy.ne', if_pos hy]
      have h1 := round_magnitude_nonneg (-x) (by linarith)
      have h2 := round_magnitude_nonneg y hy
      linarith
  · rw [if_pos hx]
    rcases lt_or_eq_of_le (hx ▸ hxy : (0 : ℚ) ≤ y) with hy | hy
    · rw [if_neg hy.ne', if_pos hy]
      exact round_magnitude_nonneg y hy
    · rw [if_pos hy.symm]
  · have hy : 0 < y := lt_of_lt_of_le hx hxy
    rw [if_neg hx.ne', if_pos hx, if_neg hy.ne', if_pos hy]
    exact round_magnitude_mono x y hx hxy

theorem round_magnitude_exact (m j : ℤ) (hm0 : 0 < m) (hm : m < 2 ^ 53) (hj : -1074 ≤ j) :
    round_magnitude ((m : ℚ) * 2 ^ j) = (m : ℚ) * 2 ^ j := by
  have hpos : (0 : ℚ) < (m : ℚ) * 2 ^ j :=
    mul_pos (by exact_mod_cast hm0) (zpow_pos (by norm_num) _)
  have hlt : (m : ℚ) * 2 ^ j < 2 ^ (j + 53) := by
    rw [two_zpow_split j 53]
    have h1 : (m : ℚ) < 2 ^ (53 : ℤ) := by
      have : (m : ℚ) < ((2 ^ 53 : ℤ) : ℚ) := by exact_mod_cast hm
      have h2 : ((2 ^ 53 : ℤ) : ℚ) = 2 ^ (53 : ℤ) := by norm_num
      rw [h2] at this
      exact this
    exact mul_lt_mul_of_pos_right h1 (zpow_pos (by norm_num) _)
  have hlog := log_two_lt_of_lt _ _ hpos hlt
  unfold round_magnitude
  simp only
  generalize hE : max (Int.log 2 ((m : ℚ) * 2 ^ j)) (-1022) = E
  have hEj : E - 52 ≤ j := by
    rw [← hE]
    rcases max_cases (Int.log 2 ((m : ℚ) * 2 ^ j)) (-1022) with ⟨h, _⟩ | ⟨h, _⟩ <;>
      rw [h] <;> omega
  obtain ⟨k, hk⟩ : ∃ k : ℕ, j = (E - 52) + (k : ℤ) := ⟨(j - (E - 52)).toNat, by omega⟩
  have hsplit : (2 : ℚ) ^ j = 2 ^ (k : ℤ) * 2 ^ (E - 52) := by
    rw [hk]
    exact two_zpow_split (E - 52) k
  have hu : (0 : ℚ) < 2 ^ (E - 52) := zpow_pos (by norm_num) _
  have hq : (m : ℚ) * 2 ^ j / 2 ^ (E - 52) = ((m * 2 ^ k : ℤ) : ℚ) := by
    rw [hsplit, ← mul_assoc, mul_div_assoc, div_self hu.ne', mul_one]
    push_cast
    rw [zpow_natCast]
  rw [hq, round_half_even_intCast, hsplit]
  push_cast
  rw [zpow_natCast]
  ring

theorem round_binary64_dyadic (m j : ℤ) (hm : |m| < 2 ^ 53) (hj : -1074 ≤ j) :
    round_binary64 ((m : ℚ) * 2 ^ j) = (m : ℚ) * 2 ^ j := by
  unfold round_binary64
  have hz : (0 : ℚ) < 2 ^ j := zpow_pos (by norm_num) _
  rcases lt_trichotomy m 0 with hneg | hzero | hpos
  · have hx : (m : ℚ) * 2 ^ j < 0 := mul_neg_of_neg_of_pos (by exact_mod_cast hneg) hz
    rw [if_neg hx.ne, if_neg (not_lt.mpr hx.le)]
    have : -((m : ℚ) * 2 ^ j) = ((-m : ℤ) : ℚ) * 2 ^ j := by push_cast; ring
    rw [this, round_magnitude_exact (-m) j (by omega) (by rw [abs_lt] at hm; omega) hj]
    push_cast
    ring
  · subst hzero
    simp
  · have hx : 0 < (m : ℚ) * 2 ^ j := mul_pos (by exact_mod_cast hpos) hz
    rw [if_neg hx.ne', if_pos hx]
    exact round_magnitude_exact m j hpos (by rw [abs_lt] at hm; omega) hj

theorem representable_of_eq (x : ℚ) (m j : ℤ) (hm : |m| < 2 ^ 53) (hj : -1074 ≤ j)
    (hj' : j ≤ 971) (hx : x = (m : ℚ) * 2 ^ j) : representable x := by
  subst hx
  unfold representable binary64
  rw [round_binary64_dyadic m j hm hj, if_pos]
  have hz : (0 : ℚ) < 2 ^ j := zpow_pos (by norm_num) _
  have h1 : |(m : ℚ)| < 2 ^ 53 := by exact_mod_cast hm
  have h2 : (2 : ℚ) ^ j ≤ 2 ^ (971 : ℤ) := two_zpow_le hj'
  have h3 : (2 : ℚ) ^ (971 : ℤ) = 2 ^ 971 := by
    rw [show (971 : ℤ) = ((971 : ℕ) : ℤ) from rfl, zpow_natCast]
  calc |(m : ℚ) * 2 ^ j| = |(m : ℚ)| * 2 ^ j := by rw [abs_mul, abs_of_pos hz]
    _ < 2 ^ 53 * 2 ^ (971 : ℤ) := mul_lt_mul h1 h2 hz (by positivity)
    _ = 2 ^ 1024 := by rw [h3, ← pow_add]

theorem representable_round {x : ℚ} (h : representable x) : round_binary64 x = x := by
  unfold representable binary64 at h
  split_ifs at h
  exact Option.some.inj h

theorem representable_abs_lt {x : ℚ} (h : representable x) : |x| < 2 ^ 1024 := by
  have hr := representable_round h
  unfold representable binary64 at h
  split_ifs at h with hb
  rw [hr] at hb
  exact hb

theorem binary64_between (x lo hi : ℚ) (hlo : representable lo) (hhi : representable hi)
    (h₁ : lo ≤ x) (h₂ : x ≤ hi) :
    ∃ r, binary64 x = some r ∧ lo ≤ r ∧ r ≤ hi := by
  have h1 := round_binary64_mono h₁
  have h2 := round_binary64_mono h₂
  rw [representable_round hlo] at h1
  rw [representable_round hhi] at h2
  have b1 := abs_lt.mp (representable_abs_lt hlo)
  have b2 := abs_lt.mp (representable_abs_lt hhi)
  refine ⟨round_binary64 x, ?_, h1, h2⟩
  unfold binary64
  rw [if_pos]
  rw [abs_lt]
  constructor
  · exact lt_of_lt_of_le b1.1 h1
  · exact lt_of_le_of_lt h2 b2.2

theorem binary64_eq_some {x r : ℚ} (h : binary64 x = some r) : r = round_binary64 x := by
  unfold binary64 at h
  split_ifs at h
  exact (Option.some.inj h).symm

theorem round_binary64_zero : round_binary64 0 = 0 := by
  simp [round_binary64]

theorem round_to_int_intCast (n : ℤ) : round_to_int (n : ℚ) = n := by
  unfold round_to_int
  split_ifs with h
  · rw [Int.floor_eq_iff]
    constructor <;> linarith
  · rw [neg_eq_iff_eq_neg, Int.floor_eq_iff]
    constructor <;> push_cast <;> linarith

theorem wrap_int_of_range (n : ℤ) (h₁ : -2147483648 ≤ n) (h₂ : n ≤ 2147483647) :
    wrap_int n = n := by
  unfold wrap_int
  omega

theorem int_of_double_c_round (p : ℚ) (h₁ : -2147483648 ≤ round_to_int p)
    (h₂ : round_to_int p ≤ 2147483647) :
    int_of_double ((some p).map c_round) = round_to_int p := by
  simp only [Option.map_some', int_of_double, c_int_cast_c_round]
  rw [if_pos ⟨h₁, h₂⟩]

theorem int_of_double_c_round_large (p : ℚ) (h : 2147483647 < round_to_int p) :
    int_of_double ((some p).map c_round) = -2147483648 := by
  simp only [Option.map_some', int_of_double, c_int_cast_c_round]
  rw [if_neg (by omega)]

theorem map_float_to_int_range_scaled (min_float max_float : ℚ) (min_int max_int : ℤ)
    (input : ℚ) :
    map_float_to_int_range min_float max_float min_int max_int input =
      wrap_int (min_int +
        int_of_double ((scaled_value min_float max_float min_int max_int input).map c_round)) :=
  rfl

theorem round_to_int_abs_le (p : ℚ) (n : ℤ) (h : |p| ≤ (n : ℚ)) :
    -n ≤ round_to_int p ∧ round_to_int p ≤ n := by
  obtain ⟨h1, h2⟩ := abs_le.mp h
  have m1 := round_to_int_mono (show ((-n : ℤ) : ℚ) ≤ p by push_cast; linarith)
  have m2 := round_to_int_mono h2
  rw [round_to_int_intCast] at m1 m2
  exact ⟨m1, m2⟩

theorem map_float_to_int_range_of_scaled (min_float max_float : ℚ) (min_int max_int : ℤ)
    (input p : ℚ) (hp : scaled_value min_float max_float min_int max_int input = some p)
    (hb : |p| ≤ 1000000000) (hmin : |min_int| ≤ 1000000000) :
    map_float_to_int_range min_float max_float min_int max_int input =
      min_int + round_to_int p := by
  obtain ⟨h1, h2⟩ := round_to_int_abs_le p 1000000000 (by exact_mod_cast hb)
  rw [map_float_to_int_range_scaled, hp, int_of_double_c_round p (by omega) (by omega)]
  rw [abs_le] at hmin
  exact wrap_int_of_range _ (by omega) (by omega)

theorem scaled_value_exact (min_float max_float : ℚ) (min_int max_int : ℤ) (input : ℚ)
    (hf : min_float < max_float) (hmin : |min_int| ≤ 1000000000)
    (hmax : |max_int| ≤ 1000000000)
    (e₁ : representable (input - min_float)) (e₂ : representable (max_float - min_float))
    (e₃ : representable ((input - min_float) / (max_float - min_float)))
    (e₄ : representable
      (((max_int : ℚ) - (min_int : ℚ)) * ((input - min_float) / (max_float - min_float)))) :
    scaled_value min_float max_float min_int max_int input =
      some (((max_int : ℚ) - (min_int : ℚ)) *
        ((input - min_float) / (max_float - min_float))) := by
  unfold scaled_value
  rw [abs_le] at hmin hmax
  rw [wrap_int_of_range _ (by omega) (by omega)]
  unfold representable at e₁ e₂ e₃ e₄
  rw [e₁, e₂]
  simp only [double_div]
  rw [if_neg (by linarith [sub_pos.mpr hf] : ¬ max_float - min_float = 0), e₃]
  simp only [double_mul]
  push_cast
  exact e₄

theorem scaled_value_mono (min_float max_float : ℚ) (min_int max_int : ℤ)
    (m1 m2 p1 p2 : ℚ) (hk : 0 ≤ wrap_int (max_int - min_int))
    (hf : min_float < max_float) (hm : m1 ≤ m2)
    (h1 : scaled_value min_float max_float min_int max_int m1 = some p1)
    (h2 : scaled_value min_float max_float min_int max_int m2 = some p2) : p1 ≤ p2 := by
  unfold scaled_value at h1 h2
  cases a1 : binary64 (m1 - min_float) with
  | none => rw [a1] at h1; simp [double_div, double_mul] at h1
  | some r1 =>
    cases a2 : binary64 (m2 - min_float) with
    | none => rw [a2] at h2; simp [double_div, double_mul] at h2
    | some r2 =>
      rw [a1] at h1
      rw [a2] at h2
      have hr : r1 ≤ r2 := by
        rw [binary64_eq_some a1, binary64_eq_some a2]
        exact round_binary64_mono (by linarith)
      cases d : binary64 (max_float - min_float) with
      | none =>
        rw [d] at h1 h2
        simp only [double_div, double_mul] at h1 h2
        rw [h1] at h2
        exact le_of_eq (Option.some.inj h2)
      | some dv =>
        rw [d] at h1 h2
        simp only [double_div] at h1 h2
        by_cases hz : dv = 0
        · rw [if_pos hz] at h1
          simp [double_mul] at h1
        · rw [if_neg hz] at h1 h2
          cases b1 : binary64 (r1 / dv) with
          | none => rw [b1] at h1; simp [double_mul] at h1
          | some q1 =>
            cases b2 : binary64 (r2 / dv) with
            | none => rw [b2] at h2; simp [double_mul] at h2
            | some q2 =>
              rw [b1] at h1
              rw [b2] at h2
              simp only [double_mul] at h1 h2
              rw [binary64_eq_some h1, binary64_eq_some h2]
              apply round_binary64_mono
              apply mul_le_mul_of_nonneg_left _ (by exact_mod_cast hk)
              rw [binary64_eq_some b1, binary64_eq_some b2]
              apply round_binary64_mono
              have hd0 : 0 ≤ dv := by
                rw [binary64_eq_some d, ← round_binary64_zero]
                exact round_binary64_mono (by linarith)
              exact div_le_div_of_nonneg_right hr hd0

theorem map_float_to_int_range_mono_of_scaled (min_float max_float : ℚ)
    (min_int max_int : ℤ) (m1 m2 p1 p2 : ℚ) (hf : min_float < max_float)
    (hi : min_int ≤ max_int) (hm : m1 ≤ m2) (hmin : |min_int| ≤ 1000000000)
    (hmax : |max_int| ≤ 1000000000)
    (h1 : scaled_value min_float max_float min_int max_int m1 = some p1)
    (h2 : scaled_value min_float max_float min_int max_int m2 = some p2)
    (hp1 : |p1| ≤ 1000000000) (hp2 : |p2| ≤ 1000000000) :
    map_float_to_int_range min_float max_float min_int max_int m1 ≤
      map_float_to_int_range min_float max_float min_int max_int m2 := by
  rw [map_float_to_int_range_of_scaled _ _ _ _ _ p1 h1 hp1 hmin,
    map_float_to_int_range_of_scaled _ _ _ _ _ p2 h2 hp2 hmin]
  have hk : 0 ≤ wrap_int (max_int - min_int) := by
    rw [abs_le] at hmin hmax
    rw [wrap_int_of_range _ (by omega) (by omega)]
    omega
  have := round_to_int_mono (scaled_value_mono _ _ _ _ m1 m2 p1 p2 hk hf hm h1 h2)
  omega

/-! ## The symbol index (claims C1-C3) -/

theorem star_span : max_magnitude - min_magnitude = 9877586 / 1048576 := by
  unfold max_magnitude min_magnitude; norm_num

theorem wrap_int_nine : wrap_int (9 - 0) = 9 := by decide

theorem star_scaled_bounds (m L U : ℚ) (hL : representable L) (hU : representable U)
    (hLD : representable (L * (9877586 / 1048576)))
    (hUD : representable (U * (9877586 / 1048576)))
    (h9L : representable (9 * L)) (h9U : representable (9 * U))
    (hLm : L * (9877586 / 1048576) ≤ m - min_magnitude)
    (hmU : m - min_magnitude ≤ U * (9877586 / 1048576)) :
    ∃ p, scaled_value min_magnitude max_magnitude 0 9 m = some p ∧ 9 * L ≤ p ∧ p ≤ 9 * U := by
  have hD : binary64 (max_magnitude - min_magnitude) = some (9877586 / 1048576) := by
    rw [star_span]
    exact representable_of_eq _ 9877586 (-20) (by norm_num) (by norm_num) (by norm_num)
      (by norm_num)
  obtain ⟨r1, hr1, a1, b1⟩ := binary64_between (m - min_magnitude) _ _ hLD hUD hLm hmU
  obtain ⟨r2, hr2, a2, b2⟩ := binary64_between (r1 / (9877586 / 1048576)) L U hL hU
    (by rw [le_div_iff₀ (by norm_num)]; exact a1)
    (by rw [div_le_iff₀ (by norm_num)]; exact b1)
  obtain ⟨p, hp, a3, b3⟩ := binary64_between (9 * r2) (9 * L) (9 * U) h9L h9U
    (by linarith) (by linarith)
  refine ⟨p, ?_, a3, b3⟩
  unfold scaled_value
  rw [hr1, hD, wrap_int_nine]
  simp only [double_div, double_mul]
  rw [if_neg (by norm_num), hr2]
  push_cast
  exact hp

theorem star_index_bounds (m L U : ℚ) (hL : representable L) (hU : representable U)
    (hLD : representable (L * (9877586 / 1048576)))
    (hUD : representable (U * (9877586 / 1048576)))
    (h9L : representable (9 * L)) (h9U : representable (9 * U))
    (hLm : L * (9877586 / 1048576) ≤ m - min_magnitude)
    (hmU : m - min_magnitude ≤ U * (9877586 / 1048576))
    (hLb : -67108864 ≤ L) (hUb : U ≤ 67108864) :
    round_to_int (9 * L) ≤ map_float_to_int_range min_magnitude max_magnitude 0 9 m ∧
    map_float_to_int_range min_magnitude max_magnitude 0 9 m ≤ round_to_int (9 * U) := by
  obtain ⟨p, hp, a, b⟩ := star_scaled_bounds m L U hL hU hLD hUD h9L h9U hLm hmU
  rw [map_float_to_int_range_of_scaled _ _ _ _ _ p hp
    (by rw [abs_le]; constructor <;> linarith) (by norm_num), zero_add]
  exact ⟨round_to_int_mono a, round_to_int_mono b⟩

/-- The symbol index of a magnitude whose offset from `min_magnitude` lies between
`a / 128` and `(a + 1) / 128` of the calibrated span, when `9 * a / 128` and
`9 * (a + 1) / 128` round to the same integer `n`. -/
theorem star_index_eq (m : ℚ) (a n : ℤ) (ha₁ : -1000000 ≤ a) (ha₂ : a ≤ 1000000)
    (hLm : (a : ℚ) / 128 * (9877586 / 1048576) ≤ m - min_magnitude)
    (hmU : m - min_magnitude ≤ ((a : ℚ) + 1) / 128 * (9877586 / 1048576))
    (hn₁ : round_to_int (9 * ((a : ℚ) / 128)) = n)
    (hn₂ : round_to_int (9 * (((a : ℚ) + 1) / 128)) = n) :
    map_float_to_int_range min_magnitude max_magnitude 0 9 m = n := by
  have p7 : (2 : ℚ) ^ (-7 : ℤ) = 1 / 128 := by norm_num
  have p27 : (2 : ℚ) ^ (-27 : ℤ) = 1 / 134217728 := by norm_num
  have h := star_index_bounds m ((a : ℚ) / 128) (((a : ℚ) + 1) / 128)
    (representable_of_eq _ a (-7) (by rw [abs_lt]; omega) (by norm_num) (by norm_num)
      (by rw [p7]; ring))
    (representable_of_eq _ (a + 1) (-7) (by rw [abs_lt]; omega) (by norm_num) (by norm_num)
      (by rw [p7]; push_cast; ring))
    (representable_of_eq _ (a * 9877586) (-27) (by rw [abs_lt]; omega) (by norm_num)
      (by norm_num) (by rw [p27]; push_cast; ring))
    (representable_of_eq _ ((a + 1) * 9877586) (-27) (by rw [abs_lt]; omega) (by norm_num)
      (by norm_num) (by rw [p27]; push_cast; ring))
    (representable_of_eq _ (9 * a) (-7) (by rw [abs_lt]; omega) (by norm_num) (by norm_num)
      (by rw [p7]; push_cast; ring))
    (representable_of_eq _ (9 * (a + 1)) (-7) (by rw [abs_lt]; omega) (by norm_num)
      (by norm_num) (by rw [p7]; push_cast; ring))
    hLm hmU
    (by rw [le_div_iff₀ (by norm_num)]
        have : (-1000000 : ℚ) ≤ a := by exact_mod_cast ha₁
        linarith)
    (by rw [div_le_iff₀ (by norm_num)]
        have : (a : ℚ) ≤ 1000000 := by exact_mod_cast ha₂
        linarith)
  rw [hn₁, hn₂] at h
  omega

theorem symbol_index_in_range (m : ℚ) (h₁ : min_magnitude ≤ m) (h₂ : m ≤ max_magnitude) :
    0 ≤ map_float_to_int_range min_magnitude max_magnitude 0 9 m ∧
    map_float_to_int_range min_magnitude max_magnitude 0 9 m ≤ 9 := by
  have r0 : representable 0 :=
    representable_of_eq _ 0 0 (by norm_num) (by norm_num) (by norm_num) (by norm_num)
  have h := star_index_bounds m 0 1 r0
    (representable_of_eq _ 1 0 (by norm_num) (by norm_num) (by norm_num) (by norm_num))
    (by rw [zero_mul]; exact r0)
    (representable_of_eq _ 9877586 (-20) (by norm_num) (by norm_num) (by norm_num)
      (by norm_num))
    (by rw [mul_zero]; exact r0)
    (representable_of_eq _ 9 0 (by norm_num) (by norm_num) (by norm_num) (by norm_num))
    (by linarith) (by unfold max_magnitude min_magnitude at *; linarith)
    (by norm_num) (by norm_num)
  have e0 : round_to_int (9 * 0) = 0 := by norm_num [round_to_int]
  have e9 : round_to_int (9 * 1) = 9 := by norm_num [round_to_int]
  rw [e0, e9] at h
  exact h

theorem round_to_int_eq_of (x : ℚ) (n : ℤ) (h₀ : 0 ≤ x) (h₁ : (n : ℚ) ≤ x + 1 / 2)
    (h₂ : x + 1 / 2 < (n : ℚ) + 1) : round_to_int x = n := by
  unfold round_to_int
  rw [if_pos h₀, Int.floor_eq_iff]
  exact ⟨h₁, h₂⟩

theorem symbol_index_one :
    map_float_to_int_range min_magnitude max_magnitude 0 9 (((100 : ℤ) : ℚ) / 100) = 2 :=
  star_index_eq _ 33 2 (by norm_num) (by norm_num)
    (by norm_num [min_magnitude]) (by norm_num [min_magnitude])
    (round_to_int_eq_of _ _ (by norm_num) (by norm_num) (by norm_num))
    (round_to_int_eq_of _ _ (by norm_num) (by norm_num) (by norm_num))

theorem symbol_index_three :
    map_float_to_int_range min_magnitude max_magnitude 0 9 3 = 4 :=
  star_index_eq _ 60 4 (by norm_num) (by norm_num)
    (by norm_num [min_magnitude]) (by norm_num [min_magnitude])
    (round_to_int_eq_of _ _ (by norm_num) (by norm_num) (by norm_num))
    (round_to_int_eq_of _ _ (by norm_num) (by norm_num) (by norm_num))

theorem symbol_index_ten :
    map_float_to_int_range min_magnitude max_magnitude 0 9 10 = 11 :=
  star_index_eq _ 155 11 (by norm_num) (by norm_num)
    (by norm_num [min_magnitude]) (by norm_num [min_magnitude])
    (round_to_int_eq_of _ _ (by norm_num) (by norm_num) (by norm_num))
    (round_to_int_eq_of _ _ (by norm_num) (by norm_num) (by norm_num))

theorem log_two_eq (x : ℚ) (e : ℤ) (h₁ : (2 : ℚ) ^ e ≤ x) (h₂ : x < 2 ^ (e + 1)) :
    Int.log 2 x = e := by
  have hx : 0 < x := lt_of_lt_of_le (by positivity) h₁
  have a := log_two_lt_of_lt x (e + 1) hx h₂
  have b := (log_two_bounds x hx).2
  by_contra hcon
  have c : Int.log 2 x + 1 ≤ e := by omega
  have d := two_zpow_le c
  linarith

/-- The product `3 * x` for the double `x` nearest to `1 / 6` is half a unit in
the last place below `1 / 2`, and is rounded up to `1 / 2`. -/
theorem binary64_three_sixths :
    binary64 (3 * (6004799503160661 / 36028797018963968)) = some (1 / 2) := by
  have hr : round_binary64 (3 * (6004799503160661 / 36028797018963968)) = 1 / 2 := by
    unfold round_binary64
    rw [if_neg (by norm_num), if_pos (by norm_num)]
    unfold round_magnitude
    rw [log_two_eq _ (-2) (by norm_num) (by norm_num)]
    have hmax : max (-2 : ℤ) (-1022) = -2 := by decide
    simp only [hmax]
    have hq : (3 * (6004799503160661 / 36028797018963968) : ℚ) / 2 ^ ((-2 : ℤ) - 52)
        = 18014398509481983 / 2 := by norm_num
    rw [hq]
    have hf : round_half_even (18014398509481983 / 2) = 9007199254740992 := by
      unfold round_half_even
      have fl : ⌊(18014398509481983 / 2 : ℚ)⌋ = 9007199254740991 := by
        rw [Int.floor_eq_iff]
        constructor <;> norm_num
      rw [fl]
      norm_num
    rw [hf]
    norm_num
  unfold binary64
  rw [hr, if_pos (by rw [abs_lt]; constructor <;> norm_num)]

theorem wrap_int_three : wrap_int (3 - 0) = 3 := by decide

theorem representable_sixth : representable (6004799503160661 / 36028797018963968) :=
  representable_of_eq _ 6004799503160661 (-55) (by norm_num) (by norm_num) (by norm_num)
    (by norm_num)

theorem representable_one : representable 1 :=
  representable_of_eq _ 1 0 (by norm_num) (by norm_num) (by norm_num) (by norm_num)

theorem scaled_value_sixth :
    scaled_value 0 1 0 3 (6004799503160661 / 36028797018963968) = some (1 / 2) := by
  have h1 : binary64 (6004799503160661 / 36028797018963968 - 0)
      = some (6004799503160661 / 36028797018963968) := by
    rw [sub_zero]
    exact representable_sixth
  have h2 : binary64 (1 - 0) = some 1 := by
    rw [sub_zero]
    exact representable_one
  have h3 : binary64 (6004799503160661 / 36028797018963968 / 1)
      = some (6004799503160661 / 36028797018963968) := by
    rw [div_one]
    exact representable_sixth
  unfold scaled_value
  rw [h1, h2, wrap_int_three]
  simp only [double_div]
  rw [if_neg (by norm_num), h3]
  simp only [double_mul]
  push_cast
  exact binary64_three_sixths

/-- The reading at `(0, 1, 0, 3)` of the double nearest to `1 / 6`: the code
returns 1, the exact formula 0. -/
theorem map_float_to_int_range_sixth :
    map_float_to_int_range 0 1 0 3 (6004799503160661 / 36028797018963968) = 1 ∧
    spec_map_float_to_int_range 0 1 0 3 (6004799503160661 / 36028797018963968) = 0 := by
  constructor
  · rw [map_float_to_int_range_of_scaled 0 1 0 3 _ (1 / 2) scaled_value_sixth
      (by rw [abs_le]; constructor <;> norm_num) (by norm_num)]
    norm_num [round_to_int]
  · unfold spec_map_float_to_int_range
    rw [← round_to_int_eq_spec]
    unfold round_to_int
    rw [if_pos (by norm_num), zero_add, Int.floor_eq_iff]
    constructor <;> norm_num

theorem scaled_value_unit (n : ℤ) (hn : |n| < 2 ^ 53) :
    scaled_value 0 1 5 6 (n : ℚ) = some (n : ℚ) := by
  have hr : representable (n : ℚ) :=
    representable_of_eq _ n 0 hn (by norm_num) (by norm_num) (by simp)
  have h1 : binary64 ((n : ℚ) - 0) = some (n : ℚ) := by
    rw [sub_zero]
    exact hr
  have h2 : binary64 (1 - 0) = some 1 := by
    rw [sub_zero]
    exact representable_one
  have hw : wrap_int (6 - 5) = 1 := by decide
  unfold scaled_value
  rw [h1, h2, hw]
  simp only [double_div]
  rw [if_neg (by norm_num), div_one, hr]
  simp only [double_mul]
  rw [Int.cast_one, one_mul]
  exact hr

/-- The reading at `(0, 1, 5, 6)`: 5 at input 0, and at input 2147483647 the sum
`5 + 2147483647` wraps around to a negative `int`. -/
theorem map_float_to_int_range_wraps :
    map_float_to_int_range 0 1 5 6 0 = 5 ∧
    map_float_to_int_range 0 1 5 6 2147483647 = -2147483644 := by
  constructor
  · have h := scaled_value_unit 0 (by norm_num)
    rw [Int.cast_zero] at h
    rw [map_float_to_int_range_of_scaled 0 1 5 6 0 0 h (by norm_num) (by norm_num)]
    norm_num [round_to_int]
  · have h := scaled_value_unit 2147483647 (by norm_num)
    rw [map_float_to_int_range_scaled]
    have e : ((2147483647 : ℤ) : ℚ) = 2147483647 := by norm_num
    rw [e] at h
    rw [h, int_of_double_c_round _
      (by rw [← e, round_to_int_intCast]; norm_num)
      (by rw [← e, round_to_int_intCast])]
    rw [← e, round_to_int_intCast]
    decide

/-- The symbol index of the magnitude `2 ^ 40`: the rounded value is too large for
an `int` and the conversion gives `INT_MIN`. -/
theorem symbol_index_overflow :
    map_float_to_int_range min_magnitude max_magnitude 0 9 1099511627776 = -2147483648 := by
  obtain ⟨p, hp, a, _⟩ := star_scaled_bounds 1099511627776 68719476736 137438953472
    (representable_of_eq _ 68719476736 0 (by norm_num) (by norm_num) (by norm_num)
      (by norm_num))
    (representable_of_eq _ 137438953472 0 (by norm_num) (by norm_num) (by norm_num)
      (by norm_num))
    (representable_of_eq _ (65536 * 9877586) 0 (by norm_num) (by norm_num) (by norm_num)
      (by norm_num))
    (representable_of_eq _ (131072 * 9877586) 0 (by norm_num) (by norm_num) (by norm_num)
      (by norm_num))
    (representable_of_eq _ (9 * 68719476736) 0 (by norm_num) (by norm_num) (by norm_num)
      (by norm_num))
    (representable_of_eq _ (9 * 137438953472) 0 (by norm_num) (by norm_num) (by norm_num)
      (by norm_num))
    (by norm_num [min_magnitude]) (by norm_num [min_magnitude])
  have hl : 2147483647 < round_to_int p := by
    have h1 := round_to_int_mono a
    have h2 : round_to_int (9 * 68719476736) = 618475290624 := by
      have e : (9 * 68719476736 : ℚ) = ((618475290624 : ℤ) : ℚ) := by norm_num
      rw [e, round_to_int_intCast]
    omega
  rw [map_float_to_int_range_scaled, hp, int_of_double_c_round_large p hl]
  decide

theorem binary64_of_round (x : ℚ) (e n : ℤ) (h₁ : (2 : ℚ) ^ e ≤ x) (h₂ : x < 2 ^ (e + 1))
    (he : -1022 ≤ e) (hn : round_half_even (x / 2 ^ (e - 52)) = n)
    (hb : |(n : ℚ) * 2 ^ (e - 52)| < 2 ^ 1024) :
    binary64 x = some ((n : ℚ) * 2 ^ (e - 52)) := by
  have hx : 0 < x := lt_of_lt_of_le (by positivity) h₁
  have hr : round_binary64 x = (n : ℚ) * 2 ^ (e - 52) := by
    unfold round_binary64
    rw [if_neg hx.ne', if_pos hx]
    unfold round_magnitude
    rw [log_two_eq x e h₁ h₂, max_eq_left he]
    simp only [hn]
  unfold binary64
  rw [hr, if_pos hb]

/-- The symbol index of the double just below 3.25: the difference to
`min_magnitude`, half a unit in the last place below half the calibrated span, is
rounded up to half the span; `percent` is `1 / 2`, the product `9 / 2`, and the
code returns 5, where the exact quotient is below `9 / 2` and the formula gives 4. -/
theorem symbol_index_below_midpoint :
    map_float_to_int_range min_magnitude max_magnitude 0 9
      (7318349394477055 / 2251799813685248) = 5 ∧
    spec_round_half_away
      (9 * (7318349394477055 / 2251799813685248 - min_magnitude) /
        (max_magnitude - min_magnitude)) = 4 := by
  constructor
  · have h1 : binary64 (7318349394477055 / 2251799813685248 - min_magnitude)
        = some (4938793 / 1048576) := by
      have hf : round_half_even
          ((7318349394477055 / 2251799813685248 - min_magnitude) / 2 ^ ((2 : ℤ) - 52))
          = 5302988604178432 := by
        have hq : (7318349394477055 / 2251799813685248 - min_magnitude) /
            2 ^ ((2 : ℤ) - 52) = (10605977208356863 / 2 : ℚ) := by
          norm_num [min_magnitude]
        rw [hq]
        unfold round_half_even
        have fl : ⌊(10605977208356863 / 2 : ℚ)⌋ = 5302988604178431 := by
          rw [Int.floor_eq_iff]
          constructor <;> norm_num
        rw [fl]
        norm_num
      have h := binary64_of_round (7318349394477055 / 2251799813685248 - min_magnitude) 2
        5302988604178432 (by norm_num [min_magnitude]) (by norm_num [min_magnitude])
        (by norm_num) hf (by rw [abs_lt]; constructor <;> norm_num)
      rw [h]
      norm_num
    have h2 : binary64 (max_magnitude - min_magnitude) = some (9877586 / 1048576) := by
      rw [star_span]
      exact representable_of_eq _ 9877586 (-20) (by norm_num) (by norm_num) (by norm_num)
        (by norm_num)
    have h3 : binary64 ((4938793 / 1048576 : ℚ) / (9877586 / 1048576)) = some (1 / 2) := by
      have e : ((4938793 / 1048576 : ℚ) / (9877586 / 1048576)) = 1 / 2 := by norm_num
      rw [e]
      exact representable_of_eq _ 1 (-1) (by norm_num) (by norm_num) (by norm_num)
        (by norm_num)
    have h4 : binary64 (9 * (1 / 2 : ℚ)) = some (9 / 2) := by
      have e : (9 * (1 / 2 : ℚ)) = 9 / 2 := by norm_num
      rw [e]
      exact representable_of_eq _ 9 (-1) (by norm_num) (by norm_num) (by norm_num)
        (by norm_num)
    have hp : scaled_value min_magnitude max_magnitude 0 9
        (7318349394477055 / 2251799813685248) = some (9 / 2) := by
      unfold scaled_value
      rw [h1, h2, wrap_int_nine]
      simp only [double_div]
      rw [if_neg (by norm_num), h3]
      simp only [double_mul]
      push_cast
      exact h4
    rw [map_float_to_int_range_of_scaled _ _ _ _ _ (9 / 2) hp
      (by rw [abs_le]; constructor <;> norm_num) (by norm_num), zero_add]
    exact round_to_int_eq_of _ _ (by norm_num) (by norm_num) (by norm_num)
  · rw [← round_to_int_eq_spec]
    exact round_to_int_eq_of _ _ (by norm_num [min_magnitude, max_magnitude])
      (by norm_num [min_magnitude, max_magnitude])
      (by norm_num [min_magnitude, max_magnitude])

theorem round_magnitude_error (x : ℚ) (t : ℤ) (hx : 0 < x) (hxt : x ≤ 2 ^ t)
    (ht : -1022 ≤ t) : |round_magnitude x - x| ≤ 2 ^ (t - 53) := by
  unfold round_magnitude
  have he : max (Int.log 2 x) (-1022) ≤ t := max_le (log_two_le_of_le x t hx hxt) ht
  generalize max (Int.log 2 x) (-1022) = e at he
  simp only
  have hu : (0 : ℚ) < 2 ^ (e - 52) := zpow_pos (by norm_num) _
  have hn := round_half_even_near (x / 2 ^ (e - 52))
  have hsplit : (2 : ℚ) ^ (e - 52) = 2 * 2 ^ (e - 53) := by
    have := two_zpow_split (e - 53) 1
    rw [show e - 53 + 1 = e - 52 by ring] at this
    rw [this]
    norm_num
  have hle : (2 : ℚ) ^ (e - 53) ≤ 2 ^ (t - 53) := two_zpow_le (by omega)
  have heq : (round_half_even (x / 2 ^ (e - 52)) : ℚ) * 2 ^ (e - 52) - x
      = ((round_half_even (x / 2 ^ (e - 52)) : ℚ) - x / 2 ^ (e - 52)) * 2 ^ (e - 52) := by
    field_simp
  rw [heq, abs_mul, abs_of_pos hu]
  calc |(round_half_even (x / 2 ^ (e - 52)) : ℚ) - x / 2 ^ (e - 52)| * 2 ^ (e - 52)
      ≤ 1 / 2 * 2 ^ (e - 52) := mul_le_mul_of_nonneg_right hn hu.le
    _ = 2 ^ (e - 53) := by rw [hsplit]; ring
    _ ≤ 2 ^ (t - 53) := hle

theorem round_binary64_error (x : ℚ) (t : ℤ) (hxt : |x| ≤ 2 ^ t) (ht : -1022 ≤ t) :
    |round_binary64 x - x| ≤ 2 ^ (t - 53) := by
  unfold round_binary64
  split_ifs with h0 hpos
  · subst h0
    simp only [sub_zero, abs_zero]
    positivity
  · exact round_magnitude_error x t hpos (le_trans (le_abs_self x) hxt) ht
  · have hneg : 0 < -x := by
      rcases lt_trichotomy x 0 with h | h | h
      · linarith
      · exact absurd h h0
      · exact absurd h hpos
    have h := round_magnitude_error (-x) t hneg (le_trans (neg_le_abs x) hxt) ht
    have e : -round_magnitude (-x) - x = -(round_magnitude (-x) - -x) := by ring
    rw [e, abs_neg]
    exact h

theorem binary64_error {x r : ℚ} (t : ℤ) (h : binary64 x = some r) (hxt : |x| ≤ 2 ^ t)
    (ht : -1022 ≤ t) : |r - x| ≤ 2 ^ (t - 53) := by
  rw [binary64_eq_some h]
  exact round_binary64_error x t hxt ht

theorem round_to_int_eq_of_open (p : ℚ) (N : ℤ) (h₁ : (N : ℚ) - 1 / 2 < p)
    (h₂ : p < (N : ℚ) + 1 / 2) : round_to_int p = N := by
  unfold round_to_int
  split_ifs with h
  · rw [Int.floor_eq_iff]
    constructor <;> linarith
  · rw [neg_eq_iff_eq_neg, Int.floor_eq_iff]
    constructor <;> push_cast <;> linarith

theorem round_to_int_near (x : ℚ) :
    ((round_to_int x : ℤ) : ℚ) - 1 / 2 ≤ x ∧ x ≤ ((round_to_int x : ℤ) : ℚ) + 1 / 2 := by
  unfold round_to_int
  split_ifs with h
  · have h1 := Int.floor_le (x + 1 / 2)
    have h2 := Int.lt_floor_add_one (x + 1 / 2)
    constructor <;> linarith
  · have h1 := Int.floor_le (-x + 1 / 2)
    have h2 := Int.lt_floor_add_one (-x + 1 / 2)
    push_cast
    constructor <;> linarith

/-- The error of the double `9 * percent` for a magnitude between -16 and 14: the
three rounded operations move it by at most `2 ^ (-46)` from the exact quotient
`9 * (m - min_magnitude) / (max_magnitude - min_magnitude)`. -/
theorem star_scaled_error (m : ℚ) (h₁ : -16 ≤ m) (h₂ : m ≤ 14) :
    ∃ p, scaled_value min_magnitude max_magnitude 0 9 m = some p ∧
      |p - 9 * (m - min_magnitude) / (max_magnitude - min_magnitude)| ≤ 1 / 2 ^ 46 ∧
      |p| ≤ 32 := by
  have hD : binary64 (max_magnitude - min_magnitude) = some (9877586 / 1048576) := by
    rw [star_span]
    exact representable_of_eq _ 9877586 (-20) (by norm_num) (by norm_num) (by norm_num)
      (by norm_num)
  have rep : ∀ k : ℤ, |k| < 2 ^ 53 → representable (k : ℚ) := fun k hk =>
    representable_of_eq _ k 0 hk (by norm_num) (by norm_num) (by simp)
  have b1 : -16 ≤ m - min_magnitude ∧ m - min_magnitude ≤ 16 := by
    unfold min_magnitude
    constructor <;> linarith
  obtain ⟨r1, hr1, l1, u1⟩ := binary64_between (m - min_magnitude) ((-16 : ℤ) : ℚ)
    ((16 : ℤ) : ℚ) (rep _ (by norm_num)) (rep _ (by norm_num))
    (by push_cast; exact b1.1) (by push_cast; exact b1.2)
  have e1 := binary64_error 4 hr1
    (by rw [abs_le]; norm_num; constructor <;> linarith [b1.1, b1.2]) (by norm_num)
  push_cast at l1 u1
  obtain ⟨r2, hr2, l2, u2⟩ := binary64_between (r1 / (9877586 / 1048576)) ((-2 : ℤ) : ℚ)
    ((2 : ℤ) : ℚ) (rep _ (by norm_num)) (rep _ (by norm_num))
    (by push_cast; rw [le_div_iff₀ (by norm_num)]; linarith)
    (by push_cast; rw [div_le_iff₀ (by norm_num)]; linarith)
  push_cast at l2 u2
  have b2 : |r1 / (9877586 / 1048576)| ≤ 2 ^ (1 : ℤ) := by
    rw [abs_le]
    norm_num
    constructor
    · rw [le_div_iff₀ (by norm_num)]; linarith
    · rw [div_le_iff₀ (by norm_num)]; linarith
  have e2 := binary64_error 1 hr2 b2 (by norm_num)
  obtain ⟨p, hp, l3, u3⟩ := binary64_between (9 * r2) ((-32 : ℤ) : ℚ)
    ((32 : ℤ) : ℚ) (rep _ (by norm_num)) (rep _ (by norm_num))
    (by push_cast; linarith) (by push_cast; linarith)
  push_cast at l3 u3
  have b3 : |9 * r2| ≤ 2 ^ (5 : ℤ) := by
    rw [abs_le]
    norm_num
    constructor <;> linarith
  have e3 := binary64_error 5 hp b3 (by norm_num)
  refine ⟨p, ?_, ?_, abs_le.mpr ⟨l3, u3⟩⟩
  · unfold scaled_value
    rw [hr1, hD, wrap_int_nine]
    simp only [double_div, double_mul]
    rw [if_neg (by norm_num), hr2]
    push_cast
    exact hp
  · rw [star_span]
    rw [abs_le] at e1 e2 e3 ⊢
    norm_num at e1 e2 e3 ⊢
    have hdiv : r1 / (4938793 / 524288) = r1 * (524288 / 4938793) := by
      field_simp
    rw [hdiv] at e2
    constructor <;> linarith

/-- The symbol index of a magnitude between -16 and 14 is the exact formula
`round(9 * (m - min) / (max - min))` whenever the quotient is farther than `2 ^ (-46)`
from every half-integer. -/
theorem star_index_formula (m : ℚ) (h₁ : -16 ≤ m) (h₂ : m ≤ 14)
    (hgap : ∀ n : ℤ,
      1 / 2 ^ 46 <
        |9 * (m - min_magnitude) / (max_magnitude - min_magnitude) - ((n : ℚ) + 1 / 2)|) :
    map_float_to_int_range min_magnitude max_magnitude 0 9 m =
      spec_round_half_away
        (9 * (m - min_magnitude) / (max_magnitude - min_magnitude)) := by
  obtain ⟨p, hp, herr, hb⟩ := star_scaled_error m h₁ h₂
  rw [map_float_to_int_range_of_scaled _ _ _ _ _ p hp (le_trans hb (by norm_num))
    (by norm_num), zero_add, ← round_to_int_eq_spec]
  generalize 9 * (m - min_magnitude) / (max_magnitude - min_magnitude) = X at herr hgap
  obtain ⟨n1, n2⟩ := round_to_int_near X
  have g1 := hgap (round_to_int X - 1)
  have g2 := hgap (round_to_int X)
  push_cast at g1
  rw [abs_le] at herr
  have g1' : 1 / 2 ^ 46 < X - ((round_to_int X : ℚ) - 1 + 1 / 2) := by
    rw [abs_of_nonneg (by linarith)] at g1
    exact g1
  have g2' : 1 / 2 ^ 46 < ((round_to_int X : ℚ) + 1 / 2) - X := by
    rw [abs_of_nonpos (by linarith)] at g2
    linarith
  exact round_to_int_eq_of_open p _ (by linarith) (by linarith)

/-- C1, as stated, fails: the symbol index is not clamped into `[0, 9]`; the
magnitude 10, above the calibrated maximum, gets the index 11. -/
theorem C1_counterexample :
    ¬ (∀ magnitude : ℚ,
        0 ≤ map_float_to_int_range min_magnitude max_magnitude 0 9 magnitude ∧
        map_float_to_int_range min_magnitude max_magnitude 0 9 magnitude ≤ 9) := by
  intro h
  have h10 := (h 10).2
  rw [symbol_index_ten] at h10
  omega

/-- C1, amended: for every magnitude in the calibrated range, from the constant
`min_magnitude = -1.46f` to the constant `max_magnitude = 7.96f`, the symbol index
`map_float_to_int_range(min_magnitude, max_magnitude, 0, 9, magnitude)` is an
integer in `[0, 9]`. -/
theorem C1_symbol_index_range (magnitude : ℚ) (h₁ : min_magnitude ≤ magnitude)
    (h₂ : magnitude ≤ max_magnitude) :
    0 ≤ map_float_to_int_range min_magnitude max_magnitude 0 9 magnitude ∧
    map_float_to_int_range min_magnitude max_magnitude 0 9 magnitude ≤ 9 :=
  symbol_index_in_range magnitude h₁ h₂

/-- Witness for C1: the magnitude 3 lies in the calibrated range. -/
theorem C1_symbol_index_range_witness :
    (min_magnitude ≤ 3 ∧ (3 : ℚ) ≤ max_magnitude) ∧
    (0 ≤ map_float_to_int_range min_magnitude max_magnitude 0 9 3 ∧
      map_float_to_int_range min_magnitude max_magnitude 0 9 3 ≤ 9) :=
  ⟨by unfold min_magnitude max_magnitude; norm_num,
   C1_symbol_index_range 3 (by unfold min_magnitude; norm_num)
     (by unfold max_magnitude; norm_num)⟩

/-- C2, as stated, fails: the result is not always the exact formula
`min_int + round((max_int - min_int) * (input - min_float) / (max_float - min_float))`.
At `(0, 1, 0, 3)` and the double nearest to `1 / 6` the product `3 * input` is rounded
up to `1 / 2` and the code returns 1, where the exact quotient is below `1 / 2` and the
formula gives 0. With the star calibration, at the double just below 3.25 the
difference `magnitude - min_magnitude` is rounded up to half the calibrated span and
the code returns 5, where `round(9 * (magnitude - min) / (max - min))` is 4. -/
theorem C2_counterexample :
    ¬ (∀ (min_float max_float : ℚ) (min_int max_int : ℤ) (input : ℚ),
        min_float < max_float →
        map_float_to_int_range min_float max_float min_int max_int input =
          spec_map_float_to_int_range min_float max_float min_int max_int input) ∧
    ¬ (∀ magnitude : ℚ,
        map_float_to_int_range min_magnitude max_magnitude 0 9 magnitude =
          spec_round_half_away
            (9 * (magnitude - min_magnitude) / (max_magnitude - min_magnitude))) := by
  constructor
  · intro h
    have h1 := h 0 1 0 3 (6004799503160661 / 36028797018963968) (by norm_num)
    rw [map_float_to_int_range_sixth.1, map_float_to_int_range_sixth.2] at h1
    exact absurd h1 (by decide)
  · intro h
    have h1 := h (7318349394477055 / 2251799813685248)
    rw [symbol_index_below_midpoint.1, symbol_index_below_midpoint.2] at h1
    exact absurd h1 (by decide)

/-- C2, amended: whenever the double `p` that the code computes for
`(max_int - min_int) * percent` is finite with `|p| <= 10^9`, and `|min_int| <= 10^9`,
the result of `map_float_to_int_range` is `min_int + round(p)` with halves rounded
away from zero; it is the exact formula
`min_int + round((max_int - min_int) * (input - min_float) / (max_float - min_float))`
when `min_float < max_float`, `|max_int| <= 10^9`, and the two subtractions, the
division and the multiplication are exact in double arithmetic. With the star
calibration `(min_magnitude, max_magnitude, 0, 9)` and a magnitude between -16 and
14 it is `round(9 * (magnitude - min) / (max - min))` whenever that quotient is
farther than `2 ^ (-46)` from every half-integer; it is 0 at the magnitude `-1.46`
and at `min_magnitude`, and 9 at the magnitude `7.96` and at `max_magnitude`. -/
theorem C2_map_float_to_int_range_formula (min_float max_float : ℚ)
    (min_int max_int : ℤ) (input : ℚ) (hmin : |min_int| ≤ 1000000000) :
    (∀ p : ℚ, scaled_value min_float max_float min_int max_int input = some p →
      |p| ≤ 1000000000 →
      map_float_to_int_range min_float max_float min_int max_int input =
        min_int + spec_round_half_away p) ∧
    (min_float < max_float → |max_int| ≤ 1000000000 →
      representable (input - min_float) → representable (max_float - min_float) →
      representable ((input - min_float) / (max_float - min_float)) →
      representable
        (((max_int : ℚ) - (min_int : ℚ)) * ((input - min_float) / (max_float - min_float))) →
      |((max_int : ℚ) - (min_int : ℚ)) * ((input - min_float) / (max_float - min_float))|
        ≤ 1000000000 →
      map_float_to_int_range min_float max_float min_int max_int input =
        spec_map_float_to_int_range min_float max_float min_int max_int input) ∧
    (-16 ≤ input → input ≤ 14 →
      (∀ n : ℤ,
        1 / 2 ^ 46 <
          |9 * (input - min_magnitude) / (max_magnitude - min_magnitude)
            - ((n : ℚ) + 1 / 2)|) →
      map_float_to_int_range min_magnitude max_magnitude 0 9 input =
        spec_round_half_away
          (9 * (input - min_magnitude) / (max_magnitude - min_magnitude))) ∧
    map_float_to_int_range min_magnitude max_magnitude 0 9 (-146 / 100) = 0 ∧
    map_float_to_int_range min_magnitude max_magnitude 0 9 min_magnitude = 0 ∧
    map_float_to_int_range min_magnitude max_magnitude 0 9 (796 / 100) = 9 ∧
    map_float_to_int_range min_magnitude max_magnitude 0 9 max_magnitude = 9 := by
  refine ⟨?_, ?_, ?_, ?_, ?_, ?_, ?_⟩
  · intro p hp hb
    rw [map_float_to_int_range_of_scaled _ _ _ _ _ p hp hb hmin, round_to_int_eq_spec]
  · intro hf hmax e₁ e₂ e₃ e₄ hb
    rw [map_float_to_int_range_of_scaled _ _ _ _ _ _
      (scaled_value_exact _ _ _ _ _ hf hmin hmax e₁ e₂ e₃ e₄) hb hmin, round_to_int_eq_spec]
    unfold spec_map_float_to_int_range
    rw [mul_div_assoc]
  · intro h₁ h₂ hgap
    exact star_index_formula input h₁ h₂ hgap
  · exact star_index_eq _ 0 0 (by norm_num) (by norm_num)
      (by norm_num [min_magnitude]) (by norm_num [min_magnitude])
      (round_to_int_eq_of _ _ (by norm_num) (by norm_num) (by norm_num))
      (round_to_int_eq_of _ _ (by norm_num) (by norm_num) (by norm_num))
  · exact star_index_eq _ 0 0 (by norm_num) (by norm_num)
      (by norm_num [min_magnitude]) (by norm_num [min_magnitude])
      (round_to_int_eq_of _ _ (by norm_num) (by norm_num) (by norm_num))
      (round_to_int_eq_of _ _ (by norm_num) (by norm_num) (by norm_num))
  · exact star_index_eq _ 127 9 (by norm_num) (by norm_num)
      (by norm_num [min_magnitude]) (by norm_num [min_magnitude])
      (round_to_int_eq_of _ _ (by norm_num) (by norm_num) (by norm_num))
      (round_to_int_eq_of _ _ (by norm_num) (by norm_num) (by norm_num))
  · exact star_index_eq _ 127 9 (by norm_num) (by norm_num)
      (by norm_num [min_magnitude, max_magnitude])
      (by norm_num [min_magnitude, max_magnitude])
      (round_to_int_eq_of _ _ (by norm_num) (by norm_num) (by norm_num))
      (round_to_int_eq_of _ _ (by norm_num) (by norm_num) (by norm_num))

/-- The exact quotient of the magnitude 3 with the star calibration, about 4.26, is
farther than `2 ^ (-46)` from every half-integer. -/
theorem star_quotient_three_gap (n : ℤ) :
    1 / 2 ^ 46 <
      |9 * ((3 : ℚ) - min_magnitude) / (max_magnitude - min_magnitude)
        - ((n : ℚ) + 1 / 2)| := by
  rw [star_span]
  rcases le_or_lt n 3 with h | h
  · have h' : (n : ℚ) ≤ 3 := by exact_mod_cast h
    apply lt_abs.mpr
    left
    norm_num [min_magnitude]
    linarith
  · have h' : (4 : ℚ) ≤ n := by exact_mod_cast h
    apply lt_abs.mpr
    right
    norm_num [min_magnitude]
    linarith

/-- Witness for C2: at `(0, 2, 3, 7)` and input `1 / 2` every operation is exact and
the result is the exact formula, `3 + round(4 * (1 / 2) / 2) = 4`; at `(0, 1, 0, 3)` and
the double nearest to `1 / 6` the computed product is `1 / 2` and the result is
`0 + round(1 / 2)`; with the star calibration the magnitude 3 has the index
`round(9 * (3 - min) / (max - min))`. -/
theorem C2_map_float_to_int_range_formula_witness :
    (representable ((1 / 2 : ℚ) - 0) ∧ representable ((2 : ℚ) - 0) ∧
      representable (((1 / 2 : ℚ) - 0) / (2 - 0)) ∧
      representable ((((7 : ℤ) : ℚ) - ((3 : ℤ) : ℚ)) * (((1 / 2 : ℚ) - 0) / (2 - 0)))) ∧
    map_float_to_int_range 0 2 3 7 (1 / 2) = spec_map_float_to_int_range 0 2 3 7 (1 / 2) ∧
    scaled_value 0 1 0 3 (6004799503160661 / 36028797018963968) = some (1 / 2) ∧
    map_float_to_int_range 0 1 0 3 (6004799503160661 / 36028797018963968) =
      0 + spec_round_half_away (1 / 2) ∧
    map_float_to_int_range min_magnitude max_magnitude 0 9 3 =
      spec_round_half_away (9 * ((3 : ℚ) - min_magnitude) / (max_magnitude - min_magnitude)) :=
  have r₁ : representable ((1 / 2 : ℚ) - 0) :=
    representable_of_eq _ 1 (-1) (by norm_num) (by norm_num) (by norm_num) (by norm_num)
  have r₂ : representable ((2 : ℚ) - 0) :=
    representable_of_eq _ 2 0 (by norm_num) (by norm_num) (by norm_num) (by norm_num)
  have r₃ : representable (((1 / 2 : ℚ) - 0) / (2 - 0)) :=
    representable_of_eq _ 1 (-2) (by norm_num) (by norm_num) (by norm_num) (by norm_num)
  have r₄ : representable
      ((((7 : ℤ) : ℚ) - ((3 : ℤ) : ℚ)) * (((1 / 2 : ℚ) - 0) / (2 - 0))) :=
    representable_of_eq _ 1 0 (by norm_num) (by norm_num) (by norm_num) (by norm_num)
  ⟨⟨r₁, r₂, r₃, r₄⟩,
   (C2_map_float_to_int_range_formula 0 2 3 7 (1 / 2) (by norm_num)).2.1 (by norm_num)
     (by norm_num) r₁ r₂ r₃ r₄ (by norm_num),
   scaled_value_sixth,
   (C2_map_float_to_int_range_formula 0 1 0 3 (6004799503160661 / 36028797018963968)
     (by norm_num)).1 (1 / 2) scaled_value_sixth (by rw [abs_le]; constructor <;> norm_num),
   (C2_map_float_to_int_range_formula 0 1 0 0 3 (by norm_num)).2.2.1 (by norm_num)
     (by norm_num) star_quotient_three_gap⟩

/-- C3, as stated, fails: the result is not monotone for all inputs. With
`(0, 1, 5, 6)` the input 0 gives 5 and the larger input 2147483647 gives
-2147483644, the sum `5 + 2147483647` wrapping around; with the star calibration
the magnitude 0 gives a non-negative index and the magnitude `2 ^ 40` gives
`INT_MIN`, the rounded value being too large for an `int`. -/
theorem C3_counterexample :
    ¬ (∀ (min_float max_float : ℚ) (min_int max_int : ℤ) (m1 m2 : ℚ),
        min_float < max_float → min_int ≤ max_int → m1 ≤ m2 →
        map_float_to_int_range min_float max_float min_int max_int m1 ≤
          map_float_to_int_range min_float max_float min_int max_int m2) ∧
    ¬ (∀ m1 m2 : ℚ, m1 ≤ m2 →
        map_float_to_int_range min_magnitude max_magnitude 0 9 m1 ≤
          map_float_to_int_range min_magnitude max_magnitude 0 9 m2) := by
  constructor
  · intro h
    have h1 := h 0 1 5 6 0 2147483647 (by norm_num) (by norm_num) (by norm_num)
    rw [map_float_to_int_range_wraps.1, map_float_to_int_range_wraps.2] at h1
    exact absurd h1 (by decide)
  · intro h
    have h1 := h 0 1099511627776 (by norm_num)
    have h0 := (symbol_index_in_range 0 (by unfold min_magnitude; norm_num)
      (by unfold max_magnitude; norm_num)).1
    rw [symbol_index_overflow] at h1
    omega

/-- C3, amended: the result is monotonically non-decreasing in the input as long as
nothing overflows. For `min_float < max_float`, `min_int <= max_int` with
`|min_int|, |max_int| <= 10^9` and inputs `m1 <= m2` whose doubles
`(max_int - min_int) * percent` are finite and at most `10^9` in absolute value,
`map_float_to_int_range(..., m1) <= map_float_to_int_range(..., m2)`; with the star
calibration this holds for all magnitudes `-500000000 <= m1 <= m2 <= 500000000`. -/
theorem C3_map_float_to_int_range_mono (m1 m2 : ℚ) (hm : m1 ≤ m2) :
    (∀ (min_float max_float : ℚ) (min_int max_int : ℤ) (p1 p2 : ℚ),
      min_float < max_float → min_int ≤ max_int →
      |min_int| ≤ 1000000000 → |max_int| ≤ 1000000000 →
      scaled_value min_float max_float min_int max_int m1 = some p1 →
      scaled_value min_float max_float min_int max_int m2 = some p2 →
      |p1| ≤ 1000000000 → |p2| ≤ 1000000000 →
      map_float_to_int_range min_float max_float min_int max_int m1 ≤
        map_float_to_int_range min_float max_float min_int max_int m2) ∧
    (-500000000 ≤ m1 → m2 ≤ 500000000 →
      map_float_to_int_range min_magnitude max_magnitude 0 9 m1 ≤
        map_float_to_int_range min_magnitude max_magnitude 0 9 m2) := by
  constructor
  · intro min_float max_float min_int max_int p1 p2 hf hi hmin hmax h1 h2 hp1 hp2
    exact map_float_to_int_range_mono_of_scaled _ _ _ _ m1 m2 p1 p2 hf hi hm hmin hmax
      h1 h2 hp1 hp2
  · intro hlo hhi
    have rL : representable (-67108864) :=
      representable_of_eq _ (-67108864) 0 (by norm_num) (by norm_num) (by norm_num)
        (by norm_num)
    have rU : representable 67108864 :=
      representable_of_eq _ 67108864 0 (by norm_num) (by norm_num) (by norm_num)
        (by norm_num)
    have rLD : representable (-67108864 * (9877586 / 1048576)) :=
      representable_of_eq _ (-632165504) 0 (by norm_num) (by norm_num) (by norm_num)
        (by norm_num)
    have rUD : representable (67108864 * (9877586 / 1048576)) :=
      representable_of_eq _ 632165504 0 (by norm_num) (by norm_num) (by norm_num)
        (by norm_num)
    have r9L : representable (9 * -67108864) :=
      representable_of_eq _ (-603979776) 0 (by norm_num) (by norm_num) (by norm_num)
        (by norm_num)
    have r9U : representable (9 * 67108864) :=
      representable_of_eq _ 603979776 0 (by norm_num) (by norm_num) (by norm_num)
        (by norm_num)
    obtain ⟨p1, h1, a1, b1⟩ := star_scaled_bounds m1 (-67108864) 67108864 rL rU rLD rUD
      r9L r9U (by unfold min_magnitude; linarith) (by unfold min_magnitude; linarith)
    obtain ⟨p2, h2, a2, b2⟩ := star_scaled_bounds m2 (-67108864) 67108864 rL rU rLD rUD
      r9L r9U (by unfold min_magnitude; linarith) (by unfold min_magnitude; linarith)
    exact map_float_to_int_range_mono_of_scaled _ _ _ _ m1 m2 p1 p2
      (by unfold min_magnitude max_magnitude; norm_num) (by norm_num) hm (by norm_num)
      (by norm_num) h1 h2 (by rw [abs_le]; constructor <;> linarith)
      (by rw [abs_le]; constructor <;> linarith)

/-- Witness for C3: the magnitudes 1 and 5 with the star calibration, and the inputs 0
and 7 at `(0, 1, 5, 6)`, whose doubles `(6 - 5) * percent` are 0 and 7. -/
theorem C3_map_float_to_int_range_mono_witness :
    ((1 : ℚ) ≤ 5 ∧ (-500000000 : ℚ) ≤ 1 ∧ (5 : ℚ) ≤ 500000000) ∧
    map_float_to_int_range min_magnitude max_magnitude 0 9 1 ≤
      map_float_to_int_range min_magnitude max_magnitude 0 9 5 ∧
    (scaled_value 0 1 5 6 ((0 : ℤ) : ℚ) = some ((0 : ℤ) : ℚ) ∧
      scaled_value 0 1 5 6 ((7 : ℤ) : ℚ) = some ((7 : ℤ) : ℚ)) ∧
    map_float_to_int_range 0 1 5 6 ((0 : ℤ) : ℚ) ≤
      map_float_to_int_range 0 1 5 6 ((7 : ℤ) : ℚ) :=
  ⟨⟨by norm_num, by norm_num, by norm_num⟩,
   (C3_map_float_to_int_range_mono 1 5 (by norm_num)).2 (by norm_num) (by norm_num),
   ⟨scaled_value_unit 0 (by norm_num), scaled_value_unit 7 (by norm_num)⟩,
   (C3_map_float_to_int_range_mono ((0 : ℤ) : ℚ) ((7 : ℤ) : ℚ) (by norm_num)).1 0 1 5 6
     ((0 : ℤ) : ℚ) ((7 : ℤ) : ℚ) (by norm_num) (by norm_num) (by norm_num) (by norm_num)
     (scaled_value_unit 0 (by norm_num)) (scaled_value_unit 7 (by norm_num))
     (by rw [abs_le]; constructor <;> norm_num) (by rw [abs_le]; constructor <;> norm_num)⟩


/-! ## Brightness ordering (claims C4, C5) -/

theorem star_magnitude_comparator_le_zero_iff (a b : star) :
    star_magnitude_comparator a b ≤ 0 ↔ b.magnitude ≤ a.magnitude := by
  unfold star_magnitude_comparator
  split_ifs with h1 h2
  · constructor
    · intro h; omega
    · intro h; exact absurd h1 (not_lt.mpr h)
  · constructor
    · intro _; exact le_of_lt h2
    · intro _; omega
  · constructor
    · intro _; exact not_lt.mp h1
    · intro _; omega

theorem qsort_sorts_insertionSort (l : List star) :
    qsort_sorts star_magnitude_comparator l
      (l.insertionSort (fun a b => star_magnitude_comparator a b ≤ 0)) := by
  refine ⟨List.perm_insertionSort _ l, ?_⟩
  have htotal : IsTotal star (fun a b => star_magnitude_comparator a b ≤ 0) :=
    ⟨fun a b => by
      simp only [star_magnitude_comparator_le_zero_iff]
      exact le_total _ _⟩
  have htrans : IsTrans star (fun a b => star_magnitude_comparator a b ≤ 0) :=
    ⟨fun a b c hab hbc => by
      simp only [star_magnitude_comparator_le_zero_iff] at *
      exact le_trans hbc hab⟩
  exact List.sorted_insertionSort (fun a b => star_magnitude_comparator a b ≤ 0) l

theorem qsort_insertion_contract : qsort_contract qsort_insertion := by
  intro base
  exact qsort_sorts_insertionSort base

theorem sorted_table_copy_perm (qsort : (star → star → ℤ) → List star → List star)
    (hq : qsort_contract qsort) (star_table : List star) (num_stars : ℕ) :
    (sorted_table_copy qsort star_table num_stars).Perm (star_table.take num_stars) :=
  (hq _).1

theorem sorted_table_copy_pairwise (qsort : (star → star → ℤ) → List star → List star)
    (hq : qsort_contract qsort) (star_table : List star) (num_stars : ℕ) :
    (sorted_table_copy qsort star_table num_stars).Pairwise
      (fun a b => b.magnitude ≤ a.magnitude) := by
  have := (hq (star_table.take num_stars)).2
  exact this.imp (fun {a b} h => (star_magnitude_comparator_le_zero_iff a b).mp h)

theorem sorted_table_copy_magnitudes (qsort : (star → star → ℤ) → List star → List star)
    (hq : qsort_contract qsort) (star_table : List star) (num_stars : ℕ) :
    ((sorted_table_copy qsort star_table num_stars).map (fun s => s.magnitude)).Sorted
      (fun x y => y ≤ x) := by
  have := sorted_table_copy_pairwise qsort hq star_table num_stars
  exact List.pairwise_map.mpr this

theorem pairwise_getElem? {α : Type} {R : α → α → Prop} {l : List α} (h : l.Pairwise R)
    (i j : ℕ) (a b : α) (hij : i < j) (ha : l[i]? = some a) (hb : l[j]? = some b) :
    R a b := by
  obtain ⟨hi, rfl⟩ := List.getElem?_eq_some.mp ha
  obtain ⟨hj, rfl⟩ := List.getElem?_eq_some.mp hb
  exact List.pairwise_iff_getElem.mp h i j hi hj hij

theorem brightness_example_sorted :
    sorted_table_copy qsort_insertion brightness_example 4 =
      [star_with 3 (79 / 10), star_with 1 3, star_with 4 (12 / 10), star_with 2 (-1)] := by
  simp [sorted_table_copy, qsort_insertion, List.insertionSort, List.orderedInsert,
    star_magnitude_comparator, star_with, brightness_example]
  norm_num

/-- C4, as stated, fails: on the stars with magnitudes `[3.0, -1.0, 7.9, 1.2]`
(catalog numbers 1 to 4) a conforming `qsort` makes `star_numbers_by_magnitude`
return `[3, 1, 4, 2]`, the stars of magnitudes `[7.9, 3.0, 1.2, -1.0]`: the
dimmest first, not the brightest; the magnitude at position 0 exceeds the one at
position 1. -/
theorem C4_counterexample :
    qsort_contract qsort_insertion ∧
    star_numbers_by_magnitude qsort_insertion brightness_example 4 = some [3, 1, 4, 2] ∧
    (sorted_table_copy qsort_insertion brightness_example 4).map (fun s => s.magnitude) =
      [79 / 10, 3, 12 / 10, -1] ∧
    ¬ (∀ qsort : (star → star → ℤ) → List star → List star, qsort_contract qsort →
        ∀ (star_table : List star) (i : ℕ) (a b : star),
          (sorted_table_copy qsort star_table star_table.length)[i]? = some a →
          (sorted_table_copy qsort star_table star_table.length)[i + 1]? = some b →
          a.magnitude ≤ b.magnitude) := by
  refine ⟨qsort_insertion_contract, ?_, ?_, ?_⟩
  · unfold star_numbers_by_magnitude
    rw [brightness_example_sorted]
    simp [brightness_example, star_with]
  · rw [brightness_example_sorted]
    simp [star_with]
  · intro h
    have h0 := h qsort_insertion qsort_insertion_contract brightness_example 0
      (star_with 3 (79 / 10)) (star_with 1 3)
    have hlen : brightness_example.length = 4 := rfl
    rw [hlen, brightness_example_sorted] at h0
    have h1 := h0 rfl rfl
    norm_num [star_with] at h1

/-- C4, amended: for every star table, `star_numbers_by_magnitude` returns the
catalog numbers of the stars ordered by decreasing magnitude, dimmest first and
brightest last: the magnitude of the star at output position `i` is `>=` the
magnitude of the star at position `i + 1`. For stars with magnitudes
`[3.0, -1.0, 7.9, 1.2]` the output lists the stars in magnitude order
`[7.9, 3.0, 1.2, -1.0]`. -/
theorem C4_sorted_by_decreasing_magnitude
    (qsort : (star → star → ℤ) → List star → List star) (hq : qsort_contract qsort)
    (star_table : List star) (num_stars : ℕ) (hn : num_stars ≤ star_table.length) :
    star_numbers_by_magnitude qsort star_table num_stars =
      some ((sorted_table_copy qsort star_table num_stars).map (fun s => s.catalog_number)) ∧
    (sorted_table_copy qsort star_table num_stars).length = num_stars ∧
    (∀ (i : ℕ) (a b : star),
      (sorted_table_copy qsort star_table num_stars)[i]? = some a →
      (sorted_table_copy qsort star_table num_stars)[i + 1]? = some b →
      b.magnitude ≤ a.magnitude) ∧
    ((star_table.take num_stars).map (fun s => s.magnitude) = [3, -1, 79 / 10, 12 / 10] →
      (sorted_table_copy qsort star_table num_stars).map (fun s => s.magnitude) =
        [79 / 10, 3, 12 / 10, -1]) := by
  have hperm := sorted_table_copy_perm qsort hq star_table num_stars
  have hpw := sorted_table_copy_pairwise qsort hq star_table num_stars
  refine ⟨?_, ?_, ?_, ?_⟩
  · unfold star_numbers_by_magnitude
    rw [if_pos hn]
  · rw [hperm.length_eq, List.length_take]
    exact Nat.min_eq_left hn
  · intro i a b ha hb
    exact pairwise_getElem? hpw i (i + 1) a b (Nat.lt_succ_self i) ha hb
  · intro hm
    have hp1 : ((sorted_table_copy qsort star_table num_stars).map (fun s => s.magnitude)).Perm
        [3, -1, 79 / 10, 12 / 10] := by
      rw [← hm]
      exact hperm.map _
    have hp2 : ([3, -1, 79 / 10, 12 / 10] : List ℚ).Perm [79 / 10, 3, 12 / 10, -1] :=
      ((List.Perm.swap (79 / 10) (-1) [12 / 10]).cons 3).trans
        ((List.Perm.swap (79 / 10) 3 [-1, 12 / 10]).trans
          (((List.Perm.swap (12 / 10) (-1) []).cons 3).cons (79 / 10)))
    have hs : ([79 / 10, 3, 12 / 10, -1] : List ℚ).Sorted (fun x y => y ≤ x) := by
      simp only [List.Sorted, List.pairwise_cons, List.mem_cons, List.mem_singleton,
        List.not_mem_nil, List.Pairwise.nil, forall_eq_or_imp, forall_eq]
      norm_num
    have hanti : IsAntisymm ℚ (fun x y => y ≤ x) :=
      ⟨fun a b hab hba => le_antisymm hba hab⟩
    exact List.eq_of_perm_of_sorted (r := fun x y : ℚ => y ≤ x) (hp1.trans hp2)
      (List.pairwise_map.mpr hpw) hs

/-- Witness for C4: the specification's four stars, sorted by insertion sort. -/
theorem C4_sorted_by_decreasing_magnitude_witness :
    qsort_contract qsort_insertion ∧ 4 ≤ brightness_example.length ∧
    (sorted_table_copy qsort_insertion brightness_example 4).length = 4 :=
  ⟨qsort_insertion_contract, by decide,
   (C4_sorted_by_decreasing_magnitude qsort_insertion qsort_insertion_contract
      brightness_example 4 (by decide)).2.1⟩

theorem star_of_entry_eq (temp_star : star) (e : entry) (nm : star_name) :
    star_of_entry temp_star e nm =
      match array_read mag_map_round_ASCII
              (map_float_to_int_range min_magnitude max_magnitude 0 9 ((e.MAG : ℚ) / 100)),
            array_read mag_map_unicode_round
              (map_float_to_int_range min_magnitude max_magnitude 0 9 ((e.MAG : ℚ) / 100)) with
      | some ascii, some unicode_temp =>
        some { base := { y := 0, x := 0, azimuth := 0, altitude := 0, color_pair := 0,
                         symbol_ASCII := ascii, symbol_unicode := some unicode_temp,
                         label := nm.name },
               catalog_number := c_int_cast e.XNO, magnitude := (e.MAG : ℚ) / 100,
               right_ascension := e.SRA0, declination := e.SDEC0, ra_motion := e.XDPM,
               dec_motion := temp_star.dec_motion }
      | _, _ => none := by
  unfold star_of_entry
  simp only
  split
  · cases hnm : nm.name <;> simp
  · rfl

theorem star_of_entry_fields (temp_star : star) (e : entry) (nm : star_name) (s : star)
    (h : star_of_entry temp_star e nm = some s) :
    s.catalog_number = c_int_cast e.XNO ∧ s.right_ascension = e.SRA0 ∧
    s.declination = e.SDEC0 ∧ s.ra_motion = e.XDPM ∧
    s.dec_motion = temp_star.dec_motion ∧ s.magnitude = (e.MAG : ℚ) / 100 ∧
    s.base.label = nm.name := by
  rw [star_of_entry_eq] at h
  split at h
  · injection h with h
    subst h
    exact ⟨rfl, rfl, rfl, rfl, rfl, rfl, rfl⟩
  · exact absurd h (by simp)

theorem generate_star_table_from_zero (uninit : ℕ → star) (entries : List entry)
    (name_table : List star_name) (i : ℕ) :
    generate_star_table_from uninit entries name_table i 0 = some [] := rfl

theorem generate_star_table_from_succ (uninit : ℕ → star) (entries : List entry)
    (name_table : List star_name) (i k : ℕ) :
    generate_star_table_from uninit entries name_table i (k + 1) =
      match entries[i]?, name_table[i]? with
      | some e, some nm =>
        match star_of_entry (uninit i) e nm with
        | some s =>
          match generate_star_table_from uninit entries name_table (i + 1) k with
          | some rest => some (s :: rest)
          | none => none
        | none => none
      | _, _ => none := rfl

theorem generate_star_table_from_spec (uninit : ℕ → star) (entries : List entry)
    (name_table : List star_name) (k : ℕ) :
    ∀ (i : ℕ) (tbl : List star),
      generate_star_table_from uninit entries name_table i k = some tbl →
      tbl.length = k ∧
      ∀ j, j < k → ∃ e nm s, entries[i + j]? = some e ∧ name_table[i + j]? = some nm ∧
        star_of_entry (uninit (i + j)) e nm = some s ∧ tbl[j]? = some s := by
  induction k with
  | zero =>
    intro i tbl h
    rw [generate_star_table_from_zero] at h
    injection h with h
    subst h
    exact ⟨rfl, fun j hj => absurd hj (Nat.not_lt_zero j)⟩
  | succ k ih =>
    intro i tbl h
    rw [generate_star_table_from_succ] at h
    split at h
    · rename_i e nm he hnm
      split at h
      · rename_i s hs
        split at h
        · rename_i rest hrest
          injection h with h
          subst h
          obtain ⟨hlen, hall⟩ := ih (i + 1) rest hrest
          refine ⟨by simp [hlen], ?_⟩
          intro j hj
          cases j with
          | zero => exact ⟨e, nm, s, he, hnm, hs, by simp⟩
          | succ j =>
            obtain ⟨e', nm', s', h1, h2, h3, h4⟩ := hall j (by omega)
            have hidx : i + (j + 1) = i + 1 + j := by omega
            refine ⟨e', nm', s', ?_, ?_, ?_, ?_⟩
            · rw [hidx]; exact h1
            · rw [hidx]; exact h2
            · rw [hidx]; exact h3
            · simpa using h4
        · exact absurd h (by simp)
      · exact absurd h (by simp)
    · exact absurd h (by simp)

theorem generate_star_table_spec (uninit : ℕ → star) (entries : List entry)
    (name_table : List star_name) (num_stars : ℕ) (star_table : List star)
    (h : generate_star_table uninit entries name_table num_stars = some star_table)
    (i : ℕ) (hi : i < num_stars) :
    ∃ e nm s, entries[i]? = some e ∧ name_table[i]? = some nm ∧
      star_of_entry (uninit i) e nm = some s ∧ star_table[i]? = some s := by
  have := (generate_star_table_from_spec uninit entries name_table num_stars 0 star_table h).2
    i hi
  simpa using this

theorem star_of_entry_example (temp_star : star) (nm : star_name) :
    star_of_entry temp_star entry_example nm =
      some { base := { y := 0, x := 0, azimuth := 0, altitude := 0, color_pair := 0,
                       symbol_ASCII := 'O', symbol_unicode := some "⦁".toList,
                       label := nm.name },
             catalog_number := 1, magnitude := 1, right_ascension := 1 / 2,
             declination := 1 / 3, ra_motion := 2, dec_motion := temp_star.dec_motion } := by
  rw [star_of_entry_eq]
  have h2 : map_float_to_int_range min_magnitude max_magnitude 0 9
      ((entry_example.MAG : ℚ) / 100) = 2 := symbol_index_one
  rw [h2]
  have ha : array_read mag_map_round_ASCII 2 = some 'O' := by
    simp [array_read, mag_map_round_ASCII]
  have hu : array_read mag_map_unicode_round 2 = some "⦁".toList := by
    simp [array_read, mag_map_unicode_round]
  rw [ha, hu]
  have hc : c_int_cast entry_example.XNO = 1 := by
    simp [c_int_cast, entry_example]
  simp only [hc]
  simp [entry_example]

theorem generate_star_table_one (uninit : ℕ → star) (e : entry) (nm : star_name) (s : star)
    (h : star_of_entry (uninit 0) e nm = some s) :
    generate_star_table uninit [e] [nm] 1 = some [s] := by
  unfold generate_star_table
  rw [generate_star_table_from_succ, generate_star_table_from_zero]
  simp only [List.getElem?_cons_zero, h]

theorem generate_star_table_example (uninit : ℕ → star) (nm : star_name) :
    generate_star_table uninit [entry_example] [nm] 1 =
      some [{ base := { y := 0, x := 0, azimuth := 0, altitude := 0, color_pair := 0,
                        symbol_ASCII := 'O', symbol_unicode := some "⦁".toList,
                        label := nm.name },
              catalog_number := 1, magnitude := 1, right_ascension := 1 / 2,
              declination := 1 / 3, ra_motion := 2, dec_motion := (uninit 0).dec_motion }] :=
  generate_star_table_one uninit entry_example nm _ (star_of_entry_example (uninit 0) nm)

/-- C10: for every catalog entry `i`, the star that `generate_star_table` stores
at index `i` copies the entry: `catalog_number` is `XNO` (converted to `int`, so
equal to `XNO` when that is a whole number), `right_ascension = SRA0`,
`declination = SDEC0`, and `magnitude = MAG / 100`. -/
theorem C10_star_copies_entry (uninit : ℕ → star) (entries : List entry)
    (name_table : List star_name) (num_stars : ℕ) (star_table : List star)
    (h : generate_star_table uninit entries name_table num_stars = some star_table)
    (i : ℕ) (hi : i < num_stars) :
    ∃ e s, entries[i]? = some e ∧ star_table[i]? = some s ∧
      s.catalog_number = c_int_cast e.XNO ∧
      (∀ n : ℤ, e.XNO = (n : ℚ) → s.catalog_number = n) ∧
      s.right_ascension = e.SRA0 ∧ s.declination = e.SDEC0 ∧
      s.magnitude = (e.MAG : ℚ) / 100 := by
  obtain ⟨e, nm, s, he, _, hs, hts⟩ :=
    generate_star_table_spec uninit entries name_table num_stars star_table h i hi
  obtain ⟨h1, h2, h3, _, _, h6, _⟩ := star_of_entry_fields (uninit i) e nm s hs
  refine ⟨e, s, he, hts, h1, ?_, h2, h3, h6⟩
  intro n hn
  rw [h1, hn, c_int_cast_intCast]

/-- Witness for C10: the one-entry catalog `entry_example` with no name. -/
theorem C10_star_copies_entry_witness :
    ∃ star_table : List star,
      generate_star_table (fun _ => star_with 0 0) [entry_example] [⟨none⟩] 1 =
        some star_table ∧ (0 < 1) ∧
      ∃ e s, [entry_example][0]? = some e ∧ star_table[0]? = some s ∧
        s.catalog_number = c_int_cast e.XNO ∧
        (∀ n : ℤ, e.XNO = (n : ℚ) → s.catalog_number = n) ∧
        s.right_ascension = e.SRA0 ∧ s.declination = e.SDEC0 ∧
        s.magnitude = (e.MAG : ℚ) / 100 :=
  ⟨_, generate_star_table_example _ _, Nat.one_pos,
   C10_star_copies_entry (fun _ => star_with 0 0) [entry_example] [⟨none⟩] 1 _
     (generate_star_table_example _ _) 0 Nat.one_pos⟩


theorem generate_star_table_five (uninit : ℕ → star) (nm : star_name) :
    ∃ s, generate_star_table uninit [entry_five] [nm] 1 = some [s] ∧
      s.catalog_number = 5 := by
  have h2 : map_float_to_int_range min_magnitude max_magnitude 0 9
      ((entry_five.MAG : ℚ) / 100) = 2 := symbol_index_one
  have ha : array_read mag_map_round_ASCII 2 = some 'O' := by
    simp [array_read, mag_map_round_ASCII]
  have hu : array_read mag_map_unicode_round 2 = some "⦁".toList := by
    simp [array_read, mag_map_unicode_round]
  have hs := star_of_entry_eq (uninit 0) entry_five nm
  rw [h2, ha, hu] at hs
  refine ⟨_, generate_star_table_one uninit entry_five nm _ hs, ?_⟩
  simp [c_int_cast, entry_five]

/-- C6, as stated, fails: from the one-entry catalog whose entry has `XNO = 5`,
`generate_star_table` produces a table whose index 0 holds catalog number 5, not
`0 + 1`. -/
theorem C6_counterexample :
    ¬ (∀ (uninit : ℕ → star) (entries : List entry) (name_table : List star_name)
        (num_stars : ℕ) (star_table : List star),
        generate_star_table uninit entries name_table num_stars = some star_table →
        ∀ i, i < num_stars →
          ∃ s, star_table[i]? = some s ∧ s.catalog_number = (i : ℤ) + 1) := by
  intro h
  obtain ⟨s, hs, hc⟩ := generate_star_table_five (fun _ => star_with 0 0) ⟨none⟩
  obtain ⟨s', hs', hc'⟩ := h _ _ _ _ _ hs 0 Nat.one_pos
  simp only [List.getElem?_cons_zero, Option.some.injEq] at hs'
  subst hs'
  rw [hc] at hc'
  norm_num at hc'

/-- C6, amended: in every star table produced by `generate_star_table`, the star
stored at index `i` has the catalog number of entry `i`, `(int) entries[i].XNO`;
so the star with catalog number `n` is stored at index `n - 1`
(`star_table[i].catalog_number = i + 1` for every `i < num_stars`) exactly when
the entries are numbered consecutively from 1 in array order,
`(int) entries[i].XNO = i + 1`. -/
theorem C6_catalog_number_of_entry (uninit : ℕ → star) (entries : List entry)
    (name_table : List star_name) (num_stars : ℕ) (star_table : List star)
    (h : generate_star_table uninit entries name_table num_stars = some star_table) :
    star_table.length = num_stars ∧
    (∀ i, i < num_stars → ∃ e s, entries[i]? = some e ∧ star_table[i]? = some s ∧
      s.catalog_number = c_int_cast e.XNO) ∧
    ((∀ i, i < num_stars → ∃ s, star_table[i]? = some s ∧ s.catalog_number = (i : ℤ) + 1) ↔
      (∀ i, i < num_stars → ∃ e, entries[i]? = some e ∧ c_int_cast e.XNO = (i : ℤ) + 1)) := by
  have hall : ∀ i, i < num_stars → ∃ e s, entries[i]? = some e ∧ star_table[i]? = some s ∧
      s.catalog_number = c_int_cast e.XNO := by
    intro i hi
    obtain ⟨e, nm, s, he, _, hs, hts⟩ :=
      generate_star_table_spec uninit entries name_table num_stars star_table h i hi
    exact ⟨e, s, he, hts, (star_of_entry_fields (uninit i) e nm s hs).1⟩
  refine ⟨(generate_star_table_from_spec uninit entries name_table num_stars 0 star_table h).1,
    hall, ?_, ?_⟩
  · intro hs i hi
    obtain ⟨e, s, he, hts, hc⟩ := hall i hi
    obtain ⟨s', hts', hc'⟩ := hs i hi
    rw [hts] at hts'
    injection hts' with hts'
    subst hts'
    exact ⟨e, he, by rw [← hc, hc']⟩
  · intro he i hi
    obtain ⟨e, s, he', hts, hc⟩ := hall i hi
    obtain ⟨e', he'', hx⟩ := he i hi
    rw [he'] at he''
    injection he'' with he''
    subst he''
    exact ⟨s, hts, by rw [hc, hx]⟩

/-- Witness for C6: the one-entry catalog `entry_example`, numbered 1. -/
theorem C6_catalog_number_of_entry_witness :
    ∃ star_table : List star,
      generate_star_table (fun _ => star_with 0 0) [entry_example] [⟨none⟩] 1 =
        some star_table ∧ star_table.length = 1 :=
  ⟨_, generate_star_table_example _ _,
   (C6_catalog_number_of_entry (fun _ => star_with 0 0) [entry_example] [⟨none⟩] 1 _
     (generate_star_table_example _ _)).1⟩

/-- C9, what the code does at the failing input: for the entry with `XRPM = 1`
and `XDPM = 2` the stored star has `ra_motion = 2`, the declination rate `XDPM`
and not `XRPM`, and `dec_motion` keeps whatever the uninitialised local
`temp_star` held. -/
theorem C9_proper_motion_slip (uninit : ℕ → star) :
    ∃ s, generate_star_table uninit [entry_example] [⟨none⟩] 1 = some [s] ∧
      s.ra_motion = entry_example.XDPM ∧ s.ra_motion ≠ entry_example.XRPM ∧
      s.dec_motion = (uninit 0).dec_motion := by
  refine ⟨_, generate_star_table_example uninit ⟨none⟩, ?_, ?_, rfl⟩
  · simp [entry_example]
  · simp [entry_example]

theorem array_read_isSome {α : Type} (a : List α) (i : ℤ) (h₀ : 0 ≤ i)
    (h₁ : i < (a.length : ℤ)) : ∃ v, array_read a i = some v := by
  unfold array_read
  rw [if_pos h₀]
  have hlt : i.toNat < a.length := by omega
  exact ⟨a[i.toNat], List.getElem?_eq_getElem hlt⟩

theorem star_of_entry_succeeds (temp_star : star) (e : entry) (nm : star_name)
    (h₁ : min_magnitude ≤ (e.MAG : ℚ) / 100) (h₂ : (e.MAG : ℚ) / 100 ≤ max_magnitude) :
    ∃ s, star_of_entry temp_star e nm = some s := by
  obtain ⟨h0, h9⟩ := symbol_index_in_range _ h₁ h₂
  obtain ⟨a, ha⟩ := array_read_isSome mag_map_round_ASCII _ h0
    (by simp only [mag_map_round_ASCII, List.length_cons, List.length_nil]; omega)
  obtain ⟨u, hu⟩ := array_read_isSome mag_map_unicode_round _ h0
    (by simp only [mag_map_unicode_round, List.length_cons, List.length_nil]; omega)
  rw [star_of_entry_eq, ha, hu]
  exact ⟨_, rfl⟩

theorem generate_star_table_from_succeeds (uninit : ℕ → star) (entries : List entry)
    (name_table : List star_name) (k : ℕ) :
    ∀ i, i + k ≤ entries.length → i + k ≤ name_table.length →
      (∀ e ∈ entries, min_magnitude ≤ (e.MAG : ℚ) / 100 ∧
        (e.MAG : ℚ) / 100 ≤ max_magnitude) →
      ∃ tbl, generate_star_table_from uninit entries name_table i k = some tbl := by
  induction k with
  | zero =>
    intro i _ _ _
    exact ⟨[], generate_star_table_from_zero uninit entries name_table i⟩
  | succ k ih =>
    intro i he hn hmag
    have hie : i < entries.length := by omega
    have hin : i < name_table.length := by omega
    obtain ⟨rest, hrest⟩ := ih (i + 1) (by omega) (by omega) hmag
    obtain ⟨m1, m2⟩ := hmag entries[i] (List.getElem_mem _)
    obtain ⟨s, hs⟩ := star_of_entry_succeeds (uninit i) entries[i] name_table[i] m1 m2
    rw [generate_star_table_from_succ, List.getElem?_eq_getElem hie,
      List.getElem?_eq_getElem hin]
    simp only [hs, hrest]
    exact ⟨_, rfl⟩

theorem generate_star_table_succeeds (uninit : ℕ → star) (entries : List entry)
    (name_table : List star_name) (num_stars : ℕ)
    (he : num_stars ≤ entries.length) (hn : num_stars ≤ name_table.length)
    (hmag : ∀ e ∈ entries, min_magnitude ≤ (e.MAG : ℚ) / 100 ∧
      (e.MAG : ℚ) / 100 ≤ max_magnitude) :
    ∃ star_table, generate_star_table uninit entries name_table num_stars = some star_table :=
  generate_star_table_from_succeeds uninit entries name_table num_stars 0
    (by omega) (by omega) hmag


/-! ## The name table (claims C7, C8) -/

theorem digit_char_facts (d : ℕ) (h : d < 10) :
    (Char.ofNat (48 + d)).isDigit = true ∧ (Char.ofNat (48 + d)).toNat - 48 = d ∧
    Char.ofNat (48 + d) ≠ ',' ∧ Char.ofNat (48 + d) ≠ '\n' ∧ Char.ofNat (48 + d) ≠ NUL ∧
    c_isspace (Char.ofNat (48 + d)) = false ∧ Char.ofNat (48 + d) ≠ '-' ∧
    Char.ofNat (48 + d) ≠ '+' := by
  interval_cases d <;> decide

theorem decimal_ne_nil (n : ℕ) (h : 1 ≤ n) : decimal n ≠ [] := by
  unfold decimal
  simp only [ne_eq, List.map_eq_nil_iff, List.reverse_eq_nil_iff]
  exact Nat.digits_ne_nil_iff_ne_zero.mpr (by omega)

theorem decimal_mem (n : ℕ) (c : Char) (hc : c ∈ decimal n) :
    ∃ d, d < 10 ∧ c = Char.ofNat (48 + d) := by
  unfold decimal at hc
  simp only [List.mem_map, List.mem_reverse] at hc
  obtain ⟨d, hd, rfl⟩ := hc
  exact ⟨d, Nat.digits_lt_base (by norm_num) hd, rfl⟩

theorem atoi_digits_map (ds : List ℕ) (hds : ∀ d ∈ ds, d < 10) (acc : ℕ) :
    atoi_digits (ds.map (fun d => Char.ofNat (48 + d))) acc =
      ds.foldl (fun a d => 10 * a + d) acc := by
  induction ds generalizing acc with
  | nil => rfl
  | cons d ds ih =>
    have hd := digit_char_facts d (hds d (List.mem_cons_self d ds))
    simp only [List.map_cons, atoi_digits, hd.1, if_true, List.foldl_cons, hd.2.1]
    exact ih (fun x hx => hds x (List.mem_cons_of_mem d hx)) _

theorem foldr_digits (L : List ℕ) :
    L.foldr (fun d a => 10 * a + d) 0 = Nat.ofDigits 10 L := by
  induction L with
  | nil => rfl
  | cons d L ih =>
    simp only [List.foldr_cons, ih, Nat.ofDigits_cons]
    ring

theorem atoi_digits_decimal (n : ℕ) : atoi_digits (decimal n) 0 = n := by
  unfold decimal
  rw [atoi_digits_map]
  · rw [List.foldl_reverse, foldr_digits, Nat.ofDigits_digits]
  · intro d hd
    exact Nat.digits_lt_base (by norm_num) (List.mem_reverse.mp hd)

theorem atoi_decimal (n : ℕ) (h : 1 ≤ n) : atoi (decimal n) = (n : ℤ) := by
  have hne := decimal_ne_nil n h
  have hval := atoi_digits_decimal n
  unfold atoi
  cases hdec : decimal n with
  | nil => exact absurd hdec hne
  | cons c cs =>
    obtain ⟨d, hd, hc⟩ := decimal_mem n c (by rw [hdec]; exact List.mem_cons_self c cs)
    have hf := digit_char_facts d hd
    rw [← hc] at hf
    rw [hdec] at hval
    simp only [List.dropWhile_cons, hf.2.2.2.2.2.1, Bool.false_eq_true, if_false,
      hf.2.2.2.2.2.2.1, hf.2.2.2.2.2.2.2, hval]

theorem copy_line_append (l : List Char) (hl : ∀ c ∈ l, c ≠ '\n') (tail : List Char)
    (ht : tail = [] ∨ ∃ r, tail = '\n' :: r) (room : ℕ) (hroom : l.length ≤ room) :
    copy_line (l ++ tail) room = l := by
  induction l generalizing room with
  | nil =>
    rcases ht with rfl | ⟨r, rfl⟩
    · cases room <;> rfl
    · cases room with
      | zero => rfl
      | succ room => simp [copy_line]
  | cons c l ih =>
    cases room with
    | zero => simp at hroom
    | succ room =>
      have hc : c ≠ '\n' := hl c (List.mem_cons_self c l)
      have := ih (fun x hx => hl x (List.mem_cons_of_mem c hx)) room
        (by simpa using hroom)
      simp only [List.cons_append, copy_line, hc, if_false, List.append_eq, this]

theorem c_str_eq_self (l : List Char) (hl : ∀ c ∈ l, c ≠ NUL) : c_str l = l := by
  unfold c_str
  rw [List.takeWhile_eq_self_iff]
  intro c hc
  simpa using hl c hc

theorem strtok_first (d name : List Char) (hd : d ≠ []) (hdc : ∀ c ∈ d, c ≠ ',') :
    strtok (d ++ ',' :: name) [','] = some (d, name) := by
  cases d with
  | nil => exact absurd rfl hd
  | cons c d =>
    have hc : c ≠ ',' := hdc c (List.mem_cons_self c d)
    have htw : ((c :: d) ++ ',' :: name).takeWhile (fun x => !([','] : List Char).contains x)
        = c :: d := by
      rw [List.takeWhile_append_of_pos]
      · simp
      · intro x hx
        simpa using hdc x hx
    have hdw : ((c :: d) ++ ',' :: name).dropWhile (fun x => !([','] : List Char).contains x)
        = ',' :: name := by
      rw [List.dropWhile_append_of_pos]
      · simp
      · intro x hx
        simpa using hdc x hx
    unfold strtok
    have h0 : ((c :: d) ++ ',' :: name).dropWhile (fun x => ([','] : List Char).contains x)
        = (c :: d) ++ ',' :: name := by
      simp [List.dropWhile_cons, hc]
    rw [h0]
    simp only [List.cons_append] at htw hdw ⊢
    rw [htw, hdw]
    rfl

theorem strtok_second (name : List Char) (hn : name ≠ [])
    (hnc : ∀ c ∈ name, c ≠ ',' ∧ c ≠ '\n') :
    strtok name [',', '\n'] = some (name, []) := by
  cases name with
  | nil => exact absurd rfl hn
  | cons c cs =>
    have hc := hnc c (List.mem_cons_self c cs)
    have hall : ∀ x ∈ c :: cs, (!([',', '\n'] : List Char).contains x) = true := by
      intro x hx
      have := hnc x hx
      simp [this.1, this.2]
    have htw : (c :: cs).takeWhile (fun x => !([',', '\n'] : List Char).contains x)
        = c :: cs := List.takeWhile_eq_self_iff.mpr hall
    have hdw : (c :: cs).dropWhile (fun x => !([',', '\n'] : List Char).contains x)
        = [] := List.dropWhile_eq_nil_iff.mpr hall
    unfold strtok
    have h0 : (c :: cs).dropWhile (fun x => ([',', '\n'] : List Char).contains x)
        = c :: cs := by
      simp [List.dropWhile_cons, hc.1, hc.2]
    rw [h0]
    simp only
    rw [htw, hdw]
    rfl

theorem line_text_chars (num_stars n : ℕ) (name : List Char)
    (hwf : well_formed_line num_stars (some (n, name))) :
    ∀ c ∈ line_text (some (n, name)), c ≠ '\n' ∧ c ≠ NUL := by
  obtain ⟨_, _, _, hname, _⟩ := hwf
  intro c hc
  simp only [line_text, List.mem_append, List.mem_cons] at hc
  rcases hc with hc | hc | hc
  · obtain ⟨d, hd, rfl⟩ := decimal_mem n c hc
    have := digit_char_facts d hd
    exact ⟨this.2.2.2.1, this.2.2.2.2.1⟩
  · subst hc
    exact ⟨by decide, by decide⟩
  · exact ⟨(hname c hc).2.1, (hname c hc).2.2⟩

theorem store_name_line (num_stars n : ℕ) (name : List Char) (table : List star_name)
    (hwf : well_formed_line num_stars (some (n, name))) (hlen : table.length = num_stars) :
    store_name (line_text (some (n, name))) table =
      some (apply_line table (some (n, name))) := by
  have hchars := line_text_chars num_stars n name hwf
  obtain ⟨h1, hn, hne, hname, _⟩ := hwf
  have hdne := decimal_ne_nil n h1
  have hdc : ∀ c ∈ decimal n, c ≠ ',' := by
    intro c hc
    obtain ⟨d, hd, rfl⟩ := decimal_mem n c hc
    exact (digit_char_facts d hd).2.2.1
  unfold store_name
  rw [c_str_eq_self _ (fun c hc => (hchars c hc).2)]
  simp only [line_text]
  rw [strtok_first (decimal n) name hdne hdc]
  simp only
  rw [strtok_second name hne (fun c hc => ⟨(hname c hc).1, (hname c hc).2.1⟩)]
  simp only [atoi_decimal n h1]
  unfold array_write apply_line
  have hidx : ((n : ℤ) - 1).toNat = n - 1 := by omega
  rw [hidx, if_pos]
  constructor
  · omega
  · omega

theorem generate_name_table_loop_nil (fuel : ℕ) (table : List star_name) :
    generate_name_table_loop fuel [] table = some table := by
  cases fuel <;> simp [generate_name_table_loop]

theorem generate_name_table_loop_succ (fuel : ℕ) (data : List Char)
    (table : List star_name) :
    generate_name_table_loop (fuel + 1) data table =
      if data = [] then some table
      else
        if (copy_line data (BUF_SIZE - 1)).head? = none ∨
            (copy_line data (BUF_SIZE - 1)).head? = some NUL then
          generate_name_table_loop fuel
            (data.drop ((copy_line data (BUF_SIZE - 1)).length + 1)) table
        else
          match store_name (copy_line data (BUF_SIZE - 1)) table with
          | none => none
          | some table =>
            generate_name_table_loop fuel
              (data.drop ((copy_line data (BUF_SIZE - 1)).length + 1)) table := rfl

theorem generate_name_table_loop_step (fuel num_stars : ℕ) (l : Option (ℕ × List Char))
    (table : List star_name) (tail : List Char)
    (hwf : well_formed_line num_stars l) (hlen : table.length = num_stars)
    (ht : tail = [] ∨ ∃ r, tail = '\n' :: r) (hne : line_text l ++ tail ≠ []) :
    generate_name_table_loop (fuel + 1) (line_text l ++ tail) table =
      generate_name_table_loop fuel (tail.drop 1) (apply_line table l) := by
  rw [generate_name_table_loop_succ, if_neg hne]
  cases l with
  | none =>
    have hcopy : copy_line (line_text none ++ tail) (BUF_SIZE - 1) = [] :=
      copy_line_append [] (fun c hc => absurd hc (List.not_mem_nil c)) tail ht _
        (Nat.zero_le _)
    rw [hcopy]
    simp [line_text, apply_line]
  | some p =>
    obtain ⟨n, name⟩ := p
    have hchars := line_text_chars num_stars n name hwf
    have hlt : (line_text (some (n, name))).length < 31 := hwf.2.2.2.2
    have hcopy : copy_line (line_text (some (n, name)) ++ tail) (BUF_SIZE - 1) =
        line_text (some (n, name)) :=
      copy_line_append _ (fun c hc => (hchars c hc).1) tail ht _
        (by unfold BUF_SIZE; omega)
    rw [hcopy]
    have hdrop : (line_text (some (n, name)) ++ tail).drop
        ((line_text (some (n, name))).length + 1) = tail.drop 1 := by
      rw [List.drop_append_eq_append_drop]
      simp
    rw [hdrop]
    have hhead : ¬ ((line_text (some (n, name))).head? = none ∨
        (line_text (some (n, name))).head? = some NUL) := by
      cases hlt' : line_text (some (n, name)) with
      | nil =>
        simp [line_text] at hlt'
      | cons c cs =>
        have := (hchars c (by rw [hlt']; exact List.mem_cons_self c cs)).2
        simp [this]
    rw [if_neg hhead, store_name_line num_stars n name table hwf hlen]

theorem apply_line_length (table : List star_name) (l : Option (ℕ × List Char)) :
    (apply_line table l).length = table.length := by
  cases l with
  | none => rfl
  | some p => simp [apply_line]

theorem foldl_apply_line_length (lines : List (Option (ℕ × List Char)))
    (table : List star_name) :
    (lines.foldl apply_line table).length = table.length := by
  induction lines generalizing table with
  | nil => rfl
  | cons l ls ih => rw [List.foldl_cons, ih, apply_line_length]

theorem generate_name_table_loop_data (num_stars : ℕ)
    (lines : List (Option (ℕ × List Char))) (newline : Bool) :
    ∀ (table : List star_name) (fuel : ℕ),
      (∀ l ∈ lines, well_formed_line num_stars l) → table.length = num_stars →
      (name_data lines newline).length ≤ fuel →
      generate_name_table_loop fuel (name_data lines newline) table =
        some (lines.foldl apply_line table) := by
  induction lines with
  | nil =>
    intro table fuel _ _ _
    exact generate_name_table_loop_nil fuel table
  | cons l ls ih =>
    intro table fuel hwf hlen hfuel
    have hwfl := hwf l (List.mem_cons_self l ls)
    cases ls with
    | nil =>
      simp only [name_data, List.foldl_cons, List.foldl_nil] at hfuel ⊢
      by_cases hdata : line_text l ++ (if newline = true then ['\n'] else []) = []
      · rw [hdata, generate_name_table_loop_nil]
        have hl : line_text l = [] := (List.append_eq_nil.mp hdata).1
        cases l with
        | none => rfl
        | some p => simp [line_text] at hl
      · cases fuel with
        | zero =>
          exact absurd (List.length_eq_zero.mp (Nat.le_zero.mp hfuel)) hdata
        | succ fuel =>
          rw [generate_name_table_loop_step fuel num_stars l table _ hwfl hlen ?_ hdata]
          · have : (if newline = true then ['\n'] else []).drop 1 = ([] : List Char) := by
              cases newline <;> rfl
            rw [this, generate_name_table_loop_nil]
          · cases newline
            · exact Or.inl rfl
            · exact Or.inr ⟨[], rfl⟩
    | cons l' ls' =>
      simp only [name_data, List.foldl_cons] at hfuel ⊢
      have hdata : line_text l ++ '\n' :: name_data (l' :: ls') newline ≠ [] := by simp
      cases fuel with
      | zero =>
        exact absurd (List.length_eq_zero.mp (Nat.le_zero.mp hfuel)) hdata
      | succ fuel =>
        rw [generate_name_table_loop_step fuel num_stars l table _ hwfl hlen
          (Or.inr ⟨_, rfl⟩) hdata]
        simp only [List.drop_succ_cons, List.drop_zero]
        have := ih (apply_line table l) fuel
          (fun x hx => hwf x (List.mem_cons_of_mem l hx))
          (by rw [apply_line_length, hlen])
          (by
            simp only [List.length_append, List.length_cons] at hfuel
            omega)
        simpa only [List.foldl_cons] using this

theorem foldl_apply_line_getElem? (lines : List (Option (ℕ × List Char)))
    (table : List star_name) (k : ℕ) (hk : k < table.length)
    (hpos : ∀ n name, some (n, name) ∈ lines → 1 ≤ n) :
    (lines.foldl apply_line table)[k]? =
      match expected_name lines k with
      | some nm => some ⟨some nm⟩
      | none => table[k]? := by
  induction lines using List.reverseRecOn with
  | nil => simp [expected_name]
  | append_singleton ls l ih =>
    have ih' := ih (fun n name h => hpos n name (List.mem_append_left _ h))
    rw [List.foldl_append, List.foldl_cons, List.foldl_nil]
    cases l with
    | none =>
      have he : expected_name (ls ++ [none]) k = expected_name ls k := by
        simp [expected_name]
      rw [he]
      exact ih'
    | some p =>
      obtain ⟨n, name⟩ := p
      have hn : 1 ≤ n := hpos n name (by simp)
      have hlen : k < (ls.foldl apply_line table).length := by
        rw [foldl_apply_line_length]; exact hk
      by_cases hnk : n = k + 1
      · have he : expected_name (ls ++ [some (n, name)]) k = some name := by
          simp [expected_name, List.filterMap_append, hnk]
        rw [he]
        simp only [apply_line]
        have hidx : n - 1 = k := by omega
        rw [hidx, List.getElem?_set_self hlen]
      · have he : expected_name (ls ++ [some (n, name)]) k = expected_name ls k := by
          simp [expected_name, List.filterMap_append, hnk]
        rw [he]
        simp only [apply_line]
        rw [List.getElem?_set_ne (by omega)]
        exact ih'

theorem generate_name_table_correct (lines : List (Option (ℕ × List Char)))
    (newline : Bool) (num_stars : ℕ)
    (hwf : ∀ l ∈ lines, well_formed_line num_stars l) :
    ∃ table, generate_name_table (name_data lines newline) num_stars = some table ∧
      table.length = num_stars ∧
      ∀ k, k < num_stars → table[k]? = some ⟨expected_name lines k⟩ := by
  refine ⟨lines.foldl apply_line (List.replicate num_stars ⟨none⟩), ?_, ?_, ?_⟩
  · unfold generate_name_table
    exact generate_name_table_loop_data num_stars lines newline _ _ hwf
      (List.length_replicate _ _) (le_refl _)
  · rw [foldl_apply_line_length, List.length_replicate]
  · intro k hk
    rw [foldl_apply_line_getElem? lines _ k (by rw [List.length_replicate]; exact hk)
      (fun n name h => (hwf _ h).1)]
    cases expected_name lines k with
    | none => simp [hk]
    | some nm => rfl

theorem expected_name_none (lines : List (Option (ℕ × List Char))) (k : ℕ)
    (h : ∀ n name, some (n, name) ∈ lines → n ≠ k + 1) :
    expected_name lines k = none := by
  unfold expected_name
  simp only [Option.map_eq_none', List.find?_eq_none, List.mem_reverse, List.mem_filterMap,
    id_eq, exists_eq_right, decide_eq_true_eq]
  intro p hp
  exact h p.1 p.2 hp

theorem expected_name_last (pre post : List (Option (ℕ × List Char))) (n : ℕ)
    (name : List Char) (hn : 1 ≤ n)
    (h : ∀ name', some (n, name') ∉ post) :
    expected_name (pre ++ some (n, name) :: post) (n - 1) = some name := by
  unfold expected_name
  have hn1 : n - 1 + 1 = n := by omega
  rw [hn1]
  have hpost : (post.filterMap id).reverse.find? (fun p => decide (p.1 = n)) = none := by
    simp only [List.find?_eq_none, List.mem_reverse, List.mem_filterMap, id_eq,
      exists_eq_right, decide_eq_true_eq]
    intro p hp hpn
    exact h p.2 (by rw [← hpn]; exact hp)
  simp only [List.filterMap_append, List.filterMap_cons, id_eq, List.reverse_append,
    List.reverse_cons, List.append_assoc, List.find?_append, hpost, Option.none_or,
    List.singleton_append, List.find?_cons, decide_True, Option.map_some']

theorem example_lines_well_formed : ∀ l ∈ example_lines, well_formed_line 3 l := by
  intro l hl
  simp only [example_lines, List.mem_cons, List.mem_singleton, List.not_mem_nil,
    or_false] at hl
  rcases hl with rfl | rfl | rfl
  · simp [well_formed_line, line_text, decimal]
    decide
  · simp [well_formed_line]
  · simp [well_formed_line, line_text, decimal]
    decide

theorem line_split_of_unique (lines : List (Option (ℕ × List Char))) (n : ℕ)
    (name : List Char)
    (hu : ((lines.filterMap id).map (fun p => p.1)).Nodup)
    (hmem : some (n, name) ∈ lines) :
    ∃ pre post, lines = pre ++ some (n, name) :: post ∧
      ∀ name', some (n, name') ∉ post := by
  obtain ⟨pre, post, hsplit⟩ := List.append_of_mem hmem
  refine ⟨pre, post, hsplit, ?_⟩
  intro name' hpost
  rw [hsplit] at hu
  simp only [List.filterMap_append, List.filterMap_cons, id_eq, List.map_append,
    List.map_cons] at hu
  have hnd := (List.nodup_append.mp hu).2.1
  have hnot := (List.nodup_cons.mp hnd).1
  apply hnot
  rw [List.mem_map]
  exact ⟨(n, name'), List.mem_filterMap.mpr ⟨some (n, name'), hpost, rfl⟩, rfl⟩

/-- C7: on data whose non-empty lines have the form `n,name` with
`1 <= n <= num_stars`, a non-empty name without comma, fewer than 31 bytes each,
and catalog numbers that are a key (no number on two lines), `generate_name_table`
succeeds and slot `n - 1` of the name table holds a copy of `name` for every such
line (the first line included, and a last line with no trailing newline); every
slot whose catalog number does not occur in the data holds `NULL`. -/
theorem C7_name_table_slots (lines : List (Option (ℕ × List Char))) (newline : Bool)
    (num_stars : ℕ) (hwf : ∀ l ∈ lines, well_formed_line num_stars l)
    (hu : ((lines.filterMap id).map (fun p => p.1)).Nodup) :
    ∃ table, generate_name_table (name_data lines newline) num_stars = some table ∧
      table.length = num_stars ∧
      (∀ n name, some (n, name) ∈ lines → table[n - 1]? = some ⟨some name⟩) ∧
      (∀ k, k < num_stars → (∀ n name, some (n, name) ∈ lines → n ≠ k + 1) →
        table[k]? = some ⟨none⟩) := by
  obtain ⟨table, hrun, hlen, hslots⟩ :=
    generate_name_table_correct lines newline num_stars hwf
  refine ⟨table, hrun, hlen, ?_, ?_⟩
  · intro n name hmem
    obtain ⟨pre, post, hlines, hlast⟩ := line_split_of_unique lines n name hu hmem
    obtain ⟨h1, hn, _⟩ := hwf _ hmem
    rw [hslots (n - 1) (by omega), hlines, expected_name_last pre post n name h1 hlast]
  · intro k hk hnone
    rw [hslots k hk, expected_name_none lines k hnone]

/-- Witness for C7: the lines `1,Sirius`, an empty line and `3,Vega`, the last one
without a newline, for a table of three slots. -/
theorem C7_name_table_slots_witness :
    name_data example_lines false = "1,Sirius\n\n3,Vega".toList ∧
    ∃ table, generate_name_table (name_data example_lines false) 3 = some table ∧
      table.length = 3 ∧
      (∀ n name, some (n, name) ∈ example_lines → table[n - 1]? = some ⟨some name⟩) ∧
      (∀ k, k < 3 → (∀ n name, some (n, name) ∈ example_lines → n ≠ k + 1) →
        table[k]? = some ⟨none⟩) :=
  ⟨by simp [name_data, example_lines, line_text, decimal],
    C7_name_table_slots example_lines false 3 example_lines_well_formed (by decide)⟩

theorem star_of_entry_mag_100 (temp_star : star) (e : entry) (nm : star_name)
    (h : e.MAG = 100) :
    star_of_entry temp_star e nm =
      some { base := { y := 0, x := 0, azimuth := 0, altitude := 0, color_pair := 0,
                       symbol_ASCII := 'O', symbol_unicode := some "⦁".toList,
                       label := nm.name },
             catalog_number := c_int_cast e.XNO, magnitude := (e.MAG : ℚ) / 100,
             right_ascension := e.SRA0, declination := e.SDEC0, ra_motion := e.XDPM,
             dec_motion := temp_star.dec_motion } := by
  have h2 : map_float_to_int_range min_magnitude max_magnitude 0 9
      ((e.MAG : ℚ) / 100) = 2 := by
    rw [h]
    exact symbol_index_one
  have ha : array_read mag_map_round_ASCII 2 = some 'O' := by
    simp [array_read, mag_map_round_ASCII]
  have hu : array_read mag_map_unicode_round 2 = some "⦁".toList := by
    simp [array_read, mag_map_unicode_round]
  have hs := star_of_entry_eq temp_star e nm
  rw [h2, ha, hu] at hs
  exact hs

theorem generate_star_table_two (uninit : ℕ → star) (e₀ e₁ : entry) (nm₀ nm₁ : star_name)
    (s₀ s₁ : star) (h₀ : star_of_entry (uninit 0) e₀ nm₀ = some s₀)
    (h₁ : star_of_entry (uninit 1) e₁ nm₁ = some s₁) :
    generate_star_table uninit [e₀, e₁] [nm₀, nm₁] 2 = some [s₀, s₁] := by
  unfold generate_star_table
  rw [generate_star_table_from_succ, generate_star_table_from_succ,
    generate_star_table_from_zero]
  simp only [List.getElem?_cons_zero, h₀, zero_add, List.getElem?_cons_succ, h₁]

theorem array_write_length {α : Type} (a b : List α) (i : ℤ) (v : α)
    (h : array_write a i v = some b) : b.length = a.length := by
  unfold array_write at h
  split_ifs at h
  injection h with h
  subst h
  exact List.length_set _ _ _

theorem store_name_length (buffer : List Char) (table t : List star_name)
    (h : store_name buffer table = some t) : t.length = table.length := by
  unfold store_name at h
  split at h
  · exact absurd h (by simp)
  · simp only at h
    split at h
    · exact absurd h (by simp)
    · exact array_write_length _ _ _ _ h

theorem generate_name_table_loop_length (fuel : ℕ) :
    ∀ (data : List Char) (table t : List star_name),
      generate_name_table_loop fuel data table = some t → t.length = table.length := by
  induction fuel with
  | zero =>
    intro data table t h
    simp only [generate_name_table_loop] at h
    split_ifs at h
    injection h with h
    rw [h]
  | succ fuel ih =>
    intro data table t h
    rw [generate_name_table_loop_succ] at h
    split_ifs at h with h1 h2
    · injection h with h
      rw [h]
    · exact ih _ _ _ h
    · split at h
      · exact absurd h (by simp)
      · rename_i table' hst
        rw [ih _ _ _ h, store_name_length _ _ _ hst]

theorem generate_name_table_length (data : List Char) (num_stars : ℕ)
    (name_table : List star_name)
    (h : generate_name_table data num_stars = some name_table) :
    name_table.length = num_stars := by
  unfold generate_name_table at h
  rw [generate_name_table_loop_length _ _ _ _ h, List.length_replicate]

/-- C8, as stated, fails: with the name data `1,A` and the two entries numbered 2
and 1, in this order, the star at index 0 has catalog number 2 and the label `A`,
although the name table built from the data has no name for catalog number 2. -/
theorem C8_counterexample :
    generate_name_table "1,A\n".toList 2 = some [⟨some ['A']⟩, ⟨none⟩] ∧
    ¬ (∀ (uninit : ℕ → star) (entries : List entry) (data : List Char) (num_stars : ℕ)
        (name_table : List star_name) (star_table : List star),
        generate_name_table data num_stars = some name_table →
        generate_star_table uninit entries name_table num_stars = some star_table →
        ∀ i, i < num_stars → ∃ s, star_table[i]? = some s ∧
          s.base.label = name_of_catalog_number name_table s.catalog_number) := by
  have hrun : generate_name_table "1,A\n".toList 2 = some [⟨some ['A']⟩, ⟨none⟩] := by
    decide
  refine ⟨hrun, ?_⟩
  intro h
  have hstars := generate_star_table_two (fun _ => star_with 0 0) entry_two entry_example
    ⟨some ['A']⟩ ⟨none⟩ _ _
    (star_of_entry_mag_100 _ entry_two _ rfl) (star_of_entry_mag_100 _ entry_example _ rfl)
  obtain ⟨s, hs, hlabel⟩ := h _ _ _ _ _ _ hrun hstars 0 (by norm_num)
  simp only [List.getElem?_cons_zero, Option.some.injEq] at hs
  subst hs
  simp [name_of_catalog_number, array_read, c_int_cast, entry_two] at hlabel

/-- C8, amended: for every star produced by `generate_star_table` from a name
table built by `generate_name_table`, the label of the star stored at index `i`
is the name in slot `i` of the name table, that is the name the table gives to
catalog number `i + 1`, and it is absent (`NULL`) exactly when that slot has no
name; it is the name of the star's own catalog number whenever that number is
`i + 1`, that is when the entries come in catalog order. -/
theorem C8_label_is_name_at_index (uninit : ℕ → star) (entries : List entry)
    (data : List Char) (num_stars : ℕ) (name_table : List star_name)
    (star_table : List star)
    (hn : generate_name_table data num_stars = some name_table)
    (hs : generate_star_table uninit entries name_table num_stars = some star_table)
    (i : ℕ) (hi : i < num_stars) :
    name_table.length = num_stars ∧
    ∃ e s nm, entries[i]? = some e ∧ star_table[i]? = some s ∧ name_table[i]? = some nm ∧
      s.base.label = nm.name ∧
      s.base.label = name_of_catalog_number name_table ((i : ℤ) + 1) ∧
      (s.base.label = none ↔ name_of_catalog_number name_table ((i : ℤ) + 1) = none) ∧
      (s.catalog_number = (i : ℤ) + 1 →
        s.base.label = name_of_catalog_number name_table s.catalog_number) := by
  refine ⟨generate_name_table_length data num_stars name_table hn, ?_⟩
  obtain ⟨e, nm, s, he, hnm, hse, hts⟩ :=
    generate_star_table_spec uninit entries name_table num_stars star_table hs i hi
  have hlabel : s.base.label = nm.name :=
    (star_of_entry_fields (uninit i) e nm s hse).2.2.2.2.2.2
  have hname : name_of_catalog_number name_table ((i : ℤ) + 1) = nm.name := by
    unfold name_of_catalog_number array_read
    have h0 : (0 : ℤ) ≤ (i : ℤ) + 1 - 1 := by omega
    have h1 : ((i : ℤ) + 1 - 1).toNat = i := by omega
    rw [if_pos h0, h1, hnm]
  refine ⟨e, s, nm, he, hts, hnm, hlabel, ?_, ?_, ?_⟩
  · rw [hname, hlabel]
  · rw [hname, hlabel]
  · intro hc
    rw [hc, hname, hlabel]

/-- Witness for C8: the name data `1,Sirius` and the one-entry catalog
`entry_example`. -/
theorem C8_label_is_name_at_index_witness :
    generate_name_table "1,Sirius\n".toList 1 = some [⟨some "Sirius".toList⟩] ∧
    (∃ star_table, generate_star_table (fun _ => star_with 0 0) [entry_example]
        [⟨some "Sirius".toList⟩] 1 = some star_table) ∧
    ([⟨some "Sirius".toList⟩] : List star_name).length = 1 :=
  ⟨by decide, ⟨_, generate_star_table_example _ _⟩,
   (C8_label_is_name_at_index (fun _ => star_with 0 0) [entry_example]
      "1,Sirius\n".toList 1 [⟨some "Sirius".toList⟩] _ (by decide)
      (generate_star_table_example _ _) 0 Nat.one_pos).1⟩


/-! ## Constellation lines (claims C11, C12) -/

theorem strtok_token (d : Char) (tok rest : List Char) (ht : tok ≠ [])
    (htc : ∀ c ∈ tok, c ≠ d) :
    strtok (tok ++ d :: rest) [d] = some (tok, rest) := by
  cases tok with
  | nil => exact absurd rfl ht
  | cons c cs =>
    have hc : c ≠ d := htc c (List.mem_cons_self c cs)
    have htw : ((c :: cs) ++ d :: rest).takeWhile (fun x => !([d] : List Char).contains x)
        = c :: cs := by
      rw [List.takeWhile_append_of_pos]
      · simp
      · intro x hx
        simpa using htc x hx
    have hdw : ((c :: cs) ++ d :: rest).dropWhile (fun x => !([d] : List Char).contains x)
        = d :: rest := by
      rw [List.dropWhile_append_of_pos]
      · simp
      · intro x hx
        simpa using htc x hx
    unfold strtok
    have h0 : ((c :: cs) ++ d :: rest).dropWhile (fun x => ([d] : List Char).contains x)
        = (c :: cs) ++ d :: rest := by
      simp [List.dropWhile_cons, hc]
    rw [h0]
    simp only [List.cons_append] at htw hdw ⊢
    rw [htw, hdw]
    rfl

theorem strtok_end (d : Char) (tok : List Char) (ht : tok ≠ [])
    (htc : ∀ c ∈ tok, c ≠ d) :
    strtok tok [d] = some (tok, []) := by
  cases tok with
  | nil => exact absurd rfl ht
  | cons c cs =>
    have hc : c ≠ d := htc c (List.mem_cons_self c cs)
    have hall : ∀ x ∈ c :: cs, (!([d] : List Char).contains x) = true := by
      intro x hx
      simpa using htc x hx
    have htw : (c :: cs).takeWhile (fun x => !([d] : List Char).contains x) = c :: cs :=
      List.takeWhile_eq_self_iff.mpr hall
    have hdw : (c :: cs).dropWhile (fun x => !([d] : List Char).contains x) = [] :=
      List.dropWhile_eq_nil_iff.mpr hall
    unfold strtok
    have h0 : (c :: cs).dropWhile (fun x => ([d] : List Char).contains x) = c :: cs := by
      simp [List.dropWhile_cons, hc]
    rw [h0]
    simp only
    rw [htw, hdw]
    rfl

theorem strtok_nil (delim : List Char) : strtok [] delim = none := rfl

theorem numeral_mem (n : ℕ) (c : Char) (hc : c ∈ numeral n) :
    ∃ d, d < 10 ∧ c = Char.ofNat (48 + d) := by
  unfold numeral at hc
  split_ifs at hc
  · simp only [List.mem_singleton] at hc
    exact ⟨0, by norm_num, by rw [hc]⟩
  · exact decimal_mem n c hc

theorem numeral_ne_nil (n : ℕ) : numeral n ≠ [] := by
  unfold numeral
  split_ifs with h
  · simp
  · exact decimal_ne_nil n (by omega)

theorem atoi_digits_stop (l tail : List Char) (hl : ∀ c ∈ l, c.isDigit = true)
    (ht : tail = [] ∨ ∃ c r, tail = c :: r ∧ c.isDigit = false) (acc : ℕ) :
    atoi_digits (l ++ tail) acc = atoi_digits l acc := by
  induction l generalizing acc with
  | nil =>
    rcases ht with rfl | ⟨c, r, rfl, hc⟩
    · rfl
    · simp [atoi_digits, hc]
  | cons c l ih =>
    have hc := hl c (List.mem_cons_self c l)
    simp only [List.cons_append, atoi_digits, hc, if_true]
    exact ih (fun x hx => hl x (List.mem_cons_of_mem c hx)) _

theorem atoi_numeral (n : ℕ) (tail : List Char)
    (ht : tail = [] ∨ ∃ c r, tail = c :: r ∧ c.isDigit = false) :
    atoi (numeral n ++ tail) = (n : ℤ) := by
  have hdig : ∀ c ∈ numeral n, c.isDigit = true := by
    intro c hc
    obtain ⟨d, hd, rfl⟩ := numeral_mem n c hc
    exact (digit_char_facts d hd).1
  have hval : atoi_digits (numeral n) 0 = n := by
    unfold numeral
    split_ifs with h
    · subst h
      rfl
    · exact atoi_digits_decimal n
  have hne := numeral_ne_nil n
  unfold atoi
  cases hnum : numeral n with
  | nil => exact absurd hnum hne
  | cons c cs =>
    obtain ⟨d, hd, hc⟩ := numeral_mem n c (by rw [hnum]; exact List.mem_cons_self c cs)
    have hf := digit_char_facts d hd
    rw [← hc] at hf
    have hstop := atoi_digits_stop (numeral n) tail hdig ht 0
    rw [hnum] at hstop hval
    simp only [List.cons_append, List.dropWhile_cons, hf.2.2.2.2.2.1, Bool.false_eq_true,
      if_false, hf.2.2.2.2.2.2.1, hf.2.2.2.2.2.2.2]
    simp only [List.cons_append] at hstop
    rw [hstop, hval]

theorem numeral_chars (n : ℕ) : ∀ c ∈ numeral n, c ≠ ' ' ∧ c ≠ NUL ∧ c ≠ '\n' := by
  intro c hc
  obtain ⟨d, hd, rfl⟩ := numeral_mem n c hc
  have h := digit_char_facts d hd
  refine ⟨?_, h.2.2.2.2.1, h.2.2.2.1⟩
  interval_cases d <;> decide

theorem read_star_numbers_nil (remaining : ℕ) (acc : List ℤ) :
    read_star_numbers remaining [] acc = acc := by
  cases remaining <;> rfl

theorem read_star_numbers_text (ss : List ℕ) (hss : ss ≠ []) (tail : List Char)
    (ht : tail = [] ∨ tail = ['\n']) :
    ∀ (remaining : ℕ) (acc : List ℤ), ss.length ≤ remaining →
      read_star_numbers remaining (tokens_text (ss.map numeral) ++ tail) acc =
        acc ++ ss.map (fun (s : ℕ) => (s : ℤ)) := by
  have htail : tail = [] ∨ ∃ c r, tail = c :: r ∧ c.isDigit = false := by
    rcases ht with rfl | rfl
    · exact Or.inl rfl
    · exact Or.inr ⟨'\n', [], rfl, by decide⟩
  have htsp : ∀ c ∈ tail, c ≠ ' ' := by
    rcases ht with rfl | rfl
    · intro c hc; exact absurd hc (List.not_mem_nil c)
    · intro c hc
      simp only [List.mem_singleton] at hc
      subst hc
      decide
  induction ss with
  | nil => exact absurd rfl hss
  | cons s ss ih =>
    intro remaining acc hrem
    cases remaining with
    | zero => simp at hrem
    | succ remaining =>
      cases ss with
      | nil =>
        have htok : strtok (numeral s ++ tail) [' '] = some (numeral s ++ tail, []) := by
          apply strtok_end
          · simp [numeral_ne_nil]
          · intro c hc
            rcases List.mem_append.mp hc with h | h
            · exact (numeral_chars s c h).1
            · exact htsp c h
        simp only [List.map_cons, List.map_nil, tokens_text, read_star_numbers, htok,
          atoi_numeral s tail htail, read_star_numbers_nil]
      | cons s' ss' =>
        have htok : strtok (numeral s ++ ' ' ::
            (tokens_text ((s' :: ss').map numeral) ++ tail)) [' '] =
            some (numeral s, tokens_text ((s' :: ss').map numeral) ++ tail) :=
          strtok_token ' ' _ _ (numeral_ne_nil s) (fun c hc => (numeral_chars s c hc).1)
        have hs : atoi (numeral s) = (s : ℤ) := by
          have := atoi_numeral s [] (Or.inl rfl)
          simpa using this
        have := ih (by simp) remaining (acc ++ [(s : ℤ)])
          (by simp only [List.length_cons] at hrem ⊢; omega)
        simp only [List.map_cons, tokens_text, List.append_assoc, List.cons_append,
          read_star_numbers] at this htok ⊢
        rw [htok]
        simp only [hs]
        rw [this]
        simp

theorem constell_line_eq (name : List Char) (k s : ℕ) (ss : List ℕ) :
    constell_line name k (s :: ss) =
      name ++ ' ' :: (numeral k ++ ' ' :: tokens_text ((s :: ss).map numeral)) := by
  simp [constell_line, tokens_text]

theorem to_unsigned_natCast (k : ℕ) (hk : k < 4294967296) : to_unsigned (k : ℤ) = k := by
  unfold to_unsigned
  omega

theorem parse_line_constell_line (uninit : constell) (pre post name : List Char) (k : ℕ)
    (ss : List ℕ) (table : Option (List constell)) (line_number : ℕ) (tail : List Char)
    (hwf : well_formed_constell name k ss) (ht : tail = [] ∨ tail = ['\n']) :
    parse_line uninit (pre ++ (constell_line name k ss ++ tail) ++ post) table
        (pre.length : ℤ) ((pre.length : ℤ) + (constell_line name k ss ++ tail).length - 1)
        line_number =
      some (true, some ((realloc_table uninit table (line_number + 1)).set line_number
        ⟨k, ss.map (fun (s : ℕ) => (s : ℤ))⟩)) := by
  obtain ⟨hname, hchars, hk1, hk2, hlen, _⟩ := hwf
  cases ss with
  | nil => simp at hlen; omega
  | cons s ss =>
    have hline := constell_line_eq name k s ss
    have htnul : ∀ c ∈ tail, c ≠ NUL := by
      rcases ht with rfl | rfl
      · intro c hc; exact absurd hc (List.not_mem_nil c)
      · intro c hc
        simp only [List.mem_singleton] at hc
        subst hc
        decide
    have htoks : ∀ (l : List ℕ), ∀ c ∈ tokens_text (l.map numeral), c ≠ NUL := by
      intro l
      induction l with
      | nil => intro c hc; simp [tokens_text] at hc
      | cons a l ih =>
        cases l with
        | nil =>
          intro c hc
          simp only [List.map_cons, List.map_nil, tokens_text] at hc
          exact (numeral_chars a c hc).2.1
        | cons b l =>
          intro c hc
          simp only [List.map_cons, tokens_text, List.mem_append, List.mem_cons] at hc
          rcases hc with h | h | h
          · exact (numeral_chars a c h).2.1
          · subst h; decide
          · exact ih c (by simpa [tokens_text] using h)
    have hnul : ∀ c ∈ constell_line name k (s :: ss) ++ tail, c ≠ NUL := by
      intro c hc
      rw [hline] at hc
      simp only [List.mem_append, List.mem_cons] at hc
      rcases hc with (h | h | h | h | h) | h
      · exact (hchars c h).2
      · subst h; decide
      · exact (numeral_chars k c h).2.1
      · subst h; decide
      · exact htoks (s :: ss) c h
      · exact htnul c h
    have hlen2 : 2 ≤ (constell_line name k (s :: ss) ++ tail).length := by
      rw [hline]
      have : 1 ≤ name.length := List.length_pos.mpr hname
      simp only [List.length_append, List.length_cons]
      omega
    generalize hL : constell_line name k (s :: ss) ++ tail = L at hlen2 hnul
    have hbuf : ((pre ++ L ++ post).drop ((pre.length : ℤ)).toNat).take
        (((pre.length : ℤ) + L.length - 1 - (pre.length : ℤ) + 1).toNat) = L := by
      have h1 : ((pre.length : ℤ)).toNat = pre.length := by omega
      have h2 : ((pre.length : ℤ) + L.length - 1 - (pre.length : ℤ) + 1).toNat = L.length := by
        omega
      rw [h1, h2, List.append_assoc, List.drop_left, List.take_left]
    have h1 : strtok L [' '] =
        some (name, numeral k ++ ' ' :: (tokens_text ((s :: ss).map numeral) ++ tail)) := by
      rw [← hL, hline]
      simp only [List.append_assoc, List.cons_append]
      exact strtok_token ' ' name _ hname (fun c hc => (hchars c hc).1)
    have h2 : strtok (numeral k ++ ' ' :: (tokens_text ((s :: ss).map numeral) ++ tail)) [' '] =
        some (numeral k, tokens_text ((s :: ss).map numeral) ++ tail) :=
      strtok_token ' ' _ _ (numeral_ne_nil k) (fun c hc => (numeral_chars k c hc).1)
    have hk : atoi (numeral k) = (k : ℤ) := by
      have := atoi_numeral k [] (Or.inl rfl)
      simpa using this
    have hu : to_unsigned (k : ℤ) = k := to_unsigned_natCast k (by omega)
    have hlimit : k * 2 % 4294967296 = (s :: ss).length := by
      rw [hlen]; omega
    have hread := read_star_numbers_text (s :: ss) (by simp) tail ht (s :: ss).length []
      (le_refl _)
    unfold parse_line
    rw [if_neg (by omega), if_neg (by
      simp only [List.length_append, Nat.cast_add]
      omega)]
    simp only [hbuf, c_str_eq_self L hnul, h1, h2, hk, hu, hlimit, hread, List.nil_append,
      List.length_map, ne_eq, not_true_eq_false, if_false]
    rw [if_neg (by omega)]

theorem realloc_table_length (uninit : constell) (table : Option (List constell)) (n : ℕ) :
    (realloc_table uninit table n).length = n := by
  cases table with
  | none => simp [realloc_table]
  | some t =>
    simp only [realloc_table, List.length_append, List.length_take, List.length_replicate]
    omega

theorem cvn_well_formed : well_formed_constell "CVn".toList 1 [4915, 4785] := by
  refine ⟨by simp, ?_, by norm_num, by norm_num, rfl, ?_⟩
  · intro c hc
    simp only [String.toList, List.mem_cons, List.mem_singleton, List.not_mem_nil,
      or_false] at hc
    rcases hc with rfl | rfl | rfl <;> decide
  · intro s hs
    simp only [List.mem_cons, List.mem_singleton, List.not_mem_nil, or_false] at hs
    rcases hs with rfl | rfl <;> norm_num

/-- C11: for every line `name k s1 ... s(2k)` with single-space separators and
`k >= 1` (a name without spaces, numbers that fit in an `int`), given as the bytes
`line_start .. line_end` of the data with or without the newline that ends it,
`parse_line` returns true and stores at index `line_number` of the table the
constellation with `num_segments = k` and `star_numbers = [s1, ..., s(2k)]` in
the order written; `CVn 1 4915 4785` yields `num_segments = 1` and
`star_numbers = [4915, 4785]`. -/
theorem C11_parse_line_stores_constellation (uninit : constell)
    (pre post name : List Char) (k : ℕ) (ss : List ℕ) (table : Option (List constell))
    (line_number : ℕ) (tail : List Char)
    (hwf : well_formed_constell name k ss) (ht : tail = [] ∨ tail = ['\n']) :
    (∃ table', parse_line uninit (pre ++ (constell_line name k ss ++ tail) ++ post) table
        (pre.length : ℤ) ((pre.length : ℤ) + (constell_line name k ss ++ tail).length - 1)
        line_number = some (true, some table') ∧
      table'.length = line_number + 1 ∧
      table'[line_number]? = some ⟨k, ss.map (fun (s : ℕ) => (s : ℤ))⟩) ∧
    parse_line uninit "CVn 1 4915 4785".toList none 0 14 0 =
      some (true, some [⟨1, [4915, 4785]⟩]) := by
  constructor
  · refine ⟨_, parse_line_constell_line uninit pre post name k ss table line_number tail
      hwf ht, ?_, ?_⟩
    · rw [List.length_set, realloc_table_length]
    · rw [List.getElem?_set_self (by rw [realloc_table_length]; omega)]
  · have h := parse_line_constell_line uninit [] [] "CVn".toList 1 [4915, 4785] none 0 []
      cvn_well_formed (Or.inl rfl)
    have hline : constell_line "CVn".toList 1 [4915, 4785] = "CVn 1 4915 4785".toList := by
      simp [constell_line, tokens_text, numeral, decimal]
    rw [hline] at h
    simpa [realloc_table] using h

/-- Witness for C11: the line `CVn 1 4915 4785` followed by a newline, parsed as
line 0 into an empty table. -/
theorem C11_parse_line_stores_constellation_witness :
    well_formed_constell "CVn".toList 1 [4915, 4785] ∧
    parse_line ⟨0, []⟩ "CVn 1 4915 4785".toList none 0 14 0 =
      some (true, some [⟨1, [4915, 4785]⟩]) :=
  ⟨cvn_well_formed,
   (C11_parse_line_stores_constellation ⟨0, []⟩ [] [] "CVn".toList 1 [4915, 4785] none 0
      ['\n'] cvn_well_formed (Or.inr rfl)).2⟩

/-- C12, as stated, fails: on empty constellation data `generate_constell_table`
returns false and reports no count, so it does not succeed with zero
constellations. -/
theorem C12_counterexample :
    ¬ (∃ r, generate_constell_table ⟨0, []⟩ [] none = some r ∧ r.ok = true ∧
        r.num_constell = some 0) := by
  rintro ⟨r, hr, hok, _⟩
  have h : generate_constell_table ⟨0, []⟩ [] none = some ⟨false, none, none⟩ := rfl
  rw [h] at hr
  injection hr with hr
  subst hr
  exact absurd hok (by decide)

/-- C12, amended: empty constellation data is rejected, not treated as a valid
empty collection: `generate_constell_table` called with `data_len = 0` returns
false, leaves `*constell_table_out` as it was and does not write
`*num_constell_out`; the start-up of `main` then ends with `s` false, on which
the program aborts. -/
theorem C12_empty_data_rejected (uninit : constell) (table_in : Option (List constell))
    (entries_ok names_ok stars_ok planets_ok moon_ok numbers_ok : Bool) :
    generate_constell_table uninit [] table_in = some ⟨false, table_in, none⟩ ∧
    main_initialised entries_ok names_ok false stars_ok planets_ok moon_ok numbers_ok =
      false := by
  constructor
  · rfl
  · simp [main_initialised]


/-! ## Star positions and rendering (claims C13, C14) -/

theorem update_star_positions_loop_spec
    (eth : ℚ → ℚ → ℚ → ℚ → ℚ → ℚ × ℚ) (gmst latitude longitude : ℚ) (remaining : ℕ) :
    ∀ (i : ℕ) (stars : List star), i + remaining ≤ stars.length →
      ∃ stars', update_star_positions_loop eth gmst latitude longitude remaining i stars =
          some stars' ∧
        stars'.length = stars.length ∧
        (∀ j s, i ≤ j → j < i + remaining → stars[j]? = some s →
          stars'[j]? = some (set_position s
            (eth s.declination s.right_ascension gmst latitude longitude).1
            (eth s.declination s.right_ascension gmst latitude longitude).2)) ∧
        (∀ j, j < i ∨ i + remaining ≤ j → stars'[j]? = stars[j]?) := by
  induction remaining with
  | zero =>
    intro i stars _
    refine ⟨stars, rfl, rfl, ?_, fun j _ => rfl⟩
    intro j s h1 h2
    omega
  | succ remaining ih =>
    intro i stars hlen
    have hi : i < stars.length := by omega
    obtain ⟨stars', hrun, hl, hin, hout⟩ := ih (i + 1)
      (stars.set i (set_position stars[i]
        (eth stars[i].declination stars[i].right_ascension gmst latitude longitude).1
        (eth stars[i].declination stars[i].right_ascension gmst latitude longitude).2))
      (by rw [List.length_set]; omega)
    refine ⟨stars', ?_, ?_, ?_, ?_⟩
    · simp only [update_star_positions_loop, List.getElem?_eq_getElem hi]
      exact hrun
    · rw [hl, List.length_set]
    · intro j s h1 h2 hs
      by_cases hj : j = i
      · subst hj
        rw [hout j (Or.inl (Nat.lt_succ_self j)), List.getElem?_set_self hi]
        rw [List.getElem?_eq_getElem hi] at hs
        injection hs with hs
        rw [hs]
      · apply hin j s (by omega) (by omega)
        rw [List.getElem?_set_ne (Ne.symm hj)]
        exact hs
    · intro j hj
      rw [hout j (by omega), List.getElem?_set_ne (by omega)]

/-- C13: `update_star_positions` computes the sidereal time
`g = greenwich_mean_sidereal_time_rad(julian_date)` once and, for every index
`i < num_stars`, sets the altitude and azimuth of star `i` to the pair returned
by `equatorial_to_horizontal(declination_i, right_ascension_i, g, latitude,
longitude)`; it changes no other field of any star and no star from index
`num_stars` on, and for `num_stars <= 0` it changes nothing at all. -/
theorem C13_update_star_positions
    (gmst_rad : ℚ → ℚ) (eth : ℚ → ℚ → ℚ → ℚ → ℚ → ℚ × ℚ) (stars : List star)
    (num_stars : ℤ) (julian_date latitude longitude : ℚ)
    (hn : num_stars ≤ (stars.length : ℤ)) :
    ∃ stars', update_star_positions gmst_rad eth stars num_stars julian_date latitude
          longitude = some stars' ∧
      stars'.length = stars.length ∧
      (∀ (i : ℕ) s, (i : ℤ) < num_stars → stars[i]? = some s →
        ∃ s', stars'[i]? = some s' ∧
          s'.base.altitude =
            (eth s.declination s.right_ascension (gmst_rad julian_date) latitude
              longitude).1 ∧
          s'.base.azimuth =
            (eth s.declination s.right_ascension (gmst_rad julian_date) latitude
              longitude).2 ∧
          s' = set_position s s'.base.altitude s'.base.azimuth ∧
          s'.catalog_number = s.catalog_number ∧ s'.magnitude = s.magnitude ∧
          s'.right_ascension = s.right_ascension ∧ s'.declination = s.declination) ∧
      (∀ (i : ℕ), num_stars ≤ (i : ℤ) → stars'[i]? = stars[i]?) ∧
      (num_stars ≤ 0 → stars' = stars) := by
  obtain ⟨stars', hrun, hl, hin, hout⟩ :=
    update_star_positions_loop_spec eth (gmst_rad julian_date) latitude longitude
      num_stars.toNat 0 stars (by omega)
  refine ⟨stars', hrun, hl, ?_, ?_, ?_⟩
  · intro i s hi hs
    have := hin i s (Nat.zero_le i) (by omega) hs
    exact ⟨_, this, rfl, rfl, rfl, rfl, rfl, rfl, rfl⟩
  · intro i hi
    exact hout i (Or.inr (by omega))
  · intro h0
    apply List.ext_getElem? 
    intro i
    exact hout i (Or.inr (by omega))

/-- Witness for C13: two stars, `num_stars = 2`, constant coordinate functions. -/
theorem C13_update_star_positions_witness :
    ((2 : ℤ) ≤ (tie_example.length : ℤ)) ∧
    ∃ stars', update_star_positions (fun _ => 0) (fun _ _ _ _ _ => (1, 2)) tie_example 2
        0 0 0 = some stars' ∧ stars'.length = tie_example.length := by
  have h2 : (2 : ℤ) ≤ (tie_example.length : ℤ) := by decide
  obtain ⟨stars', h, hl, _⟩ :=
    C13_update_star_positions (fun _ => 0) (fun _ _ _ _ _ => (1, 2)) tie_example 2 0 0 0 h2
  exact ⟨h2, stars', h, hl⟩

theorem render_star_calls (f : coord_functions) (special_symbols : List (Option (List Char)))
    (no_unicode : Bool) (threshold : ℚ) (maxy maxx : ℤ) (s : star) (calls : List draw_call)
    (h : render_star f special_symbols no_unicode threshold maxy maxx s = some calls) :
    (calls ≠ [] ↔ s.magnitude ≤ threshold ∧ |radius_polar f s| ≤ 1) ∧
    (threshold < s.magnitude → calls = []) ∧ (1 < |radius_polar f s| → calls = []) := by
  unfold render_star at h
  unfold radius_polar
  by_cases hm : s.magnitude > threshold
  · rw [if_pos hm] at h
    injection h with h
    subst h
    refine ⟨?_, fun _ => rfl, fun _ => rfl⟩
    constructor
    · intro hne; exact absurd rfl hne
    · rintro ⟨hle, _⟩; exact absurd hm (not_lt.mpr hle)
  · rw [if_neg hm] at h
    simp only at h
    by_cases hr : |(f.project_stereographic_north 1
        (f.horizontal_to_spherical s.base.azimuth s.base.altitude).1
        (f.horizontal_to_spherical s.base.azimuth s.base.altitude).2).1| > 1
    · rw [if_pos hr] at h
      injection h with h
      subst h
      refine ⟨?_, fun _ => rfl, fun _ => rfl⟩
      constructor
      · intro hne; exact absurd rfl hne
      · rintro ⟨_, hle⟩; exact absurd hr (not_lt.mpr hle)
    · rw [if_neg hr] at h
      have hne : calls ≠ [] := by
        split at h
        · injection h with h; subst h; simp
        · injection h with h; subst h; simp
        · exact absurd h (by simp)
      refine ⟨⟨fun _ => ⟨not_lt.mp hm, not_lt.mp hr⟩, fun _ => hne⟩, ?_, ?_⟩
      · intro h'; exact absurd h' hm
      · intro h'; exact absurd h' hr

theorem render_stereo_loop_spec (f : coord_functions) (stars : List star)
    (special_symbols : List (Option (List Char))) (no_unicode : Bool) (threshold : ℚ)
    (maxy maxx : ℤ) (remaining : ℕ) :
    ∀ (i : ℕ) (per : List (List draw_call)),
      render_stereo_loop f stars special_symbols no_unicode threshold maxy maxx remaining i =
        some per →
      per.length = remaining ∧
      ∀ j, j < remaining → ∃ s calls, stars[i + j]? = some s ∧ per[j]? = some calls ∧
        render_star f special_symbols no_unicode threshold maxy maxx s = some calls := by
  induction remaining with
  | zero =>
    intro i per h
    simp only [render_stereo_loop] at h
    injection h with h
    subst h
    exact ⟨rfl, fun j hj => absurd hj (Nat.not_lt_zero j)⟩
  | succ remaining ih =>
    intro i per h
    simp only [render_stereo_loop] at h
    split at h
    · exact absurd h (by simp)
    · rename_i s hs
      split at h
      · exact absurd h (by simp)
      · rename_i calls hcalls
        split at h
        · exact absurd h (by simp)
        · rename_i rest hrest
          injection h with h
          subst h
          obtain ⟨hlen, hall⟩ := ih (i + 1) rest hrest
          refine ⟨by simp [hlen], ?_⟩
          intro j hj
          cases j with
          | zero => exact ⟨s, calls, hs, by simp, hcalls⟩
          | succ j =>
            obtain ⟨s', calls', h1, h2, h3⟩ := hall j (by omega)
            have hidx : i + (j + 1) = i + 1 + j := by omega
            exact ⟨s', calls', by rw [hidx]; exact h1, by simpa using h2, h3⟩

theorem render_star_at_threshold :
    render_star coord_centre [none] true 3 0 0 (star_with 0 3) = some [⟨0, 0, ['o']⟩] := by
  have hidx : map_float_to_int_range min_magnitude max_magnitude 0 9 (star_with 0 3).magnitude
      = 4 := symbol_index_three
  have hm : ¬ ((star_with 0 3).magnitude > 3) := by
    simp [star_with]
  have hr : ¬ (|(coord_centre.project_stereographic_north 1
      (coord_centre.horizontal_to_spherical (star_with 0 3).base.azimuth
        (star_with 0 3).base.altitude).1
      (coord_centre.horizontal_to_spherical (star_with 0 3).base.azimuth
        (star_with 0 3).base.altitude).2).1| > 1) := by
    simp [coord_centre]
  have ha : (array_read mag_map_round_ASCII 4).map (fun c => [c]) = some ['o'] := by
    simp [array_read, mag_map_round_ASCII]
  have hs : array_read ([none] : List (Option (List Char))) (star_with 0 3).catalog_number
      = some none := by
    simp [array_read, star_with]
  unfold render_star
  rw [if_neg hm]
  simp only
  rw [if_neg hr, hidx]
  simp only [if_true, ha, hs]
  rfl

/-- C14, as stated, fails: a star whose magnitude equals the threshold (3.0 and
3.0) and whose projection is inside the unit disc is drawn, although its
magnitude is not strictly smaller than the threshold. -/
theorem C14_counterexample :
    render_star coord_centre [none] true 3 0 0 (star_with 0 3) = some [⟨0, 0, ['o']⟩] ∧
    ¬ (∀ (f : coord_functions) (special_symbols : List (Option (List Char)))
        (no_unicode : Bool) (threshold : ℚ) (maxy maxx : ℤ) (s : star)
        (calls : List draw_call),
        render_star f special_symbols no_unicode threshold maxy maxx s = some calls →
        calls ≠ [] → s.magnitude < threshold ∧ |radius_polar f s| ≤ 1) := by
  refine ⟨render_star_at_threshold, ?_⟩
  intro h
  have := (h _ _ _ _ _ _ _ _ render_star_at_threshold (by simp)).1
  simp [star_with] at this

/-- C14, amended: `render_stereo` draws a star only if the star is at least as
bright as the threshold (its magnitude is smaller than or equal to the
threshold) and its projected polar radius satisfies `|radius_polar| <= 1`, and it
does draw every such star; every star whose magnitude exceeds the threshold and
every star whose stereographic projection has `|radius_polar| > 1` (below the
horizon) produces no draw call. -/
theorem C14_render_stereo_draws (f : coord_functions) (stars : List star) (num_stars : ℤ)
    (special_symbols : List (Option (List Char))) (no_unicode : Bool) (threshold : ℚ)
    (maxy maxx : ℤ) (per : List (List draw_call))
    (h : render_stereo f stars num_stars special_symbols no_unicode threshold maxy maxx =
      some per)
    (i : ℕ) (hi : (i : ℤ) < num_stars) :
    ∃ s calls, stars[i]? = some s ∧ per[i]? = some calls ∧
      (calls ≠ [] ↔ s.magnitude ≤ threshold ∧ |radius_polar f s| ≤ 1) ∧
      (threshold < s.magnitude → calls = []) ∧
      (1 < |radius_polar f s| → calls = []) := by
  obtain ⟨s, calls, hs, hc, hr⟩ :=
    (render_stereo_loop_spec f stars special_symbols no_unicode threshold maxy maxx
      num_stars.toNat 0 per h).2 i (by omega)
  rw [Nat.zero_add] at hs
  exact ⟨s, calls, hs, hc,
    render_star_calls f special_symbols no_unicode threshold maxy maxx s calls hr⟩

theorem render_stereo_at_threshold :
    render_stereo coord_centre [star_with 0 3] 1 [none] true 3 0 0 =
      some [[⟨0, 0, ['o']⟩]] := by
  unfold render_stereo
  have h1 : (1 : ℤ).toNat = 1 := rfl
  rw [h1]
  simp only [render_stereo_loop, List.getElem?_cons_zero, render_star_at_threshold]

/-- Witness for C14: one star at the threshold magnitude, projected to the
centre. -/
theorem C14_render_stereo_draws_witness :
    render_stereo coord_centre [star_with 0 3] 1 [none] true 3 0 0 =
      some [[⟨0, 0, ['o']⟩]] ∧ ((0 : ℕ) : ℤ) < 1 ∧
    ∃ s calls, [star_with 0 3][0]? = some s ∧
      ([[⟨0, 0, ['o']⟩]] : List (List draw_call))[0]? = some calls ∧
      (calls ≠ [] ↔ s.magnitude ≤ 3 ∧ |radius_polar coord_centre s| ≤ 1) ∧
      ((3 : ℚ) < s.magnitude → calls = []) ∧
      (1 < |radius_polar coord_centre s| → calls = []) :=
  ⟨render_stereo_at_threshold, by norm_num,
   C14_render_stereo_draws coord_centre [star_with 0 3] 1 [none] true 3 0 0 _
     render_stereo_at_threshold 0 (by norm_num)⟩

/-! ## The planet table (claim C15) -/

theorem planet_of_index_refs (E : planet_enum) (uninit : planet) (i : ℕ) :
    (planet_of_index E uninit i).elements = i ∧ (planet_of_index E uninit i).rates = i ∧
    (planet_of_index E uninit i).extras =
      if E.JUPITER ≤ i ∧ i ≤ E.NEPTUNE then some i else none := by
  unfold planet_of_index
  simp only
  split_ifs <;> exact ⟨rfl, rfl, rfl⟩

/-- C15: for every planet index `i < NUM_PLANETS`, `generate_planet_table` makes
planet `i` refer to the rows `planet_elements[i]` and `planet_rates[i]` of the
shared tables (by reference: the row index, not a copy), and gives it an extras
reference, to `planet_extras[i]`, exactly when `JUPITER <= i <= NEPTUNE`; every
other body has extras absent (`NULL`). -/
theorem C15_planet_references (E : planet_enum) (uninit : ℕ → planet) (i : ℕ)
    (hi : i < E.NUM_PLANETS) :
    (generate_planet_table E uninit).length = E.NUM_PLANETS ∧
    ∃ p, (generate_planet_table E uninit)[i]? = some p ∧
      p.elements = i ∧ p.rates = i ∧
      (E.JUPITER ≤ i ∧ i ≤ E.NEPTUNE → p.extras = some i) ∧
      (¬ (E.JUPITER ≤ i ∧ i ≤ E.NEPTUNE) → p.extras = none) ∧
      (p.extras ≠ none ↔ E.JUPITER ≤ i ∧ i ≤ E.NEPTUNE) := by
  unfold generate_planet_table
  refine ⟨by simp, planet_of_index E (uninit i) i, ?_, ?_⟩
  · simp [hi]
  · obtain ⟨h1, h2, h3⟩ := planet_of_index_refs E (uninit i) i
    refine ⟨h1, h2, ?_, ?_, ?_⟩
    · intro h; rw [h3, if_pos h]
    · intro h; rw [h3, if_neg h]
    · rw [h3]
      split_ifs with h
      · simp [h]
      · simp [h]

/-- Witness for C15: Jupiter, index 5 of the enumeration Sun, Mercury, ...,
Neptune. -/
theorem C15_planet_references_witness :
    5 < planet_indices.NUM_PLANETS ∧
    (generate_planet_table planet_indices (fun _ =>
      { base := { y := 0, x := 0, azimuth := 0, altitude := 0, color_pair := 0,
                  symbol_ASCII := '.', symbol_unicode := none, label := none },
        right_ascension := 0, declination := 0, elements := 0, rates := 0,
        extras := none, magnitude := 0 })).length = planet_indices.NUM_PLANETS :=
  ⟨by decide, (C15_planet_references planet_indices _ 5 (by decide)).1⟩

/-! ## Lines and fields (claims C18, C19) -/

theorem strtok_single (d : Char) (s : List Char) :
    strtok s [d] =
      match s.dropWhile (fun c => c == d) with
      | [] => none
      | c :: cs =>
        some ((c :: cs).takeWhile (fun x => x != d),
              ((c :: cs).dropWhile (fun x => x != d)).drop 1) := by
  have h1 : (fun c => ([d] : List Char).contains c) = (fun c => c == d) := by
    funext c
    by_cases h : c = d <;> simp [List.contains, h]
  have h2 : (fun x => !([d] : List Char).contains x) = (fun x => x != d) := by
    funext x
    by_cases h : x = d <;> simp [List.contains, bne, h]
  unfold strtok
  rw [h1, h2]

theorem fields_nil (d : Char) : fields d [] = [[]] := by
  simp [fields, List.splitOn]

theorem fields_cons (d c : Char) (cs : List Char) :
    fields d (c :: cs) =
      if c = d then [] :: fields d cs else (fields d cs).modifyHead (List.cons c) := by
  unfold fields List.splitOn
  rw [List.splitOnP_cons]
  simp

theorem fields_ne_nil (d : Char) (s : List Char) : fields d s ≠ [] := by
  unfold fields List.splitOn
  exact List.splitOnP_ne_nil _ _

theorem fields_eq (d : Char) (s : List Char) :
    fields d s = s.takeWhile (fun x => x != d) ::
      (match s.dropWhile (fun x => x != d) with
       | [] => []
       | _ :: rest => fields d rest) := by
  induction s with
  | nil => simp [fields_nil]
  | cons c cs ih =>
    rw [fields_cons]
    by_cases hc : c = d
    · subst hc
      simp
    · rw [if_neg hc, ih]
      simp [hc]

theorem nonempty_fields_nil (d : Char) : nonempty_fields d [] = [] := by
  simp [nonempty_fields, fields_nil]

theorem nonempty_fields_dropWhile (d : Char) (s : List Char) :
    nonempty_fields d (s.dropWhile (fun c => c == d)) = nonempty_fields d s := by
  induction s with
  | nil => rfl
  | cons c cs ih =>
    by_cases hc : c = d
    · subst hc
      simp only [List.dropWhile_cons, beq_self_eq_true, if_true, ih]
      simp [nonempty_fields, fields_cons]
    · simp [List.dropWhile_cons, hc]

theorem nonempty_fields_strtok (d : Char) (s : List Char) :
    nonempty_fields d s =
      match strtok s [d] with
      | none => []
      | some (token, saved) => token :: nonempty_fields d saved := by
  rw [strtok_single, ← nonempty_fields_dropWhile d s]
  cases hs : s.dropWhile (fun c => c == d) with
  | nil => exact nonempty_fields_nil d
  | cons c cs =>
    have hc : c ≠ d := by
      have := List.head_dropWhile_not (fun c => c == d) s (by rw [hs]; simp)
      simp only [hs, List.head_cons] at this
      simpa using this
    simp only
    have hf := fields_eq d (c :: cs)
    have htw : (c :: cs).takeWhile (fun x => x != d) =
        c :: cs.takeWhile (fun x => x != d) := by
      simp [List.takeWhile_cons, hc]
    simp only [nonempty_fields]
    rw [hf, htw]
    simp only [List.filter_cons, List.isEmpty_cons, Bool.not_false, if_true]
    congr 1
    cases hdw : (c :: cs).dropWhile (fun x => x != d) with
    | nil => simp [fields_nil]
    | cons x rest => simp

theorem strtok_saved_length (d : Char) (s token saved : List Char)
    (h : strtok s [d] = some (token, saved)) : saved.length < s.length := by
  rw [strtok_single] at h
  have hle : (s.dropWhile (fun c => c == d)).length ≤ s.length :=
    (List.dropWhile_sublist _).length_le
  cases hs : s.dropWhile (fun c => c == d) with
  | nil => rw [hs] at h; exact absurd h (by simp)
  | cons c cs =>
    rw [hs] at h hle
    simp only [Option.some.injEq, Prod.mk.injEq] at h
    obtain ⟨_, rfl⟩ := h
    have h2 : ((c :: cs).dropWhile (fun x => x != d)).length ≤ (c :: cs).length :=
      (List.dropWhile_sublist _).length_le
    simp only [List.length_drop, List.length_cons] at h2 hle ⊢
    omega

theorem split_lines_loop_eq (fuel : ℕ) :
    ∀ (saved : List Char) (lines : List (List Char)), saved.length < fuel →
      split_lines_loop fuel saved lines = lines ++ nonempty_fields '\n' saved := by
  induction fuel with
  | zero => intro saved lines h; omega
  | succ fuel ih =>
    intro saved lines h
    rw [nonempty_fields_strtok]
    simp only [split_lines_loop]
    cases hs : strtok saved ['\n'] with
    | none => simp
    | some p =>
      obtain ⟨token, saved'⟩ := p
      have hlt := strtok_saved_length '\n' saved token saved' hs
      simp only
      rw [ih saved' _ (by omega)]
      simp

theorem split_lines_eq (data : List Char) :
    split_lines data =
      (if nonempty_fields '\n' data = [] then none else some (nonempty_fields '\n' data),
       (nonempty_fields '\n' data).length) := by
  unfold split_lines
  simp only [split_lines_loop_eq (data.length + 1) data [] (Nat.lt_succ_self _),
    List.nil_append]

theorem fields_no_separator (d : Char) (s : List Char) :
    ∀ f ∈ fields d s, d ∉ f := by
  induction s with
  | nil =>
    intro f hf
    rw [fields_nil] at hf
    simp only [List.mem_singleton] at hf
    subst hf
    exact List.not_mem_nil d
  | cons c cs ih =>
    intro f hf
    rw [fields_cons] at hf
    by_cases hc : c = d
    · rw [if_pos hc, List.mem_cons] at hf
      rcases hf with rfl | hf
      · exact List.not_mem_nil d
      · exact ih f hf
    · rw [if_neg hc] at hf
      cases hfs : fields d cs with
      | nil => exact absurd hfs (fields_ne_nil d cs)
      | cons g gs =>
        rw [hfs] at hf ih
        simp only [List.modifyHead_cons, List.mem_cons] at hf
        rcases hf with rfl | hf
        · intro hmem
          rcases List.mem_cons.mp hmem with h | h
          · exact hc h.symm
          · exact ih g (List.mem_cons_self g gs) h
        · exact ih f (List.mem_cons_of_mem g hf)

theorem fields_flatten (d : Char) (s : List Char) :
    (fields d s).flatten = s.filter (fun c => c != d) := by
  induction s with
  | nil => simp [fields_nil]
  | cons c cs ih =>
    rw [fields_cons]
    by_cases hc : c = d
    · rw [if_pos hc]
      simp [ih, hc]
    · rw [if_neg hc]
      cases hfs : fields d cs with
      | nil => exact absurd hfs (fields_ne_nil d cs)
      | cons g gs =>
        rw [hfs] at ih
        simp only [List.modifyHead_cons, List.flatten_cons, List.cons_append] at ih ⊢
        rw [ih]
        simp [hc]

theorem nonempty_fields_mem (d : Char) (s : List Char) :
    ∀ l ∈ nonempty_fields d s, l ≠ [] ∧ d ∉ l := by
  intro l hl
  unfold nonempty_fields at hl
  rw [List.mem_filter] at hl
  refine ⟨?_, fields_no_separator d s l hl.1⟩
  intro h
  rw [h] at hl
  simp at hl

theorem nonempty_fields_eq_fields (d : Char) (s : List Char)
    (h : ∀ f ∈ fields d s, f ≠ []) : nonempty_fields d s = fields d s := by
  unfold nonempty_fields
  rw [List.filter_eq_self]
  intro f hf
  have := h f hf
  cases f with
  | nil => exact absurd rfl this
  | cons _ _ => rfl

/-- C19: for every NUL-terminated buffer, `split_lines` returns, in buffer order,
exactly the maximal non-empty runs of non-newline characters of the buffer (the
pieces between newlines that are not empty; a `NULL` array when there is none)
and stores their number in `*line_count_out`; no returned line is empty or
contains a newline, the lines concatenated are the buffer without its newlines,
and joining the returned lines with single newlines reproduces the buffer
whenever the buffer has no empty line and no leading or trailing newline (no
empty piece between newlines). -/
theorem C19_split_lines (data : List Char) :
    split_lines data =
      (if nonempty_fields '\n' data = [] then none else some (nonempty_fields '\n' data),
       (nonempty_fields '\n' data).length) ∧
    (∀ l ∈ nonempty_fields '\n' data, l ≠ [] ∧ '\n' ∉ l) ∧
    (nonempty_fields '\n' data).flatten = data.filter (fun c => c != '\n') ∧
    ((∀ f ∈ fields '\n' data, f ≠ []) →
      ['\n'].intercalate (nonempty_fields '\n' data) = data) := by
  refine ⟨split_lines_eq data, nonempty_fields_mem '\n' data, ?_, ?_⟩
  · unfold nonempty_fields
    rw [List.flatten_filter_not_isEmpty, fields_flatten]
  · intro h
    rw [nonempty_fields_eq_fields '\n' data h]
    exact List.intercalate_splitOn _ _

/-- Witness for C19: the buffer `ab` newline `c` has no empty line. -/
theorem C19_split_lines_witness :
    (∀ f ∈ fields '\n' "ab\nc".toList, f ≠ []) ∧
    ['\n'].intercalate (nonempty_fields '\n' "ab\nc".toList) = "ab\nc".toList :=
  ⟨by decide, (C19_split_lines "ab\nc".toList).2.2.2 (by decide)⟩

theorem rdropWhile_append_rtakeWhile (p : Char → Bool) (l : List Char) :
    l.rdropWhile p ++ l.rtakeWhile p = l := by
  unfold List.rdropWhile List.rtakeWhile
  rw [← List.reverse_append, List.takeWhile_append_dropWhile, List.reverse_reverse]

theorem c_tolower_spec (c : Char) :
    ('A' ≤ c ∧ c ≤ 'Z' → c_tolower c = Char.ofNat (c.toNat + 32)) ∧
    (¬ ('A' ≤ c ∧ c ≤ 'Z') → c_tolower c = c) := by
  unfold c_tolower
  constructor
  · intro h; rw [if_pos h]
  · intro h; rw [if_neg h]

/-- C18: for every string `s`, `normalize_city_name(s)` is `s` with all leading
and all trailing white space removed (`s = pre ++ mid ++ post` with `pre` and
`post` white space and `mid` neither starting nor ending with white space) and
every upper-case letter of `mid` replaced by its lower-case letter, all other
characters, interior spaces included, kept in order; for `NULL` it returns
`NULL`. -/
theorem C18_normalize_city_name (s : List Char) :
    normalize_city_name none = none ∧
    ∃ pre mid post, s = pre ++ mid ++ post ∧
      (∀ c ∈ pre, c_isspace c = true) ∧ (∀ c ∈ post, c_isspace c = true) ∧
      (∀ c, mid.head? = some c → c_isspace c = false) ∧
      (∀ c, mid.getLast? = some c → c_isspace c = false) ∧
      normalize_city_name (some s) = some (mid.map c_tolower) ∧
      (∀ c, ('A' ≤ c ∧ c ≤ 'Z' → c_tolower c = Char.ofNat (c.toNat + 32)) ∧
        (¬ ('A' ≤ c ∧ c ≤ 'Z') → c_tolower c = c)) := by
  refine ⟨rfl, s.takeWhile c_isspace, (s.dropWhile c_isspace).rdropWhile c_isspace,
    (s.dropWhile c_isspace).rtakeWhile c_isspace, ?_, ?_, ?_, ?_, ?_, ?_, c_tolower_spec⟩
  · rw [List.append_assoc, rdropWhile_append_rtakeWhile, List.takeWhile_append_dropWhile]
  · intro c hc
    exact List.mem_takeWhile_imp hc
  · intro c hc
    exact List.mem_rtakeWhile_imp hc
  · intro c hc
    have hpre : (s.dropWhile c_isspace).rdropWhile c_isspace <+: s.dropWhile c_isspace :=
      List.rdropWhile_prefix _ _
    have hhead : (s.dropWhile c_isspace).head? = some c := by
      obtain ⟨t, ht⟩ := hpre
      cases hmid : (s.dropWhile c_isspace).rdropWhile c_isspace with
      | nil => rw [hmid] at hc; simp at hc
      | cons x xs =>
        rw [hmid] at hc ht
        simp only [List.head?_cons, Option.some.injEq] at hc
        rw [← ht, hc]
        rfl
    have := List.head?_dropWhile_not c_isspace s
    rw [hhead] at this
    simpa using this
  · intro c hc
    have hne : (s.dropWhile c_isspace).rdropWhile c_isspace ≠ [] := by
      intro h
      rw [h] at hc
      simp at hc
    have := List.rdropWhile_last_not c_isspace (s.dropWhile c_isspace) hne
    rw [List.getLast?_eq_getLast _ hne] at hc
    injection hc with hc
    rw [hc] at this
    simpa using this
  · rfl

/-! ## City lookup (claims C16, C17, C20) -/

theorem upper_char_cases (c : Char) (h : 'A' ≤ c ∧ c ≤ 'Z') :
    ∃ n, 65 ≤ n ∧ n ≤ 90 ∧ c = Char.ofNat n := by
  refine ⟨c.toNat, ?_, ?_, (Char.ofNat_toNat c).symm⟩
  · have := h.1
    rw [Char.le_def] at this
    exact this
  · have := h.2
    rw [Char.le_def] at this
    exact this

theorem c_tolower_facts (c : Char) :
    c_isspace (c_tolower c) = c_isspace c ∧ c_tolower (c_tolower c) = c_tolower c := by
  by_cases h : 'A' ≤ c ∧ c ≤ 'Z'
  · obtain ⟨n, h1, h2, rfl⟩ := upper_char_cases c h
    interval_cases n <;> exact ⟨by decide, by decide⟩
  · have : c_tolower c = c := (c_tolower_spec c).2 h
    rw [this]
    exact ⟨rfl, this⟩

theorem strcmp_eq_zero_iff (a b : List Char) : strcmp a b = 0 ↔ a = b := by
  unfold strcmp
  split_ifs with h1 h2
  · constructor
    · intro h; exact absurd h (by decide)
    · intro h; exact absurd h1 (by rw [h]; exact lt_irrefl _)
  · simp [h2]
  · simp [h2]

theorem strcmp_pos_iff (a b : List Char) : 0 < strcmp a b ↔ b < a := by
  unfold strcmp
  split_ifs with h1 h2
  · constructor
    · intro h; exact absurd h (by decide)
    · intro h; exact absurd h1 (not_lt.mpr (le_of_lt h))
  · constructor
    · intro h; exact absurd h (by decide)
    · intro h; rw [h2] at h; exact absurd h (lt_irrefl _)
  · constructor
    · intro _; exact lt_of_le_of_ne (not_lt.mp h1) (Ne.symm h2)
    · intro _; decide

theorem strcmp_nonneg_iff (a b : List Char) : 0 ≤ strcmp a b ↔ b ≤ a := by
  unfold strcmp
  split_ifs with h1 h2
  · constructor
    · intro h; exact absurd h (by decide)
    · intro h; exact absurd h1 (not_lt.mpr h)
  · constructor
    · intro _; exact le_of_eq h2.symm
    · intro _; decide
  · constructor
    · intro _; exact not_lt.mp h1
    · intro _; decide

theorem normalize_city_name_some (s : List Char) :
    normalize_city_name (some s) = some (normalised_string s) := rfl

theorem dropWhile_eq_self_of_head (p : Char → Bool) (l : List Char)
    (h : ∀ c, l.head? = some c → p c = false) : l.dropWhile p = l := by
  cases l with
  | nil => rfl
  | cons c cs =>
    have := h c rfl
    simp [List.dropWhile_cons, this]

theorem trimmed_head (s : List Char) :
    ∀ c, ((s.dropWhile c_isspace).rdropWhile c_isspace).head? = some c →
      c_isspace c = false := by
  intro c hc
  have hpre : (s.dropWhile c_isspace).rdropWhile c_isspace <+: s.dropWhile c_isspace :=
    List.rdropWhile_prefix _ _
  have hhead : (s.dropWhile c_isspace).head? = some c := by
    obtain ⟨t, ht⟩ := hpre
    cases hmid : (s.dropWhile c_isspace).rdropWhile c_isspace with
    | nil => rw [hmid] at hc; simp at hc
    | cons x xs =>
      rw [hmid] at hc ht
      simp only [List.head?_cons, Option.some.injEq] at hc
      rw [← ht, hc]
      rfl
  have := List.head?_dropWhile_not c_isspace s
  rw [hhead] at this
  simpa using this

theorem isspace_comp_tolower : (c_isspace ∘ c_tolower) = c_isspace := by
  funext c
  exact (c_tolower_facts c).1

theorem normalised_string_idem (s : List Char) :
    normalised_string (normalised_string s) = normalised_string s := by
  have hform : normalised_string s =
      ((s.dropWhile c_isspace).rdropWhile c_isspace).map c_tolower := rfl
  generalize ht : (s.dropWhile c_isspace).rdropWhile c_isspace = t at hform
  have hhead : ∀ c, t.head? = some c → c_isspace c = false := by
    rw [← ht]; exact trimmed_head s
  have hlast : t.rdropWhile c_isspace = t := by
    rw [← ht]; exact List.rdropWhile_idempotent _ _
  rw [hform]
  have h1 : (t.map c_tolower).dropWhile c_isspace = t.map c_tolower := by
    rw [List.dropWhile_map, isspace_comp_tolower, dropWhile_eq_self_of_head _ _ hhead]
  have h2 : ((t.map c_tolower).reverse.dropWhile c_isspace).reverse = t.map c_tolower := by
    rw [← List.map_reverse, List.dropWhile_map, isspace_comp_tolower, ← List.map_reverse]
    have : (t.reverse.dropWhile c_isspace).reverse = t := hlast
    rw [this]
  show (((t.map c_tolower).dropWhile c_isspace).reverse.dropWhile c_isspace).reverse.map
      c_tolower = t.map c_tolower
  rw [h1, h2, List.map_map]
  apply List.map_congr_left
  intro c _
  exact (c_tolower_facts c).2

theorem compare_city_eq (key line token : List Char) (rest : List (List Char))
    (hlen : line.length < MAX_LINE_LENGTH)
    (htok : nonempty_fields ',' line = token :: rest) :
    compare_city key line = strcmp (normalised_string key) (normalised_string token) := by
  unfold compare_city
  have htake : line.take (MAX_LINE_LENGTH - 1) = line :=
    List.take_of_length_le (by omega)
  rw [htake]
  have := nonempty_fields_strtok ',' line
  rw [htok] at this
  cases hs : strtok line [','] with
  | none => rw [hs] at this; exact absurd this (by simp)
  | some p =>
    obtain ⟨t, sv⟩ := p
    rw [hs] at this
    simp only [List.cons.injEq] at this
    simp only [normalize_city_name_some, this.1, hs]

theorem strtok_next_fields (d : Char) (s : List Char) :
    (strtok_next s [d]).1 = (nonempty_fields d s).head? ∧
    nonempty_fields d (strtok_next s [d]).2 = (nonempty_fields d s).tail := by
  rw [nonempty_fields_strtok d s]
  unfold strtok_next
  cases strtok s [d] with
  | none => exact ⟨rfl, nonempty_fields_nil d⟩
  | some p => exact ⟨rfl, rfl⟩

theorem parse_city_line_eq (atof : List Char → ℚ) (line : List Char) :
    parse_city_line atof line = city_of_line atof line := by
  unfold parse_city_line city_of_line
  simp only
  obtain ⟨a1, b1⟩ := strtok_next_fields ',' line
  generalize strtok_next line [','] = r1 at a1 b1
  obtain ⟨a2, b2⟩ := strtok_next_fields ',' r1.2
  generalize strtok_next r1.2 [','] = r2 at a2 b2
  obtain ⟨a3, b3⟩ := strtok_next_fields ',' r2.2
  generalize strtok_next r2.2 [','] = r3 at a3 b3
  obtain ⟨a4, b4⟩ := strtok_next_fields ',' r3.2
  generalize strtok_next r3.2 [','] = r4 at a4 b4
  obtain ⟨a5, b5⟩ := strtok_next_fields ',' r4.2
  generalize strtok_next r4.2 [','] = r5 at a5 b5
  obtain ⟨a6, b6⟩ := strtok_next_fields ',' r5.2
  generalize strtok_next r5.2 [','] = r6 at a6 b6
  rw [a1, a5, a6, b5, b4, b3, b2, b1]
  generalize nonempty_fields ',' line = T
  rcases T with _ | ⟨t0, _ | ⟨t1, _ | ⟨t2, _ | ⟨t3, _ | ⟨t4, _ | ⟨t5, T⟩⟩⟩⟩⟩⟩ <;> rfl

theorem get_city_eq (atof : List Char → ℚ) (cities name : List Char) :
    get_city atof cities (some name) =
      if cities.length = 0 then none
      else if city_lines cities = [] then none
      else
        match bsearch_binary compare_city (normalised_string name) (city_lines cities) with
        | none => none
        | some result =>
          match (city_lines cities)[result]? with
          | none => none
          | some matched_line => city_of_line atof matched_line := by
  unfold get_city
  simp only [normalize_city_name_some, split_lines_eq]
  by_cases hc : cities.length = 0
  · rw [if_pos hc, if_pos hc]
  · rw [if_neg hc, if_neg hc]
    unfold city_lines
    by_cases hl : nonempty_fields '\n' (c_str cities) = []
    · rw [if_pos hl, if_pos hl]
    · rw [if_neg hl, if_neg hl]
      simp only [List.take_length]
      cases bsearch_binary compare_city (normalised_string name)
          (nonempty_fields '\n' (c_str cities)) with
      | none => rfl
      | some i =>
        simp only
        cases (nonempty_fields '\n' (c_str cities))[i]? with
        | none => rfl
        | some l => exact parse_city_line_eq atof l

theorem normalised_name_eq (line token : List Char) (rest : List (List Char))
    (htok : nonempty_fields ',' line = token :: rest) :
    normalised_name line = some (normalised_string token) := by
  unfold normalised_name
  rw [htok]
  rfl

theorem compare_city_zero_iff (name line : List Char) (hlen : line.length < MAX_LINE_LENGTH)
    (hne : nonempty_fields ',' line ≠ []) :
    compare_city (normalised_string name) line = 0 ↔
      normalised_name line = normalize_city_name (some name) := by
  cases htok : nonempty_fields ',' line with
  | nil => exact absurd htok hne
  | cons token rest =>
    rw [compare_city_eq _ line token rest hlen htok, normalised_name_eq line token rest htok,
      normalised_string_idem, strcmp_eq_zero_iff, normalize_city_name_some]
    constructor
    · intro h; rw [h]
    · intro h; injection h with h; exact h.symm

theorem sorted_bsearch_ordered (name : List Char) (lines : List (List Char))
    (h₁ : ∀ l ∈ lines, l.length < MAX_LINE_LENGTH)
    (h₂ : ∀ l ∈ lines, nonempty_fields ',' l ≠ [])
    (h₃ : sorted_by_name lines) :
    bsearch_ordered compare_city (normalised_string name) lines := by
  unfold bsearch_ordered
  unfold sorted_by_name at h₃
  refine List.Pairwise.imp_of_mem ?_ h₃
  intro a b ha hb hab
  cases hta : nonempty_fields ',' a with
  | nil => exact absurd hta (h₂ a ha)
  | cons ta ra =>
    cases htb : nonempty_fields ',' b with
    | nil => exact absurd htb (h₂ b hb)
    | cons tb rb =>
      have hle := hab _ _ (normalised_name_eq a ta ra hta) (normalised_name_eq b tb rb htb)
      rw [compare_city_eq _ a ta ra (h₁ a ha) hta, compare_city_eq _ b tb rb (h₁ b hb) htb,
        normalised_string_idem]
      constructor
      · rw [strcmp_pos_iff, strcmp_pos_iff]
        intro h
        exact lt_of_le_of_lt hle h
      · rw [strcmp_eq_zero_iff, strcmp_nonneg_iff]
        intro h
        rw [h]
        exact hle

theorem city_of_line_eq_none_iff (atof : List Char → ℚ) (line : List Char) :
    city_of_line atof line = none ↔ (nonempty_fields ',' line).length < 6 := by
  unfold city_of_line
  generalize nonempty_fields ',' line = T
  rcases T with _ | ⟨t0, _ | ⟨t1, _ | ⟨t2, _ | ⟨t3, _ | ⟨t4, _ | ⟨t5, T⟩⟩⟩⟩⟩⟩ <;> simp

theorem get_city_found (atof : List Char → ℚ) (cities name : List Char) (city : CityData)
    (h : get_city atof cities (some name) = some city) :
    ∃ i l, bsearch_binary compare_city (normalised_string name) (city_lines cities) = some i ∧
      (city_lines cities)[i]? = some l ∧ city_of_line atof l = some city := by
  rw [get_city_eq] at h
  split_ifs at h
  cases hb : bsearch_binary compare_city (normalised_string name) (city_lines cities) with
  | none => rw [hb] at h; exact absurd h (by simp)
  | some i =>
    rw [hb] at h
    simp only at h
    cases hl : (city_lines cities)[i]? with
    | none => rw [hl] at h; exact absurd h (by simp)
    | some l =>
      rw [hl] at h
      exact ⟨i, l, rfl, hl, h⟩

theorem nonempty_fields_of_fields (d : Char) (l f₀ f₁ f₂ f₃ f₄ f₅ : List Char)
    (rest : List (List Char))
    (hf : fields d l = f₀ :: f₁ :: f₂ :: f₃ :: f₄ :: f₅ :: rest)
    (h₀ : f₀ ≠ []) (h₁ : f₁ ≠ []) (h₂ : f₂ ≠ []) (h₃ : f₃ ≠ []) (h₄ : f₄ ≠ [])
    (h₅ : f₅ ≠ []) :
    nonempty_fields d l =
      f₀ :: f₁ :: f₂ :: f₃ :: f₄ :: f₅ :: rest.filter (fun f => !f.isEmpty) := by
  unfold nonempty_fields
  rw [hf]
  simp [List.filter_cons, List.isEmpty_iff, h₀, h₁, h₂, h₃, h₄, h₅]

theorem foldl_filterMap_calls {σ α β : Type} (g : α → Option β) (callback : β → σ → σ)
    (step : σ → α → σ)
    (hsome : ∀ user_data line city_data, g line = some city_data →
      step user_data line = callback city_data user_data)
    (hnone : ∀ user_data line, g line = none → step user_data line = user_data)
    (lines : List α) (user_data : σ) :
    lines.foldl step user_data =
      (lines.filterMap g).foldl (fun user_data city_data => callback city_data user_data)
        user_data := by
  induction lines generalizing user_data with
  | nil => rfl
  | cons l ls ih =>
    rw [List.foldl_cons, ih, List.filterMap_cons]
    cases hg : g l with
    | none => rw [hnone _ _ hg]
    | some c => rw [hsome _ _ _ hg]; rfl

theorem iter_cities_eq {σ : Type} (atof : List Char → ℚ) (cities : List Char)
    (callback : CityData → σ → σ) (user_data : σ) :
    iter_cities atof cities (some callback) user_data =
      (((city_lines cities).drop 1).filterMap (city_of_line atof)).foldl
        (fun user_data city_data => callback city_data user_data) user_data := by
  unfold iter_cities city_lines
  simp only [split_lines_eq]
  by_cases hl : nonempty_fields '\n' (c_str cities) = []
  · rw [if_pos hl, hl]
    rfl
  · rw [if_neg hl]
    simp only [List.take_length]
    have : parse_city_line atof = city_of_line atof := funext (parse_city_line_eq atof)
    rw [← this]
    refine foldl_filterMap_calls (parse_city_line atof) callback _ ?_ ?_ _ user_data
    · intro ud line c hc
      simp only [hc]
    · intro ud line hc
      simp only [hc]

theorem bsearch_loop_sound (compar : List Char → List Char → ℤ) (key : List Char)
    (base : List (List Char)) (fuel : ℕ) :
    ∀ (l u i : ℕ), bsearch_loop compar key base fuel l u = some i →
      ∃ e, base[i]? = some e ∧ compar key e = 0 := by
  induction fuel with
  | zero => intro l u i h; simp [bsearch_loop] at h
  | succ fuel ih =>
    intro l u i h
    unfold bsearch_loop at h
    split_ifs at h with hlu
    simp only at h
    cases he : base[(l + u) / 2]? with
    | none => rw [he] at h; simp at h
    | some e =>
      rw [he] at h
      simp only at h
      split_ifs at h with h1 h2
      · exact ih _ _ _ h
      · exact ih _ _ _ h
      · injection h with h
        subst h
        exact ⟨e, he, by omega⟩

theorem bsearch_loop_finds (compar : List Char → List Char → ℤ) (key : List Char)
    (base : List (List Char)) (j : ℕ) (ej : List Char) (hj1 : 1 ≤ j)
    (hej : base[j]? = some ej) (hzero : compar key ej = 0)
    (hord : ∀ (i i' : ℕ) (a b : List Char), 1 ≤ i → i < i' → base[i]? = some a →
      base[i']? = some b →
      (0 < compar key b → 0 < compar key a) ∧ (compar key b = 0 → 0 ≤ compar key a))
    (fuel : ℕ) :
    ∀ (l u : ℕ), l ≤ j → j < u → u ≤ base.length → u - l ≤ fuel →
      ∃ i, bsearch_loop compar key base fuel l u = some i := by
  induction fuel with
  | zero => intro l u hl hu _ hf; omega
  | succ fuel ih =>
    intro l u hl hu hlen hf
    unfold bsearch_loop
    rw [if_pos (by omega)]
    simp only
    have hidx : (l + u) / 2 < base.length := by omega
    obtain ⟨e, he⟩ : ∃ e, base[(l + u) / 2]? = some e :=
      ⟨_, List.getElem?_eq_getElem hidx⟩
    rw [he]
    simp only
    have hidx1 : 1 ≤ (l + u) / 2 := by omega
    split_ifs with h1 h2
    · apply ih
      · exact hl
      · by_contra hcon
        have hle : (l + u) / 2 ≤ j := by omega
        rcases Nat.lt_or_eq_of_le hle with hlt | heq
        · have := (hord _ _ _ _ hidx1 hlt he hej).2 hzero
          omega
        · rw [heq, hej] at he
          injection he with he
          rw [← he, hzero] at h1
          exact absurd h1 (by decide)
      · omega
      · omega
    · apply ih
      · by_contra hcon
        have hle : j ≤ (l + u) / 2 := by omega
        rcases Nat.lt_or_eq_of_le hle with hlt | heq
        · have := (hord _ _ _ _ hj1 hlt hej he).1 h2
          omega
        · rw [← heq, hej] at he
          injection he with he
          rw [← he, hzero] at h2
          exact absurd h2 (by decide)
      · exact hu
      · exact hlen
      · omega
    · exact ⟨_, rfl⟩

theorem nonempty_fields_eq_fields_of_full (d : Char) (l : List Char)
    (h : ∀ f ∈ fields d l, f ≠ []) : nonempty_fields d l = fields d l := by
  unfold nonempty_fields
  rw [List.filter_eq_self]
  intro f hf
  have := h f hf
  cases f with
  | nil => exact absurd rfl this
  | cons c cs => rfl

theorem city_of_fields_eq_city_of_line (atof : List Char → ℚ) (l : List Char)
    (h : ∀ f ∈ fields ',' l, f ≠ []) : city_of_fields atof l = city_of_line atof l := by
  unfold city_of_fields city_of_line
  rw [nonempty_fields_eq_fields_of_full ',' l h]
  generalize fields ',' l = T at h
  rcases T with _ | ⟨t0, _ | ⟨t1, _ | ⟨t2, _ | ⟨t3, _ | ⟨t4, _ | ⟨t5, T⟩⟩⟩⟩⟩⟩ <;> try rfl
  simp only
  rw [if_pos ⟨h t0 (by simp), h t4 (by simp), h t5 (by simp)⟩]

theorem get_city_short_line :
    get_city atof_whole "Foo,1\n".toList (some "Foo".toList) = none := by
  decide

/-- C16, as stated, fails: in the data `"Foo,1\n"` (one line, trivially sorted) the
line has the city-name field `Foo`, which equals the requested name `Foo` after
normalisation, yet `get_city` returns `NULL`, because the matched line does not
have a fifth and a sixth field. -/
theorem C16_counterexample :
    get_city atof_whole "Foo,1\n".toList (some "Foo".toList) = none ∧
    ¬ (∀ (atof : List Char → ℚ) (cities name : List Char),
        sorted_by_name (city_lines cities) →
        (get_city atof cities (some name) = none ↔
          ∀ l ∈ city_lines cities,
            normalize_city_name ((fields ',' l).head?) ≠ normalize_city_name (some name))) := by
  refine ⟨get_city_short_line, ?_⟩
  intro h
  have hlines : city_lines "Foo,1\n".toList = ["Foo,1".toList] := by decide
  have hsorted : sorted_by_name (city_lines "Foo,1\n".toList) := by
    rw [hlines]
    exact List.pairwise_singleton _ _
  have := (h atof_whole "Foo,1\n".toList "Foo".toList hsorted).mp get_city_short_line
    "Foo,1".toList (by rw [hlines]; simp)
  exact this (by decide)

theorem name_field_eq (l : List Char) (h : ∀ f ∈ fields ',' l, f ≠ []) :
    normalize_city_name ((fields ',' l).head?) = normalised_name l := by
  unfold normalised_name
  rw [nonempty_fields_eq_fields_of_full ',' l h]

theorem fields_nonempty_of_full (l : List Char)
    (h : 6 ≤ (fields ',' l).length ∧ ∀ f ∈ fields ',' l, f ≠ []) :
    nonempty_fields ',' l ≠ [] := by
  rw [nonempty_fields_eq_fields_of_full ',' l h.2]
  intro hnil
  rw [hnil] at h
  simp at h

/-- C16, amended: `get_city` returns `NULL` for a `NULL` name. When every line of
the data is shorter than `MAX_LINE_LENGTH`, has at least six comma-separated
fields, none of them empty, and the lines after the first (header) line are
sorted by normalised city name, then: if no line's city-name field equals the
requested name after both are normalised, `get_city` returns `NULL`; if the
city-name field of a line after the header does, `get_city` returns a city, the
one made of the first, fifth and sixth field of a line whose normalised name is
the normalised requested name. The result depends on the requested name only
through its normalised form (insensitive to case and surrounding white space). -/
theorem C16_get_city_lookup (atof : List Char → ℚ) (cities name : List Char)
    (h₁ : ∀ l ∈ city_lines cities, l.length < MAX_LINE_LENGTH)
    (h₂ : ∀ l ∈ city_lines cities,
      6 ≤ (fields ',' l).length ∧ ∀ f ∈ fields ',' l, f ≠ [])
    (h₃ : sorted_by_name ((city_lines cities).drop 1)) :
    get_city atof cities none = none ∧
    ((∀ l ∈ city_lines cities,
        normalize_city_name ((fields ',' l).head?) ≠ normalize_city_name (some name)) →
      get_city atof cities (some name) = none) ∧
    ((∃ l ∈ (city_lines cities).drop 1,
        normalize_city_name ((fields ',' l).head?) = normalize_city_name (some name)) →
      ∃ l ∈ city_lines cities,
        normalize_city_name ((fields ',' l).head?) = normalize_city_name (some name) ∧
        ∃ city, get_city atof cities (some name) = some city ∧
          city_of_fields atof l = some city) ∧
    (∀ other : List Char,
      normalize_city_name (some other) = normalize_city_name (some name) →
      get_city atof cities (some other) = get_city atof cities (some name)) := by
  have hne : ∀ l ∈ city_lines cities, nonempty_fields ',' l ≠ [] :=
    fun l hl => fields_nonempty_of_full l (h₂ l hl)
  have hmatch : ∀ e ∈ city_lines cities,
      (compare_city (normalised_string name) e = 0 ↔
        normalize_city_name ((fields ',' e).head?) = normalize_city_name (some name)) := by
    intro e he
    rw [name_field_eq e (h₂ e he).2]
    exact compare_city_zero_iff name e (h₁ e he) (hne e he)
  refine ⟨rfl, ?_, ?_, ?_⟩
  · intro hno
    rw [get_city_eq]
    split_ifs with hc hl
    · rfl
    · rfl
    · cases hbs : bsearch_binary compare_city (normalised_string name) (city_lines cities) with
      | none => rfl
      | some i =>
        obtain ⟨e, he, hcmp⟩ := bsearch_loop_sound _ _ _ _ _ _ _ hbs
        have hmem : e ∈ city_lines cities := List.mem_iff_getElem?.mpr ⟨_, he⟩
        exact absurd ((hmatch e hmem).mp hcmp) (hno e hmem)
  · rintro ⟨l, hl, hlmatch⟩
    obtain ⟨t, ht⟩ := List.mem_iff_getElem?.mp hl
    rw [List.getElem?_drop] at ht
    have hlmem : l ∈ city_lines cities := List.mem_iff_getElem?.mpr ⟨_, ht⟩
    have hlt : 1 + t < (city_lines cities).length := (List.getElem?_eq_some.mp ht).1
    have hord := sorted_bsearch_ordered name ((city_lines cities).drop 1)
      (fun a ha => h₁ a (List.mem_of_mem_drop ha))
      (fun a ha => hne a (List.mem_of_mem_drop ha)) h₃
    unfold bsearch_ordered at hord
    obtain ⟨i, hi⟩ := bsearch_loop_finds compare_city (normalised_string name)
      (city_lines cities) (1 + t) l (by omega) ht ((hmatch l hlmem).mpr hlmatch)
      (by
        intro i i' a b hi1 hii' ha hb
        have ha' : ((city_lines cities).drop 1)[i - 1]? = some a := by
          rw [List.getElem?_drop]
          have : 1 + (i - 1) = i := by omega
          rw [this]
          exact ha
        have hb' : ((city_lines cities).drop 1)[i' - 1]? = some b := by
          rw [List.getElem?_drop]
          have : 1 + (i' - 1) = i' := by omega
          rw [this]
          exact hb
        exact pairwise_getElem? hord (i - 1) (i' - 1) a b (by omega) ha' hb')
      (city_lines cities).length 0 (city_lines cities).length (by omega) hlt (le_refl _)
      (by omega)
    have hbs : bsearch_binary compare_city (normalised_string name) (city_lines cities) =
        some i := hi
    obtain ⟨e, he, hcmp⟩ := bsearch_loop_sound _ _ _ _ _ _ _ hi
    have hmem : e ∈ city_lines cities := List.mem_iff_getElem?.mpr ⟨_, he⟩
    have hlines : city_lines cities ≠ [] := List.ne_nil_of_mem hmem
    have hc : ¬ cities.length = 0 := by
      intro h0
      have : cities = [] := List.length_eq_zero.mp h0
      rw [this] at hlines
      exact hlines (by decide)
    have hget : get_city atof cities (some name) = city_of_line atof e := by
      rw [get_city_eq, if_neg hc, if_neg hlines, hbs]
      simp only [he]
    have hsome : ∃ city, city_of_line atof e = some city := by
      cases hcl : city_of_line atof e with
      | some city => exact ⟨city, rfl⟩
      | none =>
        rw [city_of_line_eq_none_iff, nonempty_fields_eq_fields_of_full ',' e (h₂ e hmem).2]
          at hcl
        have := (h₂ e hmem).1
        omega
    obtain ⟨city, hcity⟩ := hsome
    refine ⟨e, hmem, (hmatch e hmem).mp hcmp, city, ?_, ?_⟩
    · rw [hget, hcity]
    · rw [city_of_fields_eq_city_of_line atof e (h₂ e hmem).2, hcity]
  · intro other hother
    rw [normalize_city_name_some, normalize_city_name_some] at hother
    injection hother with hother
    rw [get_city_eq, get_city_eq, hother]


/-- City data for stating examples: a header line, which is not in alphabetical
order with the cities, and three cities sorted by name. -/
theorem example_cities_lines :
    city_lines
        "name,population,country,timezone,lat,lon\nBoston,1,US,tz,42,-71\nRio de Janeiro,1,BR,tz,-23,-43\nTunis,1,TN,tz,37,10\n".toList =
      ["name,population,country,timezone,lat,lon".toList, "Boston,1,US,tz,42,-71".toList,
        "Rio de Janeiro,1,BR,tz,-23,-43".toList, "Tunis,1,TN,tz,37,10".toList] := by
  decide

/-- Witness for C16: the request `  rio de janeiro ` on data whose header line
`name,...` comes before `Boston`. -/
theorem C16_get_city_lookup_witness :
    ∃ l ∈ city_lines
        "name,population,country,timezone,lat,lon\nBoston,1,US,tz,42,-71\nRio de Janeiro,1,BR,tz,-23,-43\nTunis,1,TN,tz,37,10\n".toList,
      normalize_city_name ((fields ',' l).head?) =
        normalize_city_name (some "  rio de janeiro ".toList) ∧
      ∃ city,
        get_city atof_whole
          "name,population,country,timezone,lat,lon\nBoston,1,US,tz,42,-71\nRio de Janeiro,1,BR,tz,-23,-43\nTunis,1,TN,tz,37,10\n".toList
          (some "  rio de janeiro ".toList) = some city ∧
        city_of_fields atof_whole l = some city := by
  have hlines := example_cities_lines
  have hb : normalised_name "Boston,1,US,tz,42,-71".toList = some "boston".toList := by decide
  have hr : normalised_name "Rio de Janeiro,1,BR,tz,-23,-43".toList =
      some "rio de janeiro".toList := by decide
  have ht : normalised_name "Tunis,1,TN,tz,37,10".toList = some "tunis".toList := by decide
  refine (C16_get_city_lookup atof_whole _ "  rio de janeiro ".toList ?_ ?_ ?_).2.2.1 ?_
  · rw [hlines]; decide
  · rw [hlines]; decide
  · rw [hlines]
    unfold sorted_by_name
    simp only [List.drop_succ_cons, List.drop_zero, List.pairwise_cons, List.mem_cons,
      List.mem_singleton, List.not_mem_nil, forall_eq_or_imp, forall_eq, List.Pairwise.nil,
      and_true, IsEmpty.forall_iff, implies_true, hb, hr, ht, Option.some.injEq]
    refine ⟨⟨?_, ?_⟩, ?_⟩ <;>
    · intro ka kb h1 h2
      subst h1 h2
      decide
  · rw [hlines]
    exact ⟨"Rio de Janeiro,1,BR,tz,-23,-43".toList, by simp, by decide⟩

/-- C17 fails on the code: in the line `Foo,,US,tz,1,2,3` the population field is
empty; the fifth and sixth comma-separated fields are `1` and `2`, but `get_city`
returns latitude 2 and longitude 3, because `strtok` treats the two commas as one
separator and the calls commented `Skip population`, `Skip country code`, `Skip
timezone` skip `US`, `tz` and `1`. -/
theorem C17_empty_field_shifts_coordinates :
    get_city atof_whole "name,population,country,timezone,lat,lon\nFoo,,US,tz,1,2,3\n".toList
        (some "Foo".toList) = some ⟨"Foo".toList, 2, 3⟩ ∧
    fields ',' "Foo,,US,tz,1,2,3".toList =
      ["Foo".toList, [], "US".toList, "tz".toList, "1".toList, "2".toList, "3".toList] := by
  decide

/-- C20 fails on the code: the line `Foo,,US,tz,1,2` has a name and, as its fifth
and sixth comma-separated fields, `1` and `2`, but its population field is empty;
`strtok` skips the empty field, the sixth call returns `NULL`, and `iter_cities`
makes no call for `Foo`: the only call is for `Bar`. -/
theorem C20_empty_field_drops_city :
    iter_cities atof_whole
        "name,population,country,timezone,lat,lon\nFoo,,US,tz,1,2\nBar,1,US,tz,5,6\n".toList
        (some (fun city calls => calls ++ [city])) [] = [⟨"Bar".toList, 5, 6⟩] ∧
    fields ',' "Foo,,US,tz,1,2".toList =
      ["Foo".toList, [], "US".toList, "tz".toList, "1".toList, "2".toList] := by
  decide


/-! ## Options and the Julian date (claims C21, C22, C23) -/

theorem julian_day_number_2000 : julian_day_number 2000 1 1 = 2451545 := by
  decide

theorem datetime_to_julian_date_noon_2000 : datetime_to_julian_date noon_2000 = 2451545 := by
  unfold datetime_to_julian_date noon_2000
  simp only
  have h : julian_day_number (100 + 1900) (0 + 1) 1 = 2451545 := julian_day_number_2000
  rw [h]
  norm_num

/-- C22: the Julian date computed for 2000-01-01T12:00:00 UTC is exactly
2451545.0, and `convert_options`, given a datetime string that `string_to_time`
parses to that instant, sets `julian_date_start` and `julian_date` to it. -/
theorem C22_julian_date_of_j2000 :
    datetime_to_julian_date noon_2000 = 2451545 ∧
    ∀ (current_julian_date : ℚ) (config : conf) (dt_string_utc : List Char),
      ∃ c, convert_options current_julian_date (fun _ => some noon_2000)
          { config with dt_string_utc := some dt_string_utc } = .ok c ∧
        c.julian_date_start = 2451545 ∧ c.julian_date = 2451545 := by
  refine ⟨datetime_to_julian_date_noon_2000, ?_⟩
  intro current_julian_date config dt_string_utc
  refine ⟨_, rfl, ?_, ?_⟩
  · exact datetime_to_julian_date_noon_2000
  · exact datetime_to_julian_date_noon_2000

theorem month_day_of_offset (m dm d : ℤ) (hm0 : 0 ≤ m) (hm : m ≤ 11)
    (hdm : dm = (153 * m + 2) / 5) (hd1 : 1 ≤ d) (hd2 : d ≤ (153 * (m + 1) + 2) / 5 - dm) :
    (5 * (dm + d - 1) + 2) / 153 = m ∧ (5 * (dm + d - 1) + 2) % 153 / 5 = d - 1 := by
  interval_cases m <;> omega

theorem day_number_core (q c t m dm d : ℤ) (hc0 : 0 ≤ c) (hc3 : c ≤ 3) (ht0 : 0 ≤ t)
    (ht : t ≤ 99) (hm0 : 0 ≤ m) (hm : m ≤ 11) (hdm : dm = (153 * m + 2) / 5)
    (hd1 : 1 ≤ d) (hd2 : d ≤ (153 * (m + 1) + 2) / 5 - dm)
    (hfeb : m = 11 → d ≤ 28 ∨ (d = 29 ∧ t % 4 = 3 ∧ (t = 99 → c = 3))) :
    gregorian_of_day_number
        (146097 * q + 36524 * c + 365 * t + t / 4 + dm + d - 32045) =
      (400 * q + 100 * c + t - 4800 + (if 10 ≤ m then 1 else 0),
        (if 10 ≤ m then m - 9 else m + 3), d) := by
  unfold gregorian_of_day_number
  generalize hJ : 146097 * q + 36524 * c + 365 * t + t / 4 + dm + d - 32045 = J
  have hX : 1 ≤ 365 * t + t / 4 + dm + d ∧
      (365 * t + t / 4 + dm + d ≤ 36524 ∨ (c = 3 ∧ 365 * t + t / 4 + dm + d = 36525)) := by
    omega
  generalize hXd : 365 * t + t / 4 + dm + d = X at hX
  have hJX : J = 146097 * q + 36524 * c + X - 32045 := by omega
  have hK : ((4 * J + 274277) / 146097) * 3 / 4 = 3 * q + c := by
    have : (4 * J + 274277) / 146097 = 4 * q + 1 + c ∨
        (c = 3 ∧ (4 * J + 274277) / 146097 = 4 * q + 5) := by omega
    omega
  simp only [hK]
  have he : 4 * (J + 1401 + (3 * q + c) - 38) + 3 =
      1461 * (400 * q + 100 * c + t - 84) + (4 * (dm + d) - t % 4 - 1) := by omega
  rw [he]
  have hrange : 0 ≤ 4 * (dm + d) - t % 4 - 1 ∧ 4 * (dm + d) - t % 4 - 1 < 1461 := by omega
  have hdiv : (1461 * (400 * q + 100 * c + t - 84) + (4 * (dm + d) - t % 4 - 1)) / 1461 =
      400 * q + 100 * c + t - 84 := by omega
  have hmod : (1461 * (400 * q + 100 * c + t - 84) + (4 * (dm + d) - t % 4 - 1)) % 1461 =
      4 * (dm + d) - t % 4 - 1 := by omega
  rw [hdiv, hmod]
  have hg : (4 * (dm + d) - t % 4 - 1) / 4 = dm + d - 1 := by omega
  rw [hg]
  have hh := month_day_of_offset m dm d hm0 hm hdm hd1 hd2
  rw [hh.1, hh.2]
  simp only [Prod.mk.injEq]
  clear hh hg hmod hdiv hrange he hK hJX hXd hX hJ hfeb hd2 hdm
  refine ⟨?_, ?_, ?_⟩
  · split_ifs <;> omega
  · split_ifs <;> omega
  · omega

theorem day_number_shape (Y : ℤ) :
    365 * Y + Y / 4 - Y / 100 + Y / 400 =
      146097 * (Y / 400) + 36524 * (Y % 400 / 100) + 365 * (Y % 100) + Y % 100 / 4 := by
  omega

theorem gregorian_of_julian_day_number (year month day : ℤ) (hm1 : 1 ≤ month)
    (hm2 : month ≤ 12) (hd1 : 1 ≤ day) (hd2 : day ≤ days_in_month year month) :
    gregorian_of_day_number (julian_day_number year month day) = (year, month, day) := by
  have hfeb : month = 2 → day ≤ 28 ∨ (day = 29 ∧ (year + 4799) % 100 % 4 = 3 ∧
      ((year + 4799) % 100 = 99 → (year + 4799) % 400 / 100 = 3)) := by
    intro h2
    unfold days_in_month at hd2
    rw [if_pos h2] at hd2
    split_ifs at hd2 with hleap
    · simp [is_leap_year] at hleap
      omega
    · omega
  have hlen : month ≠ 2 → day ≤ (153 * (month + 12 * ((14 - month) / 12) - 3 + 1) + 2) / 5 -
      (153 * (month + 12 * ((14 - month) / 12) - 3) + 2) / 5 := by
    intro h2
    unfold days_in_month at hd2
    rw [if_neg h2] at hd2
    split_ifs at hd2 with h30
    · rcases h30 with h | h | h | h <;> subst h <;> omega
    · interval_cases month <;> omega
  unfold julian_day_number
  simp only
  generalize hY : year + 4800 - (14 - month) / 12 = Y
  generalize hm : month + 12 * ((14 - month) / 12) - 3 = m at hlen
  have hm0 : 0 ≤ m := by omega
  have hm11 : m ≤ 11 := by omega
  have hshape := day_number_shape Y
  have hcore := day_number_core (Y / 400) (Y % 400 / 100) (Y % 100) m ((153 * m + 2) / 5) day
    (by omega) (by omega) (by omega) (by omega) hm0 hm11 rfl hd1
    (by
      by_cases h2 : month = 2
      · subst h2
        have : m = 11 := by omega
        subst this
        have := hfeb rfl
        omega
      · exact hlen h2)
    (by
      intro h11
      have h2 : month = 2 := by omega
      have := hfeb h2
      have hYy : Y = year + 4799 := by omega
      rw [hYy]
      exact this)
  have hJ : day + (153 * m + 2) / 5 + 365 * Y + Y / 4 - Y / 100 + Y / 400 - 32045 =
      146097 * (Y / 400) + 36524 * (Y % 400 / 100) + 365 * (Y % 100) + Y % 100 / 4 +
        (153 * m + 2) / 5 + day - 32045 := by
    omega
  rw [hJ, hcore]
  simp only [Prod.mk.injEq]
  refine ⟨?_, ?_, trivial⟩
  · split_ifs <;> omega
  · split_ifs <;> omega


theorem floor_day_fraction (n hour minute second : ℤ) (hh0 : 0 ≤ hour) (hh : hour ≤ 23)
    (hm0 : 0 ≤ minute) (hm : minute ≤ 59) (hs0 : 0 ≤ second) (hs : second ≤ 59) :
    ⌊(n : ℚ) + ((hour : ℚ) - 12) / 24 + (minute : ℚ) / 1440 + (second : ℚ) / 86400 + 1 / 2⌋ =
      n := by
  rw [Int.floor_eq_iff]
  have h1 : (0 : ℚ) ≤ hour := by exact_mod_cast hh0
  have h2 : (hour : ℚ) ≤ 23 := by exact_mod_cast hh
  have h3 : (0 : ℚ) ≤ minute := by exact_mod_cast hm0
  have h4 : (minute : ℚ) ≤ 59 := by exact_mod_cast hm
  have h5 : (0 : ℚ) ≤ second := by exact_mod_cast hs0
  have h6 : (second : ℚ) ≤ 59 := by exact_mod_cast hs
  constructor <;> linarith

/-- C23: for every valid calendar date and time of day `d`, converting `d` to a
Julian date with `datetime_to_julian_date` and back with `julian_to_gregorian`
returns the year, month and day of `d`. -/
theorem C23_gregorian_round_trip (time : tm) (h : valid_datetime time) :
    julian_to_gregorian (datetime_to_julian_date time) =
      (time.tm_year + 1900, time.tm_mon + 1, time.tm_mday) := by
  obtain ⟨hmon0, hmon, hd1, hd2, hh0, hh, hm0, hm, hs0, hs⟩ := h
  unfold julian_to_gregorian datetime_to_julian_date
  simp only
  rw [floor_day_fraction _ _ _ _ hh0 hh hm0 hm hs0 hs]
  exact gregorian_of_julian_day_number _ _ _ (by omega) (by omega) hd1 hd2

/-- Witness for C23: 29 February 2024, 23:59:59. -/
theorem C23_gregorian_round_trip_witness :
    valid_datetime ⟨59, 59, 23, 29, 1, 124⟩ ∧
    julian_to_gregorian (datetime_to_julian_date ⟨59, 59, 23, 29, 1, 124⟩) = (2024, 2, 29) :=
  ⟨by unfold valid_datetime; decide,
    C23_gregorian_round_trip ⟨59, 59, 23, 29, 1, 124⟩ (by unfold valid_datetime; decide)⟩

/-! ## Frame, counts and bounds (claims C24-C28) -/

/-- C24: for a star table of at least `num_stars` stars and a `qsort` that keeps
its contract, `star_numbers_by_magnitude` returns exactly `num_stars` catalog
numbers, which are a permutation of the catalog numbers of the first `num_stars`
stars of the input table, and the input star table is unchanged: the sort
rearranges the copy only. -/
theorem C24_numbers_are_permutation (qsort : (star → star → ℤ) → List star → List star)
    (star_table : List star) (num_stars : ℕ) (hq : qsort_contract qsort)
    (hn : num_stars ≤ star_table.length) :
    ∃ m, star_numbers_by_magnitude_memory qsort star_table num_stars = some m ∧
      star_numbers_by_magnitude qsort star_table num_stars = some m.num_by_mag ∧
      m.num_by_mag.length = num_stars ∧
      m.num_by_mag.Perm ((star_table.take num_stars).map (fun s => s.catalog_number)) ∧
      m.table_copy.Perm (star_table.take num_stars) ∧
      m.star_table = star_table := by
  have hperm := sorted_table_copy_perm qsort hq star_table num_stars
  refine ⟨⟨star_table, sorted_table_copy qsort star_table num_stars,
    (sorted_table_copy qsort star_table num_stars).map (fun s => s.catalog_number)⟩,
    ?_, ?_, ?_, ?_, hperm, rfl⟩
  · unfold star_numbers_by_magnitude_memory
    rw [if_pos hn]
    rfl
  · unfold star_numbers_by_magnitude
    rw [if_pos hn]
  · simp only [List.length_map]
    rw [hperm.length_eq, List.length_take]
    omega
  · exact hperm.map _

/-- Witness for C24: the four stars of the brightness example. -/
theorem C24_numbers_are_permutation_witness :
    ∃ m, star_numbers_by_magnitude_memory qsort_insertion brightness_example 4 = some m ∧
      star_numbers_by_magnitude qsort_insertion brightness_example 4 = some m.num_by_mag ∧
      m.num_by_mag.length = 4 ∧
      m.num_by_mag.Perm ((brightness_example.take 4).map (fun s => s.catalog_number)) ∧
      m.table_copy.Perm (brightness_example.take 4) ∧
      m.star_table = brightness_example :=
  C24_numbers_are_permutation qsort_insertion brightness_example 4 qsort_insertion_contract
    (by decide)

/-- C25 fails on the code: for the data `CVn 1 4915 4785`, newline, `A 1 1 2`
(no newline after the last line) `generate_constell_table` succeeds, parses and
stores two constellations, and reports `*num_constell_out = 1`, the number of
newline characters. -/
theorem C25_count_misses_last_line :
    generate_constell_table ⟨0, []⟩ "CVn 1 4915 4785\nA 1 1 2".toList none =
      some ⟨true, some [⟨1, [4915, 4785]⟩, ⟨1, [1, 2]⟩], some 1⟩ := by
  decide

theorem parse_line_rejects (uninit : constell) (data : List Char)
    (constell_table_out t : Option (List constell)) (line_start line_end : ℤ)
    (line_number : ℕ)
    (h : parse_line uninit data constell_table_out line_start line_end line_number =
      some (false, t)) :
    t = constell_table_out := by
  unfold parse_line at h
  simp only at h
  repeat' split at h
  all_goals first
    | (injection h with h
       injection h with h1 h2
       first
         | exact h2.symm
         | exact absurd h1 (by decide))
    | cases h

theorem parse_line_accepts (uninit : constell) (data : List Char)
    (constell_table_out t : Option (List constell)) (line_start line_end : ℤ)
    (line_number : ℕ)
    (h : parse_line uninit data constell_table_out line_start line_end line_number =
      some (true, t)) :
    ∃ table c, t = some table ∧ table[line_number]? = some c ∧ c.num_segments ≠ 0 ∧
      c.num_segments < 4294967296 ∧
      c.star_numbers.length = (c.num_segments * 2) % 4294967296 := by
  unfold parse_line at h
  simp only at h
  repeat' split at h
  all_goals cases h
  rename_i hzero hlen
  have hlength : line_number <
      (realloc_table uninit constell_table_out (line_number + 1)).length := by
    rw [realloc_table_length]
    omega
  refine ⟨_, _, rfl, List.getElem?_set_self hlength, hzero, ?_, not_not.mp hlen⟩
  simp only [to_unsigned]
  omega

/-- C26 fails on the code: the line `X -2147483647 1 2` has a negative segment
count, which the conversion to `unsigned int` turns into 2147483649; `num_segments
* 2` wraps to 2, so `parse_line` returns true and stores a constellation with
`num_segments = 2147483649` and only two star numbers. -/
theorem C26_negative_count_accepted :
    parse_line ⟨0, []⟩ "X -2147483647 1 2\n".toList none 0 17 0 =
      some (true, some [⟨2147483649, [1, 2]⟩]) := by
  decide

/-- C27: for every catalog entry whose magnitude `MAG / 100` lies in the
calibrated range [-1.46, 7.96], the symbol index computed in
`generate_star_table` lies in [0, 9], both lookups into the 10-entry glyph tables
are in bounds, and the star is produced with ASCII symbol
`mag_map_round_ASCII[index]` and Unicode symbol `mag_map_unicode_round[index]`. -/
theorem C27_symbol_lookup_in_bounds (temp_star : star) (e : entry) (nm : star_name)
    (h₁ : min_magnitude ≤ (e.MAG : ℚ) / 100) (h₂ : (e.MAG : ℚ) / 100 ≤ max_magnitude) :
    0 ≤ map_float_to_int_range min_magnitude max_magnitude 0 9 ((e.MAG : ℚ) / 100) ∧
    map_float_to_int_range min_magnitude max_magnitude 0 9 ((e.MAG : ℚ) / 100) ≤ 9 ∧
    mag_map_round_ASCII.length = 10 ∧ mag_map_unicode_round.length = 10 ∧
    ∃ ascii unicode s,
      array_read mag_map_round_ASCII
        (map_float_to_int_range min_magnitude max_magnitude 0 9 ((e.MAG : ℚ) / 100)) =
        some ascii ∧
      array_read mag_map_unicode_round
        (map_float_to_int_range min_magnitude max_magnitude 0 9 ((e.MAG : ℚ) / 100)) =
        some unicode ∧
      star_of_entry temp_star e nm = some s ∧
      s.base.symbol_ASCII = ascii ∧ s.base.symbol_unicode = some unicode := by
  obtain ⟨h0, h9⟩ := symbol_index_in_range _ h₁ h₂
  obtain ⟨a, ha⟩ := array_read_isSome mag_map_round_ASCII _ h0
    (by simp only [mag_map_round_ASCII, List.length_cons, List.length_nil]; omega)
  obtain ⟨u, hu⟩ := array_read_isSome mag_map_unicode_round _ h0
    (by simp only [mag_map_unicode_round, List.length_cons, List.length_nil]; omega)
  have hs : star_of_entry temp_star e nm =
      some { base := { y := 0, x := 0, azimuth := 0, altitude := 0, color_pair := 0,
                       symbol_ASCII := a, symbol_unicode := some u, label := nm.name },
             catalog_number := c_int_cast e.XNO, magnitude := (e.MAG : ℚ) / 100,
             right_ascension := e.SRA0, declination := e.SDEC0, ra_motion := e.XDPM,
             dec_motion := temp_star.dec_motion } := by
    rw [star_of_entry_eq, ha, hu]
  exact ⟨h0, h9, rfl, rfl, a, u, _, ha, hu, hs, rfl, rfl⟩

/-- Witness for C27: the entry of magnitude 1.00, whose index is 2 and whose
ASCII symbol is `O`. -/
theorem C27_symbol_lookup_in_bounds_witness :
    min_magnitude ≤ ((entry_example.MAG : ℤ) : ℚ) / 100 ∧
    0 ≤ map_float_to_int_range min_magnitude max_magnitude 0 9
      ((entry_example.MAG : ℚ) / 100) :=
  ⟨by norm_num [min_magnitude, entry_example],
    (C27_symbol_lookup_in_bounds (star_with 0 0) entry_example ⟨none⟩
      (by norm_num [min_magnitude, entry_example])
      (by norm_num [max_magnitude, entry_example])).1⟩

theorem populate_special_chars_loop_overruns (n : ℕ) :
    ∀ (remaining i : ℕ) (special_symbols : List (Option (List Char))),
      special_symbols.length = n → i ≤ n → i + remaining = n + 1 →
      populate_special_chars_loop remaining (i : ℤ) special_symbols = none := by
  intro remaining
  induction remaining with
  | zero => intro i a _ hi hsum; omega
  | succ k ih =>
    intro i a hlen hi hsum
    unfold populate_special_chars_loop
    by_cases hin : i = n
    · have : array_write a (i : ℤ) none = none := by
        unfold array_write
        rw [if_neg]
        rw [Int.toNat_ofNat]
        omega
      rw [this]
    · have : array_write a (i : ℤ) none = some (a.set i none) := by
        unfold array_write
        rw [if_pos]
        · rw [Int.toNat_ofNat]
        · rw [Int.toNat_ofNat]
          omega
      rw [this]
      simp only
      have := ih (i + 1) (a.set i none) (by rw [List.length_set]; exact hlen) (by omega)
        (by omega)
      rw [← this]
      congr 1

/-- C28 fails on the code: on an array of `num_stars` elements, as `main`
allocates it, the loop of `populate_special_chars` runs to index `num_stars` and
writes one element past the end of the array (undefined behaviour), and the
lookup `special_symbols[num_stars]` that `render_stereo` makes for the star with
catalog number `num_stars` is outside the array as well. -/
theorem C28_write_past_the_end (special_symbols : List (Option (List Char)))
    (num_stars : ℕ) (h : special_symbols.length = num_stars) :
    populate_special_chars special_symbols (num_stars : ℤ) = none ∧
    array_read special_symbols (num_stars : ℤ) = none := by
  constructor
  · unfold populate_special_chars
    have hloop := populate_special_chars_loop_overruns num_stars (num_stars + 1) 0
      special_symbols h (by omega) (by omega)
    have hn : ((num_stars : ℤ) + 1).toNat = num_stars + 1 := by omega
    rw [hn]
    simp only [Nat.cast_zero] at hloop
    rw [hloop]
  · unfold array_read
    rw [if_pos (by omega), Int.toNat_ofNat]
    exact List.getElem?_eq_none (by omega)

/-- Witness for C28: the 9110 stars of the BSC5 catalog. -/
theorem C28_write_past_the_end_witness :
    populate_special_chars (List.replicate 9110 none) 9110 = none ∧
    array_read (List.replicate 9110 (none : Option (List Char))) 9110 = none :=
  C28_write_past_the_end (List.replicate 9110 none) 9110 (List.length_replicate 9110 none)

/-! ## Keplerian tables and city names (claims C29, C30) -/

theorem planet_row_cases (E : planet_enum) (hE : (planets E).Nodup) (i : ℕ)
    (hi : i ∈ planets E) :
    ((planet_elements E i).a, (planet_elements E i).e, (planet_rates E i).da,
        (planet_rates E i).de) ∈
      ([(0.38709843, 0.20563661, 0.00000000, 0.00002123),
        (0.72332102, 0.00676399, -0.00000026, -0.00005107),
        (1.00000018, 0.01673163, -0.00000003, -0.00003661),
        (1.52371243, 0.09336511, 0.00000097, 0.00009149),
        (5.20248019, 0.04853590, -0.00002864, 0.00018026),
        (9.54149883, 0.05550825, -0.00003065, -0.00032044),
        (19.18797948, 0.04685740, -0.00020455, -0.00001550),
        (30.06952752, 0.00895439, 0.00006447, 0.00000818)] : List (ℚ × ℚ × ℚ × ℚ)) := by
  simp only [planets, List.nodup_cons, List.mem_cons, List.mem_singleton, not_or,
    List.not_mem_nil, not_false_eq_true, List.nodup_nil, and_true, or_false] at hE hi
  obtain ⟨⟨h12, h13, h14, h15, h16, h17, h18⟩, ⟨h23, h24, h25, h26, h27, h28⟩,
    ⟨h34, h35, h36, h37, h38⟩, ⟨h45, h46, h47, h48⟩, ⟨h56, h57, h58⟩, ⟨h67, h68⟩, h78⟩ := hE
  rcases hi with rfl | rfl | rfl | rfl | rfl | rfl | rfl | rfl <;>
  simp [planet_elements, planet_rates, designated, List.find?, h12, h13, h14, h15, h16, h17,
    h18, h23, h24, h25, h26, h27, h28, h34, h35, h36, h37, h38, h45, h46, h47, h48, h56, h57,
    h58, h67, h68, h78, Ne.symm h12, Ne.symm h13, Ne.symm h14, Ne.symm h15, Ne.symm h16,
    Ne.symm h17, Ne.symm h18, Ne.symm h23, Ne.symm h24, Ne.symm h25, Ne.symm h26, Ne.symm h27,
    Ne.symm h28, Ne.symm h34, Ne.symm h35, Ne.symm h36, Ne.symm h37, Ne.symm h38, Ne.symm h45,
    Ne.symm h46, Ne.symm h47, Ne.symm h48, Ne.symm h56, Ne.symm h57, Ne.symm h58, Ne.symm h67,
    Ne.symm h68, Ne.symm h78]

/-- C29: for every planet Mercury to Neptune of the element and rate tables and
every `T` with `|T| <= 80` centuries from J2000, the linearly propagated
eccentricity `e + de * T` lies in [0, 0.99] and the propagated semi-major axis
`a + da * T` is positive; the Moon's eccentricity is 0.0549 with rate 0, so it
lies in [0, 0.99] as well. -/
theorem C29_elements_in_solver_range (E : planet_enum) (hE : (planets E).Nodup) (i : ℕ)
    (hi : i ∈ planets E) (T : ℚ) (hT : |T| ≤ 80) :
    0 ≤ (planet_elements E i).e + (planet_rates E i).de * T ∧
    (planet_elements E i).e + (planet_rates E i).de * T ≤ 0.99 ∧
    0 < (planet_elements E i).a + (planet_rates E i).da * T ∧
    moon_elements.e = 0.0549 ∧ moon_rates.de = 0 ∧
    0 ≤ moon_elements.e + moon_rates.de * T ∧ moon_elements.e + moon_rates.de * T ≤ 0.99 := by
  obtain ⟨hT1, hT2⟩ := abs_le.mp hT
  have hmoon : moon_elements.e = 0.0549 ∧ moon_rates.de = 0 := by
    constructor <;> norm_num [moon_elements, moon_rates]
  have hrow := planet_row_cases E hE i hi
  generalize (planet_elements E i).a = a at hrow ⊢
  generalize (planet_elements E i).e = e at hrow ⊢
  generalize (planet_rates E i).da = da at hrow ⊢
  generalize (planet_rates E i).de = de at hrow ⊢
  refine ⟨?_, ?_, ?_, hmoon.1, hmoon.2, by rw [hmoon.1, hmoon.2]; norm_num,
    by rw [hmoon.1, hmoon.2]; norm_num⟩ <;>
  · simp only [List.mem_cons, List.mem_singleton, Prod.mk.injEq, List.not_mem_nil,
      or_false] at hrow
    rcases hrow with ⟨rfl, rfl, rfl, rfl⟩ | ⟨rfl, rfl, rfl, rfl⟩ | ⟨rfl, rfl, rfl, rfl⟩ |
      ⟨rfl, rfl, rfl, rfl⟩ | ⟨rfl, rfl, rfl, rfl⟩ | ⟨rfl, rfl, rfl, rfl⟩ |
      ⟨rfl, rfl, rfl, rfl⟩ | ⟨rfl, rfl, rfl, rfl⟩ <;>
    norm_num <;> linarith

/-- Witness for C29: Saturn, 80 centuries after J2000, in the enumeration Sun,
Mercury, ..., Neptune. -/
theorem C29_elements_in_solver_range_witness :
    6 ∈ planets planet_indices ∧
    0 ≤ (planet_elements planet_indices 6).e + (planet_rates planet_indices 6).de * 80 :=
  ⟨by decide,
    (C29_elements_in_solver_range planet_indices (by decide) 6 (by decide) 80
      (by norm_num [abs_le])).1⟩

theorem trimmed_last (s : List Char) :
    ∀ c, ((s.dropWhile c_isspace).rdropWhile c_isspace).getLast? = some c →
      c_isspace c = false := by
  intro c hc
  have hne : (s.dropWhile c_isspace).rdropWhile c_isspace ≠ [] := by
    intro h
    rw [h] at hc
    simp at hc
  have := List.rdropWhile_last_not c_isspace (s.dropWhile c_isspace) hne
  rw [List.getLast?_eq_getLast _ hne] at hc
  injection hc with hc
  rw [hc] at this
  simpa using this

theorem c_tolower_not_upper (c : Char) : ¬ ('A' ≤ c_tolower c ∧ c_tolower c ≤ 'Z') := by
  by_cases h : 'A' ≤ c ∧ c ≤ 'Z'
  · obtain ⟨n, h1, h2, rfl⟩ := upper_char_cases c h
    interval_cases n <;> decide
  · rw [(c_tolower_spec c).2 h]
    exact h

theorem trimmed_length (s : List Char) :
    ((s.dropWhile c_isspace).rdropWhile c_isspace).length ≤ s.length :=
  le_trans (List.rdropWhile_prefix _ _).length_le (List.dropWhile_suffix _).length_le

/-- C30: `normalize_city_name` is idempotent, also on `NULL`; for every string
`s` its result neither begins nor ends with white space, contains no upper-case
letter, and is not longer than `s`. -/
theorem C30_normalize_city_name_idempotent (s : List Char) :
    normalize_city_name (normalize_city_name (some s)) = normalize_city_name (some s) ∧
    normalize_city_name (normalize_city_name none) = normalize_city_name none ∧
    ∃ r, normalize_city_name (some s) = some r ∧
      (∀ c, r.head? = some c → c_isspace c = false) ∧
      (∀ c, r.getLast? = some c → c_isspace c = false) ∧
      (∀ c ∈ r, ¬ ('A' ≤ c ∧ c ≤ 'Z')) ∧
      r.length ≤ s.length := by
  refine ⟨?_, rfl, normalised_string s, normalize_city_name_some s, ?_, ?_, ?_, ?_⟩
  · rw [normalize_city_name_some, normalize_city_name_some, normalised_string_idem]
  · intro c hc
    have hform : normalised_string s =
        ((s.dropWhile c_isspace).rdropWhile c_isspace).map c_tolower := rfl
    rw [hform, List.head?_map] at hc
    cases ht : ((s.dropWhile c_isspace).rdropWhile c_isspace).head? with
    | none => rw [ht] at hc; simp at hc
    | some c₀ =>
      rw [ht] at hc
      simp only [Option.map_some', Option.some.injEq] at hc
      rw [← hc, (c_tolower_facts c₀).1]
      exact trimmed_head s c₀ ht
  · intro c hc
    have hform : normalised_string s =
        ((s.dropWhile c_isspace).rdropWhile c_isspace).map c_tolower := rfl
    rw [hform, List.getLast?_map] at hc
    cases ht : ((s.dropWhile c_isspace).rdropWhile c_isspace).getLast? with
    | none => rw [ht] at hc; simp at hc
    | some c₀ =>
      rw [ht] at hc
      simp only [Option.map_some', Option.some.injEq] at hc
      rw [← hc, (c_tolower_facts c₀).1]
      exact trimmed_last s c₀ ht
  · intro c hc
    unfold normalised_string at hc
    obtain ⟨c₀, _, rfl⟩ := List.mem_map.mp hc
    exact c_tolower_not_upper c₀
  · have hform : normalised_string s =
        ((s.dropWhile c_isspace).rdropWhile c_isspace).map c_tolower := rfl
    rw [hform, List.length_map]
    exact trimmed_length s

end Astroterm
